import Mathlib

/-! Binlog temporal decoders (`mysql/time.go`).

A shallow embedding of `DecodeTimestamp2`, `DecodeDatetime2`, `DecodeTime2`,
`formatZeroTime` and `FracTime.String`, with the parts of Go's `fmt`,
`encoding/binary` and `time` packages they call.

Conventions of the embedding:

* a byte is a `Fin 256`, a byte slice is a `List Byte` (length = capacity);
* `int64` values are `Int`s kept in range by `wrap64` after every operation
  that can leave the range; `int` is 64 bits wide;
* `uint16` precision is a `Nat` below `65536`;
* a run-time panic (index or slice bound out of range) is `none`;
* Go's `/` and `%` on signed integers truncate (`Int.tdiv`, `Int.tmod`),
  `>>` on a signed integer is the flooring division by a power of two.
-/

namespace Blt

/-! ## Machine integers and byte slices -/

/-- One byte of a Go `[]byte`. -/
abbrev Byte := Fin 256

/-- Two's complement wrap-around of a mathematical integer into `int64`. -/
def wrap64 (x : Int) : Int := (x + 2 ^ 63) % 2 ^ 64 - 2 ^ 63

/-- Go `a + b` on `int64`. -/
def add64 (a b : Int) : Int := wrap64 (a + b)

/-- Go `a - b` on `int64`. -/
def sub64 (a b : Int) : Int := wrap64 (a - b)

/-- Go `a * b` on `int64`. -/
def mul64 (a b : Int) : Int := wrap64 (a * b)

/-- Go `-a` on `int64` (the most negative value is its own negation). -/
def neg64 (a : Int) : Int := wrap64 (-a)

/-- Go `a << k` on `int64`. -/
def shl64 (a : Int) (k : Nat) : Int := wrap64 (a * 2 ^ k)

/-- Go `a >> k` on `int64`: arithmetic shift, rounding towards minus infinity. -/
def shr64 (a : Int) (k : Nat) : Int := a / 2 ^ k

/-- Go `a | b` on `int64`: the bitwise or of the two 64-bit two's complement patterns, read
back as a signed value. -/
def or64 (a b : Int) : Int := wrap64 (((a % 2 ^ 64).toNat ||| (b % 2 ^ 64).toNat : Nat) : Int)

/-- Go slice expression `data[lo:hi]`; out-of-range bounds panic. A byte slice is modelled by
the list of its elements, so its capacity is its length: Go bounds `hi` by `cap(data)`, and
a slice with spare capacity can be resliced past `len(data)` where this returns `none`. The
two agree whenever `hi ≤ len(data)`. -/
def slice (data : List Byte) (lo hi : Nat) : Option (List Byte) :=
  if lo ≤ hi ∧ hi ≤ data.length then some ((data.drop lo).take (hi - lo)) else none

/-- Go slice expression `data[lo:]`; an out-of-range bound panics. -/
def sliceFrom (data : List Byte) (lo : Nat) : Option (List Byte) :=
  if lo ≤ data.length then some (data.drop lo) else none

/-- Go index expression `data[i]`; an out-of-range index panics. -/
def index (data : List Byte) (i : Nat) : Option Byte := data[i]?

/-- Modelled from the spec: `DecodeVarLen64BigEndian` is defined in another file of the
package; per the spec's VarLenIntegerReader it interprets the bytes of the slice it is given
as a big-endian unsigned integer widened to 64 bits. -/
def DecodeVarLen64BigEndian (data : List Byte) : Nat :=
  data.foldl (fun acc b => (acc * 256 + b.val) % 2 ^ 64) 0

/-- Go `binary.BigEndian.Uint16(b)`: reads `b[0]`, `b[1]`, panics on a shorter slice. -/
def BigEndianUint16 (b : List Byte) : Option Nat :=
  match b with
  | b0 :: b1 :: _ => some (b0.val * 256 + b1.val)
  | _ => none

/-- Go `binary.BigEndian.Uint32(b)`: reads `b[0]` .. `b[3]`, panics on a shorter slice. -/
def BigEndianUint32 (b : List Byte) : Option Nat :=
  match b with
  | b0 :: b1 :: b2 :: b3 :: _ =>
      some (b0.val * 16777216 + b1.val * 65536 + b2.val * 256 + b3.val)
  | _ => none

/-! ## Decimal formatting (`fmt` verbs `%0wd`) -/

/-- The character of a decimal digit. -/
def digitChar (d : Nat) : Char := Char.ofNat (48 + d)

/-- Decimal digits of `v`, most significant first, prepended to `acc`; `fuel` bounds the
number of digits produced. -/
def natDigitsAux : Nat → Nat → List Char → List Char
  | 0, _, acc => acc
  | fuel + 1, v, acc =>
      if v < 10 then digitChar v :: acc
      else natDigitsAux fuel (v / 10) (digitChar (v % 10) :: acc)

/-- Decimal digits of a natural number, most significant first (`0` is one digit). -/
def natDigits (v : Nat) : List Char := natDigitsAux (v + 1) v []

/-- Decimal digits of `v`, padded on the left with zeros to at least `w` digits. -/
def zeroPad (w v : Nat) : List Char :=
  List.replicate (w - (natDigits v).length) '0' ++ natDigits v

/-- Go `fmt` verb `%0wd` applied to an integer: zero padding to width `w`, the sign of a
negative number counting towards the width. -/
def fmtD (w : Nat) (v : Int) : String :=
  if v < 0 then String.mk ('-' :: zeroPad (w - 1) v.natAbs) else String.mk (zeroPad w v.natAbs)

/-! ## `DecodeTime2` -/

/-- Constant `offset` of `DecodeTime2`. -/
def timeOffset : Int := 0x800000000000

/-- Constant `intOffset` of `DecodeTime2`. -/
def intOffset : Int := 0x800000

/-- The borrow correction inside `case 2:` and `case 4:` of `DecodeTime2`:
`if intPart < 0 && frac > 0 { intPart++; frac -= base }`, returning `(intPart, frac)`. -/
def time2Borrow (intPart frac base : Int) : Int × Int :=
  if intPart < 0 ∧ frac > 0 then (add64 intPart 1, sub64 frac base) else (intPart, frac)

/-- The `switch dec` statement of `DecodeTime2`: the values of `tmp` and `intPart` after it.
A Go `case` does not fall through, so `case 1:`, `case 3:` and `case 5:` are empty and leave
both variables at their initial value `0`; `case 6:` assigns `tmp` only. -/
def time2Switch (data : List Byte) (dec : Nat) : Option (Int × Int) :=
  match dec with
  | 1 => some (0, 0)
  | 2 => do
      let b ← slice data 0 3
      let intPart := sub64 (DecodeVarLen64BigEndian b) intOffset
      let f ← index data 3
      let (intPart, frac) := time2Borrow intPart f.val 0x100
      some (add64 (shl64 intPart 24) (mul64 frac 10000), intPart)
  | 3 => some (0, 0)
  | 4 => do
      let b ← slice data 0 3
      let intPart := sub64 (DecodeVarLen64BigEndian b) intOffset
      let f ← (slice data 3 5).bind BigEndianUint16
      let (intPart, frac) := time2Borrow intPart f 0x10000
      some (add64 (shl64 intPart 24) (mul64 frac 100), intPart)
  | 5 => some (0, 0)
  | 6 => do
      let b ← slice data 0 6
      some (sub64 (DecodeVarLen64BigEndian b) timeOffset, 0)
  | _ => do
      let b ← slice data 0 3
      let intPart := sub64 (DecodeVarLen64BigEndian b) intOffset
      some (shl64 intPart 24, intPart)

/-- The tail of `DecodeTime2` after the `intPart == 0` test: sign, bit fields, `Sprintf`. -/
def time2Format (tmp : Int) : String :=
  let sign := if tmp < 0 then "-" else ""
  let tmp := if tmp < 0 then neg64 tmp else tmp
  let hms := shr64 tmp 24
  let hour := Int.tmod (shr64 hms 12) (2 ^ 10)
  let minute := Int.tmod (shr64 hms 6) (2 ^ 6)
  let second := Int.tmod hms (2 ^ 6)
  let secPart := Int.tmod tmp (2 ^ 24)
  if secPart ≠ 0 then
    sign ++ fmtD 2 hour ++ ":" ++ fmtD 2 minute ++ ":" ++ fmtD 2 second ++ "." ++ fmtD 6 secPart
  else
    sign ++ fmtD 2 hour ++ ":" ++ fmtD 2 minute ++ ":" ++ fmtD 2 second

/-- The value of `secPart` in `DecodeTime2`: `tmp % (1 << 24)` after `tmp` has been negated
when negative. -/
def time2SecPart (tmp : Int) : Int := Int.tmod (if tmp < 0 then neg64 tmp else tmp) (2 ^ 24)

/-- Go `DecodeTime2(data, dec)`: the decoded string and the number of bytes consumed. -/
def DecodeTime2 (data : List Byte) (dec : Nat) : Option (String × Nat) := do
  let n := 3 + (dec + 1) % 65536 / 2
  let (tmp, intPart) ← time2Switch data dec
  if intPart = 0 then some ("00:00:00", n) else some (time2Format tmp, n)


/-! ## Go's `time` package

`time.Time` values are modelled by their Unix seconds, nanoseconds and location; the calendar
arithmetic follows the standard library's `time.Date`, `norm`, `daysSinceEpoch`, `time.Unix`,
`Time.abs`, `absDate`, `absClock`, `appendInt` and `formatNano`. Go computes on `uint64`
"absolute" seconds counted from the year `absoluteZeroYear`; the values met here (years within
a few thousand of 1) stay far inside that range, so the arithmetic is on `Int`. The
process-wide `time.Local` is an explicit argument. -/

/-- A `*time.Location` as far as formatting uses it: the zone offset, in seconds east of
UTC, in force at a Unix time (`Location.lookup`). -/
structure Location where
  offsetAt : Int → Int

/-- Go `time.UTC`. -/
def UTC : Location := ⟨fun _ => 0⟩

/-- A `time.Time`: seconds since the Unix epoch, nanoseconds within the second, location. -/
structure Time where
  unixSec : Int
  nsec : Int
  loc : Location

/-- Go `secondsPerDay`. -/
def secondsPerDay : Int := 86400

/-- Go `daysPer400Years`: `365*400 + 97`. -/
def daysPer400Years : Int := 146097

/-- Go `daysPer100Years`: `365*100 + 24`. -/
def daysPer100Years : Int := 36524

/-- Go `daysPer4Years`: `365*4 + 1`. -/
def daysPer4Years : Int := 1461

/-- Go `absoluteZeroYear`: the year in which absolute time starts. -/
def absoluteZeroYear : Int := -292277022399

/-- Go `unixToInternal + internalToAbsolute`: seconds from the absolute epoch to 1970. -/
def unixToAbsolute : Int := 9223372028715321600

/-- Go `daysBefore[m]`: days in a non-leap year before month `m + 1`. -/
def daysBefore (m : Int) : Int :=
  if m = 0 then 0 else if m = 1 then 31 else if m = 2 then 59 else if m = 3 then 90
  else if m = 4 then 120 else if m = 5 then 151 else if m = 6 then 181 else if m = 7 then 212
  else if m = 8 then 243 else if m = 9 then 273 else if m = 10 then 304 else if m = 11 then 334
  else 365

/-- Go `isLeap(year)`. -/
def isLeap (year : Int) : Bool :=
  Int.tmod year 4 = 0 ∧ (Int.tmod year 100 ≠ 0 ∨ Int.tmod year 400 = 0)

/-- Go `norm(hi, lo, base)`: `(nhi, nlo)` with `hi * base + lo = nhi * base + nlo` and
`0 ≤ nlo < base`. -/
def norm (hi lo base : Int) : Int × Int :=
  let (hi, lo) :=
    if lo < 0 then
      let n := Int.tdiv (-lo - 1) base + 1
      (hi - n, lo + n * base)
    else (hi, lo)
  if lo ≥ base then
    let n := Int.tdiv lo base
    (hi + n, lo - n * base)
  else (hi, lo)

/-- Go `daysSinceEpoch(year)`: days from the absolute epoch to 1 January of `year`. -/
def daysSinceEpoch (year : Int) : Int :=
  let y := year - absoluteZeroYear
  let n := y / 400
  let y := y - 400 * n
  let d := daysPer400Years * n
  let n := y / 100
  let y := y - 100 * n
  let d := d + daysPer100Years * n
  let n := y / 4
  let y := y - 4 * n
  let d := d + daysPer4Years * n
  let n := y
  d + 365 * n

/-- Go `time.Date(year, month, day, hour, min, sec, nsec, time.UTC)`. Out-of-range fields
are normalised; UTC has offset zero, so no zone adjustment follows. -/
def Date (year month day hour min sec nsec : Int) : Time :=
  let m := month - 1
  let (year, m) := norm year m 12
  let month := m + 1
  let (sec, nsec) := norm sec nsec 1000000000
  let (min, sec) := norm min sec 60
  let (hour, min) := norm hour min 60
  let (day, hour) := norm day hour 24
  let d := daysSinceEpoch year
  let d := d + daysBefore (month - 1)
  let d := if isLeap year ∧ month ≥ 3 then d + 1 else d
  let d := d + (day - 1)
  let abs := d * secondsPerDay + (hour * 3600 + min * 60 + sec)
  ⟨abs - unixToAbsolute, nsec, UTC⟩

/-- Go `time.Unix(sec, nsec)`: the result carries the process-local location `time.Local`,
passed here as `loc`. -/
def Unix (loc : Location) (sec nsec : Int) : Time :=
  if nsec < 0 ∨ nsec ≥ 1000000000 then
    let n := Int.tdiv nsec 1000000000
    let sec := add64 sec n
    let nsec := sub64 nsec (mul64 n 1000000000)
    if nsec < 0 then ⟨sub64 sec 1, add64 nsec 1000000000, loc⟩ else ⟨sec, nsec, loc⟩
  else ⟨sec, nsec, loc⟩

/-- Go `Time.abs()`: absolute seconds of the wall clock in the time's location. -/
def Time.abs (t : Time) : Int :=
  t.unixSec + t.loc.offsetAt t.unixSec + unixToAbsolute

/-- Go `absDate(abs, false)`: `(year, yday)` of an absolute time, `yday` counted from 0. -/
def absYearDay (abs : Int) : Int × Int :=
  let d := abs / secondsPerDay
  let n := d / daysPer400Years
  let y := 400 * n
  let d := d - daysPer400Years * n
  let n := d / daysPer100Years
  let n := n - n / 4
  let y := y + 100 * n
  let d := d - daysPer100Years * n
  let n := d / daysPer4Years
  let y := y + 4 * n
  let d := d - daysPer4Years * n
  let n := d / 365
  let n := n - n / 4
  let y := y + n
  let d := d - 365 * n
  (y + absoluteZeroYear, d)

/-- The end of Go `absDate(abs, true)`: month and day of the month from the day of a
non-leap year: the month is estimated as `day / 31` and corrected with `daysBefore`. -/
def monthDayOfCommonYear (day : Int) : Int × Int :=
  let month := day / 31
  let e := daysBefore (month + 1)
  if day ≥ e then (month + 1 + 1, day - e + 1) else (month + 1, day - daysBefore month + 1)

/-- The second half of Go `absDate(abs, true)`: `(month, day)` from the day of the year; in
a leap year the leap day is answered directly and the days after it are shifted by one. -/
def yearDayToMonthDay (leap : Bool) (yday : Int) : Int × Int :=
  if leap ∧ yday = 31 + 29 - 1 then (2, 29)
  else monthDayOfCommonYear (if leap ∧ yday > 31 + 29 - 1 then yday - 1 else yday)

/-- Go `absDate(abs, true)`: `(year, month, day)` of an absolute time. -/
def absDate (abs : Int) : Int × Int × Int :=
  let (year, yday) := absYearDay abs
  let (month, day) := yearDayToMonthDay (isLeap year) yday
  (year, month, day)

/-- Go `absClock(abs)`: `(hour, min, sec)` of an absolute time. -/
def absClock (abs : Int) : Int × Int × Int :=
  let sec := abs % secondsPerDay
  let hour := sec / 3600
  let sec := sec - hour * 3600
  let min := sec / 60
  let sec := sec - min * 60
  (hour, min, sec)

/-- Go `appendInt(b, x, width)` of package `time`: sign, then the digits zero-padded to
`width`. -/
def appendInt (x : Int) (width : Nat) : List Char :=
  if x < 0 then '-' :: zeroPad width x.natAbs else zeroPad width x.natAbs

/-- Go `formatNano(b, nanosec, std)` for a `.000` layout element of `n ≤ 9` digits: a dot and
the first `n` of the nine digits of the nanoseconds. -/
def formatNano (nanosec : Int) (n : Nat) : List Char :=
  '.' :: (zeroPad 9 (nanosec.natAbs % 1000000000)).take n

/-- The elements of a layout string that `Time.Format` distinguishes (`nextStdChunk`), as far
as the layouts of this package use them. -/
inductive Chunk where
  | lit (c : Char)
  | stdLongYear
  | stdZeroMonth
  | stdZeroDay
  | stdHour
  | stdZeroMinute
  | stdZeroSecond
  | stdFracSecond0 (n : Nat)

/-- Go `Time.Format(layout)` on a layout split into its elements. -/
def Time.Format (t : Time) (layout : List Chunk) : String :=
  let abs := t.abs
  let (year, month, day) := absDate abs
  let (hour, min, sec) := absClock abs
  String.mk (layout.flatMap fun c =>
    match c with
    | Chunk.lit c => [c]
    | Chunk.stdLongYear => appendInt year 4
    | Chunk.stdZeroMonth => appendInt month 2
    | Chunk.stdZeroDay => appendInt day 2
    | Chunk.stdHour => appendInt hour 2
    | Chunk.stdZeroMinute => appendInt min 2
    | Chunk.stdZeroSecond => appendInt sec 2
    | Chunk.stdFracSecond0 n => formatNano t.nsec n)

/-! ## `FracTime`, `formatZeroTime`, `DecodeTimestamp2`, `DecodeDatetime2` -/

/-- The layout `"2006-01-02 15:04:05"` split into its elements. -/
def baseLayout : List Chunk :=
  [Chunk.stdLongYear, Chunk.lit '-', Chunk.stdZeroMonth, Chunk.lit '-', Chunk.stdZeroDay,
   Chunk.lit ' ', Chunk.stdHour, Chunk.lit ':', Chunk.stdZeroMinute, Chunk.lit ':',
   Chunk.stdZeroSecond]

/-- The table built by `init`: entry 0 is `"2006-01-02 15:04:05"`, entry `i` in `1..6` is
`"2006-01-02 15:04:05."` followed by `i` zeros. -/
def fracTimeFormat : List (List Chunk) :=
  baseLayout :: (List.range 6).map fun i => baseLayout ++ [Chunk.stdFracSecond0 (i + 1)]

/-- Go `FracTime`: a `time.Time` and the number of fractional digits. -/
structure FracTime where
  time : Time
  Dec : Int

/-- Go `FracTime.String()`: `t.Format(fracTimeFormat[t.Dec])`; the index panics when out of
range. -/
def FracTime.String (t : FracTime) : Option String :=
  if 0 ≤ t.Dec then (fracTimeFormat[t.Dec.toNat]?).map t.time.Format else none

/-- Go `formatZeroTime(frac, dec)`; the string slice panics when its bound is out of
range. -/
def formatZeroTime (frac dec : Int) : Option String :=
  if dec = 0 then some "0000-00-00 00:00:00"
  else
    let s := "0000-00-00 00:00:00." ++ fmtD 6 frac
    let hi : Int := (s.length : Int) - (6 - dec)
    if 0 ≤ hi ∧ hi ≤ s.length then some (String.mk (s.data.take hi.toNat)) else none

/-- The `switch dec` statement of `DecodeTimestamp2`: the value of `usec` after it. -/
def timestamp2Usec (data : List Byte) (dec : Nat) : Option Int :=
  match dec with
  | 1 | 2 => (index data 4).map fun (b : Byte) => mul64 (b.val : Int) 10000
  | 3 | 4 => ((sliceFrom data 4).bind BigEndianUint16).map fun (v : Nat) => mul64 (v : Int) 100
  | 5 | 6 => (slice data 4 7).map fun b => wrap64 ((DecodeVarLen64BigEndian b : Nat) : Int)
  | _ => some 0

/-- The `switch dec` statement of `DecodeDatetime2`: the value of `frac` after it. -/
def datetime2Frac (data : List Byte) (dec : Nat) : Option Int :=
  match dec with
  | 1 | 2 => (index data 5).map fun (b : Byte) => mul64 (b.val : Int) 10000
  | 3 | 4 => ((slice data 5 7).bind BigEndianUint16).map fun (v : Nat) => mul64 (v : Int) 100
  | 5 | 6 => (slice data 5 8).map fun b => wrap64 ((DecodeVarLen64BigEndian b : Nat) : Int)
  | _ => some 0

/-- Go `DecodeTimestamp2(data, dec)`; `Local` is the process-wide `time.Local` that
`time.Unix` attaches to its result. -/
def DecodeTimestamp2 (Local : Location) (data : List Byte) (dec : Nat) :
    Option (String × Nat) := do
  let n := 4 + (dec + 1) % 65536 / 2
  let sec : Nat ← (slice data 0 4).bind BigEndianUint32
  let usec ← timestamp2Usec data dec
  if sec = 0 then
    (formatZeroTime usec dec).map fun s => (s, n)
  else
    (FracTime.String ⟨Unix Local (sec : Int) (mul64 usec 1000), dec⟩).map fun s => (s, n)

/-- Constant `offset` of `DecodeDatetime2`. -/
def datetimeOffset : Int := 0x8000000000

/-- The bit fields `(year, month, day, hour, minute, second)` that `DecodeDatetime2`
extracts from `tmp = intPart<<24 + frac`. -/
def datetime2Fields (intPart frac : Int) : Int × Int × Int × Int × Int × Int :=
  let tmp := add64 (shl64 intPart 24) frac
  let tmp := if tmp < 0 then neg64 tmp else tmp
  let ymdhms := shr64 tmp 24
  let ymd := shr64 ymdhms 17
  let ym := shr64 ymd 5
  let hms := Int.tmod ymdhms (2 ^ 17)
  let day := Int.tmod ymd (2 ^ 5)
  let month := Int.tmod ym 13
  let year := Int.tdiv ym 13
  let second := Int.tmod hms (2 ^ 6)
  let minute := Int.tmod (shr64 hms 6) (2 ^ 6)
  let hour := shr64 hms 12
  (year, month, day, hour, minute, second)

/-- Go `DecodeDatetime2(data, dec)`. -/
def DecodeDatetime2 (data : List Byte) (dec : Nat) : Option (String × Nat) := do
  let n := 5 + (dec + 1) % 65536 / 2
  let b ← slice data 0 5
  let intPart := sub64 (DecodeVarLen64BigEndian b) datetimeOffset
  let frac ← datetime2Frac data dec
  if intPart = 0 then
    (formatZeroTime frac dec).map fun s => (s, n)
  else
    let (year, month, day, hour, minute, second) := datetime2Fields intPart frac
    (FracTime.String ⟨Date year month day hour minute second (mul64 frac 1000), dec⟩).map
      fun s => (s, n)

/-! ## Specification-level definitions used in the statements -/

/-- The text `HH:MM:SS` of a packed hour/minute/second field: hour = bits 12..21,
minute = bits 6..11, second = bits 0..5, each printed with `%02d`. -/
def hmsText (hms : Nat) : String :=
  fmtD 2 ((hms / 4096 % 1024 : Nat) : Int) ++ ":" ++ fmtD 2 ((hms / 64 % 64 : Nat) : Int) ++ ":" ++
    fmtD 2 ((hms % 64 : Nat) : Int)

/-- Gregorian leap-year rule. -/
def leapYear (year : Int) : Prop := year % 4 = 0 ∧ (year % 100 ≠ 0 ∨ year % 400 = 0)

instance (year : Int) : Decidable (leapYear year) := by unfold leapYear; infer_instance

/-- Number of days of a month of the Gregorian calendar. -/
def daysInMonth (year month : Int) : Int :=
  if month = 2 then (if leapYear year then 29 else 28)
  else if month = 4 ∨ month = 6 ∨ month = 9 ∨ month = 11 then 30 else 31

/-- A calendar date and time of day that exists in the Gregorian calendar. -/
def validCivil (year month day hour minute second : Int) : Prop :=
  1 ≤ month ∧ month ≤ 12 ∧ 1 ≤ day ∧ day ≤ daysInMonth year month ∧
    0 ≤ hour ∧ hour ≤ 23 ∧ 0 ≤ minute ∧ minute ≤ 59 ∧ 0 ≤ second ∧ second ≤ 59

instance (year month day hour minute second : Int) :
    Decidable (validCivil year month day hour minute second) := by
  unfold validCivil; infer_instance

/-- Days of the Gregorian calendar from 1 January 1970 to the given date. -/
def daysFromCivil (year month day : Int) : Int :=
  365 * (year - 1970) + ((year - 1) / 4 - (year - 1) / 100 + (year - 1) / 400 - 477) +
    daysBefore (month - 1) + (if leapYear year ∧ 3 ≤ month then 1 else 0) + (day - 1)

/-- Seconds from 1970-01-01 00:00:00 to the given calendar date and time of day. -/
def civilToUnix (year month day hour minute second : Int) : Int :=
  daysFromCivil year month day * 86400 + hour * 3600 + minute * 60 + second

/-- The text `YYYY-MM-DD HH:MM:SS`: year zero-padded to 4 digits, the other fields to 2. -/
def civilText (year month day hour minute second : Nat) : String :=
  String.mk (zeroPad 4 year ++ '-' :: zeroPad 2 month ++ '-' :: zeroPad 2 day ++
    ' ' :: zeroPad 2 hour ++ ':' :: zeroPad 2 minute ++ ':' :: zeroPad 2 second)

/-- Number of fraction bytes that follow the integer part at a precision (the spec's
`extraBytes`): 0, 1, 1, 2, 2, 3, 3 for precisions 0 to 6. -/
def extraBytes (p : Nat) : Nat :=
  match p with
  | 0 => 0
  | 1 | 2 => 1
  | 3 | 4 => 2
  | _ => 3

/-- The scaled fraction encoded by the fraction bytes `fb` at precision `p`: nothing at 0,
one byte times 10000 at 1-2, big-endian 16 bits times 100 at 3-4, big-endian 24 bits at
5-6. -/
def scaledFraction (fb : List Byte) (p : Nat) : Nat :=
  match p with
  | 0 => 0
  | 1 | 2 => (fb.getD 0 0).val * 10000
  | 3 | 4 => ((fb.getD 0 0).val * 256 + (fb.getD 1 0).val) * 100
  | _ => (fb.getD 0 0).val * 65536 + (fb.getD 1 0).val * 256 + (fb.getD 2 0).val

/-- The six digits of the zero-padded decimal representation of a number below 10^6. -/
def sixDigits (m : Nat) : List Char :=
  [digitChar (m / 100000 % 10), digitChar (m / 10000 % 10), digitChar (m / 1000 % 10),
   digitChar (m / 100 % 10), digitChar (m / 10 % 10), digitChar (m % 10)]

/-- The spec's combination `packed = intPart << 24 | frac` of `DecodeDatetime2` (the code
adds instead). -/
def packedOr (intPart frac : Int) : Int := or64 (shl64 intPart 24) frac

/-- The bit fields of `DecodeDatetime2` as the spec words them: the extraction of
`datetime2Fields` applied to `packed = intPart << 24 | frac`, negated when negative. -/
def datetime2FieldsOr (intPart frac : Int) : Int × Int × Int × Int × Int × Int :=
  let packed := packedOr intPart frac
  let packed := if packed < 0 then neg64 packed else packed
  let ymdhms := shr64 packed 24
  let ymd := shr64 ymdhms 17
  let ym := shr64 ymd 5
  let hms := Int.tmod ymdhms (2 ^ 17)
  let day := Int.tmod ymd (2 ^ 5)
  let month := Int.tmod ym 13
  let year := Int.tdiv ym 13
  let second := Int.tmod hms (2 ^ 6)
  let minute := Int.tmod (shr64 hms 6) (2 ^ 6)
  let hour := shr64 hms 12
  (year, month, day, hour, minute, second)

/-- The datetime decoder as the spec words it: `DecodeDatetime2` with the fields taken from
`packed = intPart << 24 | frac` instead of from the sum. -/
def DecodeDatetime2Or (data : List Byte) (dec : Nat) : Option (String × Nat) := do
  let n := 5 + (dec + 1) % 65536 / 2
  let b ← slice data 0 5
  let intPart := sub64 (DecodeVarLen64BigEndian b) datetimeOffset
  let frac ← datetime2Frac data dec
  if intPart = 0 then
    (formatZeroTime frac dec).map fun s => (s, n)
  else
    let (year, month, day, hour, minute, second) := datetime2FieldsOr intPart frac
    (FracTime.String ⟨Date year month day hour minute second (mul64 frac 1000), dec⟩).map
      fun s => (s, n)

/-- The raw fractional field encoded by the fraction bytes `fb` at precision `p`, before
scaling: one byte at 1-2, big-endian 16 bits at 3-4, big-endian 24 bits at 5-6. -/
def rawFraction (fb : List Byte) (p : Nat) : Nat :=
  match p with
  | 0 => 0
  | 1 | 2 => (fb.getD 0 0).val
  | 3 | 4 => (fb.getD 0 0).val * 256 + (fb.getD 1 0).val
  | _ => (fb.getD 0 0).val * 65536 + (fb.getD 1 0).val * 256 + (fb.getD 2 0).val

/-- The number of values a raw fractional field of a valid encoding can take at precision
`p`: 100 at 1-2, 10000 at 3-4, 1000000 at 5-6. -/
def rawLimit (p : Nat) : Nat :=
  match p with
  | 0 => 1
  | 1 | 2 => 100
  | 3 | 4 => 10000
  | _ => 1000000

/-- The bit fields `(year, month, day, hour, minute, second)` of a non-negative `ymdhms` as
the spec lists them: `ymd = ymdhms >> 17`, `hms = ymdhms mod 2^17`, `day = ymd mod 32`,
`month = (ymd >> 5) mod 13`, `year = (ymd >> 5) / 13`, `second = hms mod 64`,
`minute = (hms >> 6) mod 64`, `hour = hms >> 12`. -/
def fieldsOf (ymdhms : Int) : Int × Int × Int × Int × Int × Int :=
  (ymdhms / 2 ^ 17 / 2 ^ 5 / 13, ymdhms / 2 ^ 17 / 2 ^ 5 % 13, ymdhms / 2 ^ 17 % 2 ^ 5,
    ymdhms % 2 ^ 17 / 2 ^ 12, ymdhms % 2 ^ 17 / 2 ^ 6 % 2 ^ 6, ymdhms % 2 ^ 17 % 2 ^ 6)

/-! ## Lemmas on machine integers, slices and `DecodeTime2` -/

theorem wrap64_of_range (x : Int) (h1 : -2 ^ 63 ≤ x) (h2 : x < 2 ^ 63) : wrap64 x = x := by
  unfold wrap64; omega

theorem DecodeVarLen64BigEndian_three (b0 b1 b2 : Byte) :
    DecodeVarLen64BigEndian [b0, b1, b2] = b0.val * 65536 + b1.val * 256 + b2.val := by
  have h0 := b0.isLt
  have h1 := b1.isLt
  have h2 := b2.isLt
  simp only [DecodeVarLen64BigEndian, List.foldl]
  omega

theorem slice_zero_three (b0 b1 b2 : Byte) (rest : List Byte) :
    slice (b0 :: b1 :: b2 :: rest) 0 3 = some [b0, b1, b2] := by
  simp [slice]

theorem uint16_three_five (b0 b1 b2 f1 f2 : Byte) (rest : List Byte) :
    (slice (b0 :: b1 :: b2 :: f1 :: f2 :: rest) 3 5).bind BigEndianUint16 =
      some (f1.val * 256 + f2.val) := by
  simp [slice, BigEndianUint16]

/-- The 3-byte integer part of `DecodeTime2` after subtracting `intOffset`. -/
theorem time2_intPart (b0 b1 b2 : Byte) :
    sub64 ((DecodeVarLen64BigEndian [b0, b1, b2] : Nat) : Int) intOffset =
      (b0.val * 65536 + b1.val * 256 + b2.val : Int) - 0x800000 := by
  have h0 := b0.isLt
  have h1 := b1.isLt
  have h2 := b2.isLt
  rw [DecodeVarLen64BigEndian_three]
  unfold sub64 wrap64 intOffset
  omega

/-- The formatting tail of `DecodeTime2` on a negative `tmp = -(hms * 2^24 + s)`. -/
theorem time2Format_neg (hms s : Nat) (hh : hms < 2 ^ 39) (hs : s < 2 ^ 24)
    (hpos : 0 < hms * 2 ^ 24 + s) :
    time2Format (-((hms * 2 ^ 24 + s : Nat) : Int)) =
      if s ≠ 0 then "-" ++ hmsText hms ++ "." ++ fmtD 6 (s : Int) else "-" ++ hmsText hms := by
  have hneg : (-((hms * 2 ^ 24 + s : Nat) : Int)) < 0 := by omega
  have hw : neg64 (-((hms * 2 ^ 24 + s : Nat) : Int)) = ((hms * 2 ^ 24 + s : Nat) : Int) := by
    unfold neg64 wrap64; omega
  have e1 : shr64 ((hms * 2 ^ 24 + s : Nat) : Int) 24 = (hms : Int) := by
    unfold shr64; omega
  have e2 : Int.tmod ((hms * 2 ^ 24 + s : Nat) : Int) (2 ^ 24) = (s : Int) := by
    rw [Int.tmod_eq_emod (by omega) (by norm_num)]; omega
  have e3 : Int.tmod (shr64 (hms : Int) 12) (2 ^ 10) = ((hms / 4096 % 1024 : Nat) : Int) := by
    unfold shr64
    rw [Int.tmod_eq_emod (by omega) (by norm_num)]; omega
  have e4 : Int.tmod (shr64 (hms : Int) 6) (2 ^ 6) = ((hms / 64 % 64 : Nat) : Int) := by
    unfold shr64
    rw [Int.tmod_eq_emod (by omega) (by norm_num)]; omega
  have e5 : Int.tmod (hms : Int) (2 ^ 6) = ((hms % 64 : Nat) : Int) := by
    rw [Int.tmod_eq_emod (by omega) (by norm_num)]; omega
  simp only [time2Format, hneg, if_true, hw, e1, e2, e3, e4, e5, hmsText]
  by_cases h0 : s = 0
  · simp [h0, String.append_assoc]
  · have : (s : Int) ≠ 0 := by omega
    simp [h0, this, String.append_assoc]

/-- The formatting tail of `DecodeTime2` on a non-negative `tmp = hms * 2^24 + s`. -/
theorem time2Format_nonneg (hms s : Nat) (hs : s < 2 ^ 24) :
    time2Format ((hms * 2 ^ 24 + s : Nat) : Int) =
      if s ≠ 0 then hmsText hms ++ "." ++ fmtD 6 (s : Int) else hmsText hms := by
  have hneg : ¬ ((hms * 2 ^ 24 + s : Nat) : Int) < 0 := by omega
  have e1 : shr64 ((hms * 2 ^ 24 + s : Nat) : Int) 24 = (hms : Int) := by
    unfold shr64; omega
  have e2 : Int.tmod ((hms * 2 ^ 24 + s : Nat) : Int) (2 ^ 24) = (s : Int) := by
    rw [Int.tmod_eq_emod (by omega) (by norm_num)]; omega
  have e3 : Int.tmod (shr64 (hms : Int) 12) (2 ^ 10) = ((hms / 4096 % 1024 : Nat) : Int) := by
    unfold shr64
    rw [Int.tmod_eq_emod (by omega) (by norm_num)]; omega
  have e4 : Int.tmod (shr64 (hms : Int) 6) (2 ^ 6) = ((hms / 64 % 64 : Nat) : Int) := by
    unfold shr64
    rw [Int.tmod_eq_emod (by omega) (by norm_num)]; omega
  have e5 : Int.tmod (hms : Int) (2 ^ 6) = ((hms % 64 : Nat) : Int) := by
    rw [Int.tmod_eq_emod (by omega) (by norm_num)]; omega
  simp only [time2Format, hneg, if_false, e1, e2, e3, e4, e5, hmsText]
  by_cases h0 : s = 0
  · simp [h0, String.append_assoc]
  · have : (s : Int) ≠ 0 := by omega
    simp [h0, this, String.append_assoc]

/-- The borrow correction when it applies, on values far from the `int64` bounds. -/
theorem time2Borrow_taken (i f base : Int) (hi : i < 0) (hf : 0 < f)
    (h1 : -2 ^ 40 ≤ i) (h2 : f < 2 ^ 40) (h3 : 0 ≤ base) (h4 : base < 2 ^ 40) :
    time2Borrow i f base = (i + 1, f - base) := by
  unfold time2Borrow add64 sub64 wrap64
  rw [if_pos ⟨hi, hf⟩]
  simp only [Prod.mk.injEq]
  constructor <;> omega

/-- C1. Borrow correction of `DecodeTime2`: when the first three bytes read as `v` with
`I = v - 0x800000 ≤ -2` and the raw fractional field `f` is positive, the result at precision 2
(one fraction byte) and at precision 4 (two fraction bytes, big-endian) is `-` followed by
`HH:MM:SS` of `hms = -I - 1`, a dot, and `(256 - f) * 10000`, respectively `(65536 - f) * 100`,
printed with `%06d`. -/
theorem DecodeTime2_borrow (b0 b1 b2 f1 f2 : Byte) (rest : List Byte) (hms : Nat)
    (hI : (b0.val * 65536 + b1.val * 256 + b2.val : Int) - 0x800000 ≤ -2)
    (hhms : (hms : Int) = -((b0.val * 65536 + b1.val * 256 + b2.val : Int) - 0x800000) - 1) :
    (0 < f1.val →
      DecodeTime2 (b0 :: b1 :: b2 :: f1 :: rest) 2 =
        some ("-" ++ hmsText hms ++ "." ++ fmtD 6 (((256 - f1.val) * 10000 : Nat) : Int), 4)) ∧
    (0 < f1.val * 256 + f2.val →
      DecodeTime2 (b0 :: b1 :: b2 :: f1 :: f2 :: rest) 4 =
        some ("-" ++ hmsText hms ++ "." ++
          fmtD 6 (((65536 - (f1.val * 256 + f2.val)) * 100 : Nat) : Int), 5)) := by
  have h0 := b0.isLt
  have h1 := b1.isLt
  have h2 := b2.isLt
  have h3 := f1.isLt
  have h4 := f2.isLt
  constructor
  · intro hf
    have hb := time2Borrow_taken ((b0.val * 65536 + b1.val * 256 + b2.val : Int) - 0x800000)
      (f1.val : Int) 0x100 (by omega) (by omega) (by omega) (by omega) (by omega) (by omega)
    have hsw : time2Switch (b0 :: b1 :: b2 :: f1 :: rest) 2 =
        some (-((hms * 2 ^ 24 + (256 - f1.val) * 10000 : Nat) : Int), -(hms : Int)) := by
      simp only [time2Switch, slice_zero_three, index, time2_intPart,
        Option.bind_eq_bind, Option.some_bind, List.getElem?_cons_succ, List.getElem?_cons_zero,
        hb, add64, shl64, mul64, wrap64, Option.some.injEq, Prod.mk.injEq]
      constructor <;> omega
    have hfmt := time2Format_neg hms ((256 - f1.val) * 10000) (by omega) (by omega) (by omega)
    rw [if_pos (by omega)] at hfmt
    simp only [DecodeTime2, hsw, Option.bind_eq_bind, Option.some_bind]
    rw [if_neg (by omega), hfmt]
  · intro hf
    have hb := time2Borrow_taken ((b0.val * 65536 + b1.val * 256 + b2.val : Int) - 0x800000)
      ((f1.val * 256 + f2.val : Nat) : Int) 0x10000
      (by omega) (by omega) (by omega) (by omega) (by omega) (by omega)
    have hsw : time2Switch (b0 :: b1 :: b2 :: f1 :: f2 :: rest) 4 =
        some (-((hms * 2 ^ 24 + (65536 - (f1.val * 256 + f2.val)) * 100 : Nat) : Int),
          -(hms : Int)) := by
      simp only [time2Switch, slice_zero_three, uint16_three_five, time2_intPart,
        Option.bind_eq_bind, Option.some_bind,
        hb, add64, shl64, mul64, wrap64, Option.some.injEq, Prod.mk.injEq]
      constructor <;> omega
    have hfmt := time2Format_neg hms ((65536 - (f1.val * 256 + f2.val)) * 100)
      (by omega) (by omega) (by omega)
    rw [if_pos (by omega)] at hfmt
    simp only [DecodeTime2, hsw, Option.bind_eq_bind, Option.some_bind]
    rw [if_neg (by omega), hfmt]

/-- The packed field `hour << 12 | minute << 6 | second` as a sum. -/
theorem packHms_eq (hour minute second : Nat) (hm : minute < 64) (hs : second < 64) :
    hour <<< 12 ||| minute <<< 6 ||| second = hour * 4096 + minute * 64 + second := by
  have e1 : hour <<< 12 ||| minute <<< 6 = hour * 4096 + minute * 64 := by
    have h := Nat.mul_add_lt_is_or (i := 12) (b := minute * 2 ^ 6) (by omega) hour
    rw [Nat.shiftLeft_eq, Nat.shiftLeft_eq, Nat.mul_comm hour (2 ^ 12), ← h]
    omega
  have e2 : hour * 4096 + minute * 64 = 2 ^ 6 * (hour * 64 + minute) := by omega
  rw [e1, e2, ← Nat.mul_add_lt_is_or (i := 6) (b := second) (by omega)]

/-- The text of a packed field built from in-range hour, minute and second. -/
theorem hmsText_pack (hour minute second : Nat) (hh : hour < 1024) (hm : minute < 64)
    (hs : second < 64) :
    hmsText (hour * 4096 + minute * 64 + second) =
      fmtD 2 (hour : Int) ++ ":" ++ fmtD 2 (minute : Int) ++ ":" ++ fmtD 2 (second : Int) := by
  have e1 : (hour * 4096 + minute * 64 + second) / 4096 % 1024 = hour := by omega
  have e2 : (hour * 4096 + minute * 64 + second) / 64 % 64 = minute := by omega
  have e3 : (hour * 4096 + minute * 64 + second) % 64 = second := by omega
  simp only [hmsText, e1, e2, e3]

/-- C3. `DecodeTime2` at precision 0: three bytes holding `0x800000 + hms` decode to
`HH:MM:SS`, three bytes holding `0x800000 - hms` decode to `-HH:MM:SS`, for
`hms = hour << 12 | minute << 6 | second` with the fields in range and not all zero; three
bytes are consumed. -/
theorem DecodeTime2_precision0 (hour minute second : Nat) (b0 b1 b2 : Byte) (rest : List Byte)
    (hh : hour < 1024) (hm : minute < 64) (hs : second < 64)
    (hnz : ¬(hour = 0 ∧ minute = 0 ∧ second = 0)) :
    (b0.val * 65536 + b1.val * 256 + b2.val
        = 0x800000 + (hour <<< 12 ||| minute <<< 6 ||| second) →
      DecodeTime2 (b0 :: b1 :: b2 :: rest) 0 =
        some (fmtD 2 (hour : Int) ++ ":" ++ fmtD 2 (minute : Int) ++ ":" ++
          fmtD 2 (second : Int), 3)) ∧
    (b0.val * 65536 + b1.val * 256 + b2.val
        = 0x800000 - (hour <<< 12 ||| minute <<< 6 ||| second) →
      DecodeTime2 (b0 :: b1 :: b2 :: rest) 0 =
        some ("-" ++ (fmtD 2 (hour : Int) ++ ":" ++ fmtD 2 (minute : Int) ++ ":" ++
          fmtD 2 (second : Int)), 3)) := by
  have h0 := b0.isLt
  have h1 := b1.isLt
  have h2 := b2.isLt
  rw [packHms_eq hour minute second hm hs]
  constructor
  · intro hv
    have hsw : time2Switch (b0 :: b1 :: b2 :: rest) 0 =
        some ((((hour * 4096 + minute * 64 + second) * 2 ^ 24 + 0 : Nat) : Int),
          ((hour * 4096 + minute * 64 + second : Nat) : Int)) := by
      simp only [time2Switch, slice_zero_three, time2_intPart, Option.bind_eq_bind,
        Option.some_bind, shl64, wrap64, Option.some.injEq, Prod.mk.injEq]
      constructor <;> omega
    have hfmt := time2Format_nonneg (hour * 4096 + minute * 64 + second) 0 (by norm_num)
    rw [if_neg (by simp), hmsText_pack hour minute second hh hm hs] at hfmt
    simp only [DecodeTime2, hsw, Option.bind_eq_bind, Option.some_bind]
    rw [if_neg (by omega), hfmt]
  · intro hv
    have hsw : time2Switch (b0 :: b1 :: b2 :: rest) 0 =
        some (-(((hour * 4096 + minute * 64 + second) * 2 ^ 24 + 0 : Nat) : Int),
          -((hour * 4096 + minute * 64 + second : Nat) : Int)) := by
      simp only [time2Switch, slice_zero_three, time2_intPart, Option.bind_eq_bind,
        Option.some_bind, shl64, wrap64, Option.some.injEq, Prod.mk.injEq]
      constructor <;> omega
    have hfmt := time2Format_neg (hour * 4096 + minute * 64 + second) 0 (by omega)
      (by norm_num) (by omega)
    rw [if_neg (by simp), hmsText_pack hour minute second hh hm hs] at hfmt
    simp only [DecodeTime2, hsw, Option.bind_eq_bind, Option.some_bind]
    rw [if_neg (by omega), hfmt]

/-- C4. At the failing input, six bytes holding `0x800000000000 - (0x1083 << 24)` (minus
1 hour 2 minutes 3 seconds) at precision 6: the switch leaves `tmp = -(0x1083 << 24)`, which
is not zero, and `intPart = 0`, so `DecodeTime2` returns the literal `00:00:00`; at precision
5 nothing is read at all. -/
theorem DecodeTime2_precision6_discards_tmp :
    time2Switch [0x7F, 0xEF, 0x7D, 0x00, 0x00, 0x00] 6 = some (-(0x1083 * 2 ^ 24), 0) ∧
    time2Format (-(0x1083 * 2 ^ 24)) = "-01:02:03" ∧
    DecodeTime2 [0x7F, 0xEF, 0x7D, 0x00, 0x00, 0x00] 6 = some ("00:00:00", 6) ∧
    DecodeTime2 [0x7F, 0xEF, 0x7D, 0x00, 0x00, 0x00] 5 = some ("00:00:00", 6) := by
  decide

/-- C5. At the failing input, the bytes `80 10 83 32` (1 hour 2 minutes 3 seconds and a
fraction byte of 50): precision 2 decodes them, precision 1 returns `00:00:00`; likewise
precision 3 against precision 4 on `80 10 83 13 88`. -/
theorem DecodeTime2_precision1_differs :
    DecodeTime2 [0x80, 0x10, 0x83, 0x32] 1 = some ("00:00:00", 4) ∧
    DecodeTime2 [0x80, 0x10, 0x83, 0x32] 2 = some ("01:02:03.500000", 4) ∧
    DecodeTime2 [0x80, 0x10, 0x83, 0x13, 0x88] 3 = some ("00:00:00", 5) ∧
    DecodeTime2 [0x80, 0x10, 0x83, 0x13, 0x88] 4 = some ("01:02:03.500000", 5) := by
  decide

/-- Witness of C1 at `7F FF FE F6` (precision 2) and `7F FF FE FF 9C` (precision 4). -/
theorem DecodeTime2_borrow_witness :
    DecodeTime2 [0x7F, 0xFF, 0xFE, 0xF6] 2 = some ("-00:00:01.100000", 4) ∧
    DecodeTime2 [0x7F, 0xFF, 0xFE, 0xFF, 0x9C] 4 = some ("-00:00:01.010000", 5) :=
  ⟨(DecodeTime2_borrow 0x7F 0xFF 0xFE 0xF6 0 [] 1 (by decide) (by decide)).1 (by decide),
   (DecodeTime2_borrow 0x7F 0xFF 0xFE 0xFF 0x9C [] 1 (by decide) (by decide)).2 (by decide)⟩

/-- Witness of C3 at 1 hour 2 minutes 3 seconds. -/
theorem DecodeTime2_precision0_witness :
    DecodeTime2 [0x80, 0x10, 0x83] 0 = some ("01:02:03", 3) ∧
    DecodeTime2 [0x7F, 0xEF, 0x7D] 0 = some ("-01:02:03", 3) :=
  ⟨(DecodeTime2_precision0 1 2 3 0x80 0x10 0x83 [] (by decide) (by decide) (by decide)
      (by decide)).1 (by decide),
   (DecodeTime2_precision0 1 2 3 0x7F 0xEF 0x7D [] (by decide) (by decide) (by decide)
      (by decide)).2 (by decide)⟩

/-! ## Lemmas on the calendar arithmetic of package `time` -/

theorem tmod_eq_zero_iff_emod (a b : Int) : Int.tmod a b = 0 ↔ a % b = 0 := by
  rw [← Int.dvd_iff_tmod_eq_zero, Int.dvd_iff_emod_eq_zero]

/-- Go's `isLeap` is the Gregorian leap-year rule. -/
theorem isLeap_iff (year : Int) : isLeap year = true ↔ leapYear year := by
  simp only [isLeap, leapYear, decide_eq_true_eq, ne_eq, tmod_eq_zero_iff_emod]

/-- `norm` leaves an in-range low part alone. -/
theorem norm_of_range (hi lo base : Int) (h0 : 0 ≤ lo) (h1 : lo < base) :
    norm hi lo base = (hi, lo) := by
  unfold norm
  rw [if_neg (by omega)]
  simp only
  rw [if_neg (by omega)]

/-- `daysSinceEpoch` in closed form: days from the absolute epoch to 1 January of `year`. -/
theorem daysSinceEpoch_eq (year : Int) :
    daysSinceEpoch year =
      365 * (year - 1970) + ((year - 1) / 4 - (year - 1) / 100 + (year - 1) / 400 - 477) +
        106751991073094 := by
  simp only [daysSinceEpoch, absoluteZeroYear, daysPer400Years, daysPer100Years, daysPer4Years]
  omega

/-- Years counted from the absolute epoch split into 400-, 100-, 4- and 1-year cycles. -/
theorem year_cycles (year : Int) :
    ∃ a b c e : Int, year = 400 * a + 100 * b + 4 * c + e + absoluteZeroYear ∧
      0 ≤ b ∧ b ≤ 3 ∧ 0 ≤ c ∧ c ≤ 24 ∧ 0 ≤ e ∧ e ≤ 3 :=
  ⟨(year - absoluteZeroYear) / 400, (year - absoluteZeroYear) % 400 / 100,
    (year - absoluteZeroYear) % 100 / 4, (year - absoluteZeroYear) % 4, by
      unfold absoluteZeroYear; omega⟩

theorem daysSinceEpoch_cycles (a b c e : Int) (hb0 : 0 ≤ b) (hb : b ≤ 3) (hc0 : 0 ≤ c)
    (hc : c ≤ 24) (he0 : 0 ≤ e) (he : e ≤ 3) :
    daysSinceEpoch (400 * a + 100 * b + 4 * c + e + absoluteZeroYear) =
      146097 * a + 36524 * b + 1461 * c + 365 * e := by
  simp only [daysSinceEpoch, absoluteZeroYear, daysPer400Years, daysPer100Years, daysPer4Years]
  omega

theorem leapYear_cycles (a b c e : Int) (hb0 : 0 ≤ b) (hb : b ≤ 3) (hc0 : 0 ≤ c)
    (hc : c ≤ 24) (he0 : 0 ≤ e) (he : e ≤ 3) :
    leapYear (400 * a + 100 * b + 4 * c + e + absoluteZeroYear) ↔ e = 3 ∧ (c ≠ 24 ∨ b = 3) := by
  simp only [leapYear, absoluteZeroYear]
  omega

theorem absYearDay_cycles (a b c e yday secs : Int) (hb0 : 0 ≤ b) (hb : b ≤ 3) (hc0 : 0 ≤ c)
    (hc : c ≤ 24) (he0 : 0 ≤ e) (he : e ≤ 3) (h0 : 0 ≤ yday)
    (h1 : yday ≤ 364 ∨ (yday = 365 ∧ e = 3 ∧ (c ≠ 24 ∨ b = 3)))
    (hs0 : 0 ≤ secs) (hs1 : secs < 86400) :
    absYearDay ((146097 * a + 36524 * b + 1461 * c + 365 * e + yday) * 86400 + secs) =
      (400 * a + 100 * b + 4 * c + e + absoluteZeroYear, yday) := by
  have e1 : ((146097 * a + 36524 * b + 1461 * c + 365 * e + yday) * 86400 + secs) / 86400 =
      146097 * a + (36524 * b + 1461 * c + 365 * e + yday) := by omega
  have e2 : (146097 * a + (36524 * b + 1461 * c + 365 * e + yday)) / 146097 = a := by
    clear e1; omega
  have e3 : (36524 * b + 1461 * c + 365 * e + yday) / 36524 -
      (36524 * b + 1461 * c + 365 * e + yday) / 36524 / 4 = b := by
    clear e1 e2
    have hq : (36524 * b + 1461 * c + 365 * e + yday) / 36524 = b ∨
        ((36524 * b + 1461 * c + 365 * e + yday) / 36524 = 4 ∧ b = 3) := by omega
    rcases hq with hq | ⟨hq, hb3⟩
    · rw [hq]; omega
    · rw [hq, hb3]; rfl
  have e4 : (1461 * c + 365 * e + yday) / 1461 = c := by
    clear e1 e2 e3; omega
  have e5 : (365 * e + yday) / 365 - (365 * e + yday) / 365 / 4 = e := by
    clear e1 e2 e3 e4; omega
  have f1 : 146097 * a + (36524 * b + 1461 * c + 365 * e + yday) - 146097 * a =
      36524 * b + 1461 * c + 365 * e + yday := by clear e1 e2 e3 e4 e5; omega
  have f2 : 36524 * b + 1461 * c + 365 * e + yday - 36524 * b = 1461 * c + 365 * e + yday := by
    clear e1 e2 e3 e4 e5; omega
  have f3 : 1461 * c + 365 * e + yday - 1461 * c = 365 * e + yday := by
    clear e1 e2 e3 e4 e5; omega
  have f4 : 365 * e + yday - 365 * e = yday := by
    clear e1 e2 e3 e4 e5; omega
  have f5 : 400 * a + 100 * b + 4 * c + e = 400 * a + 100 * b + 4 * c + e := rfl
  simp only [absYearDay, daysPer400Years, daysPer100Years, daysPer4Years, secondsPerDay, e1, e2,
    f1, e3, f2, e4, f3, e5, f4]

/-- The `daysBefore` table. -/
theorem daysBefore_table :
    daysBefore 0 = 0 ∧ daysBefore 1 = 31 ∧ daysBefore 2 = 59 ∧ daysBefore 3 = 90 ∧
    daysBefore 4 = 120 ∧ daysBefore 5 = 151 ∧ daysBefore 6 = 181 ∧ daysBefore 7 = 212 ∧
    daysBefore 8 = 243 ∧ daysBefore 9 = 273 ∧ daysBefore 10 = 304 ∧ daysBefore 11 = 334 ∧
    daysBefore 12 = 365 := by
  decide

/-- Days of month `m` when the year's leap flag is `leap`, from the `daysBefore` table. -/
theorem daysInMonth_eq (year month : Int) (h1 : 1 ≤ month) (h2 : month ≤ 12) :
    daysInMonth year month =
      daysBefore month - daysBefore (month - 1) +
        (if leapYear year ∧ month = 2 then 1 else 0) := by
  have hm : month = 1 ∨ month = 2 ∨ month = 3 ∨ month = 4 ∨ month = 5 ∨ month = 6 ∨
      month = 7 ∨ month = 8 ∨ month = 9 ∨ month = 10 ∨ month = 11 ∨ month = 12 := by omega
  rcases hm with h | h | h | h | h | h | h | h | h | h | h | h <;> subst h <;>
    by_cases hl : leapYear year <;> simp [daysInMonth, daysBefore, hl]

/-- Month and day of a day of a non-leap year. -/
theorem monthDayOfCommonYear_spec (day : Int) (hd0 : 0 ≤ day) (hd1 : day ≤ 364) :
    1 ≤ (monthDayOfCommonYear day).1 ∧ (monthDayOfCommonYear day).1 ≤ 12 ∧
    1 ≤ (monthDayOfCommonYear day).2 ∧
    (monthDayOfCommonYear day).2 ≤
      daysBefore (monthDayOfCommonYear day).1 - daysBefore ((monthDayOfCommonYear day).1 - 1) ∧
    daysBefore ((monthDayOfCommonYear day).1 - 1) + ((monthDayOfCommonYear day).2 - 1) = day ∧
    ((monthDayOfCommonYear day).1 ≤ 2 ↔ day < 59) := by
  have hq : day / 31 = 0 ∨ day / 31 = 1 ∨ day / 31 = 2 ∨ day / 31 = 3 ∨ day / 31 = 4 ∨
      day / 31 = 5 ∨ day / 31 = 6 ∨ day / 31 = 7 ∨ day / 31 = 8 ∨ day / 31 = 9 ∨
      day / 31 = 10 ∨ day / 31 = 11 := by omega
  obtain ⟨t0, t1, t2, t3, t4, t5, t6, t7, t8, t9, t10, t11, t12⟩ := daysBefore_table
  simp only [monthDayOfCommonYear]
  rcases hq with h | h | h | h | h | h | h | h | h | h | h | h <;> rw [h] <;>
    norm_num only [t0, t1, t2, t3, t4, t5, t6, t7, t8, t9, t10, t11, t12] <;>
    split <;>
    norm_num only [t0, t1, t2, t3, t4, t5, t6, t7, t8, t9, t10, t11, t12] <;>
    (try simp only [true_and, false_iff, true_iff, not_lt]) <;> omega

/-- The month and day computed from a day of the year form a date of that year, and the day
of the year is recovered from them. -/
theorem yearDayToMonthDay_spec (leap : Bool) (yday : Int) (h0 : 0 ≤ yday)
    (h1 : yday < 365 + (if leap then 1 else 0)) :
    1 ≤ (yearDayToMonthDay leap yday).1 ∧ (yearDayToMonthDay leap yday).1 ≤ 12 ∧
    1 ≤ (yearDayToMonthDay leap yday).2 ∧
    (yearDayToMonthDay leap yday).2 ≤
      daysBefore (yearDayToMonthDay leap yday).1 - daysBefore ((yearDayToMonthDay leap yday).1 - 1)
        + (if leap ∧ (yearDayToMonthDay leap yday).1 = 2 then 1 else 0) ∧
    daysBefore ((yearDayToMonthDay leap yday).1 - 1) +
      (if leap ∧ 3 ≤ (yearDayToMonthDay leap yday).1 then 1 else 0) +
      ((yearDayToMonthDay leap yday).2 - 1) = yday := by
  obtain ⟨-, t1, t2, -⟩ := daysBefore_table
  unfold yearDayToMonthDay
  cases leap
  · simp only [Bool.false_eq_true, false_and, if_false, add_zero] at h1 ⊢
    obtain ⟨a1, a2, a3, a4, a5, -⟩ := monthDayOfCommonYear_spec yday h0 (by omega)
    exact ⟨a1, a2, a3, a4, a5⟩
  · simp only [true_and, if_true] at h1 ⊢
    by_cases h59 : yday = 31 + 29 - 1
    · rw [if_pos h59]
      subst h59
      norm_num [t1, t2]
    · rw [if_neg h59]
      by_cases hgt : yday > 31 + 29 - 1
      · rw [if_pos hgt]
        obtain ⟨a1, a2, a3, a4, a5, a6⟩ := monthDayOfCommonYear_spec (yday - 1) (by omega)
          (by omega)
        generalize monthDayOfCommonYear (yday - 1) = p at a1 a2 a3 a4 a5 a6 ⊢
        have hm : ¬ p.1 ≤ 2 := by rw [a6]; omega
        have i1 : (if p.1 = 2 then (1 : Int) else 0) = 0 := if_neg (by omega)
        have i2 : (if 3 ≤ p.1 then (1 : Int) else 0) = 1 := if_pos (by omega)
        rw [i1, i2]
        exact ⟨a1, a2, a3, by omega, by omega⟩
      · rw [if_neg hgt]
        obtain ⟨a1, a2, a3, a4, a5, a6⟩ := monthDayOfCommonYear_spec yday (by omega) (by omega)
        generalize monthDayOfCommonYear yday = p at a1 a2 a3 a4 a5 a6 ⊢
        have hm : p.1 ≤ 2 := by rw [a6]; omega
        have i1 : 0 ≤ (if p.1 = 2 then (1 : Int) else 0) := by split <;> omega
        have i2 : (if 3 ≤ p.1 then (1 : Int) else 0) = 0 := if_neg (by omega)
        rw [i2]
        exact ⟨a1, a2, a3, by omega, by omega⟩

/-- The day of a non-leap year of a month and a day of the month is mapped back to them. -/
theorem monthDayOfCommonYear_of (month day : Int) (hm1 : 1 ≤ month) (hm2 : month ≤ 12)
    (hd1 : 1 ≤ day) (hd2 : day ≤ daysBefore month - daysBefore (month - 1)) :
    monthDayOfCommonYear (daysBefore (month - 1) + (day - 1)) = (month, day) := by
  obtain ⟨t0, t1, t2, t3, t4, t5, t6, t7, t8, t9, t10, t11, t12⟩ := daysBefore_table
  generalize hx : daysBefore (month - 1) + (day - 1) = x
  have hm : month = 1 ∨ month = 2 ∨ month = 3 ∨ month = 4 ∨ month = 5 ∨ month = 6 ∨
      month = 7 ∨ month = 8 ∨ month = 9 ∨ month = 10 ∨ month = 11 ∨ month = 12 := by omega
  have hx0 : 0 ≤ x ∧ x ≤ 364 := by
    rcases hm with h | h | h | h | h | h | h | h | h | h | h | h <;> subst h <;>
      norm_num only [t0, t1, t2, t3, t4, t5, t6, t7, t8, t9, t10, t11, t12] at hd2 hx <;> omega
  have hq : x / 31 = 0 ∨ x / 31 = 1 ∨ x / 31 = 2 ∨ x / 31 = 3 ∨ x / 31 = 4 ∨
      x / 31 = 5 ∨ x / 31 = 6 ∨ x / 31 = 7 ∨ x / 31 = 8 ∨ x / 31 = 9 ∨
      x / 31 = 10 ∨ x / 31 = 11 := by omega
  simp only [monthDayOfCommonYear]
  rcases hm with h | h | h | h | h | h | h | h | h | h | h | h <;> subst h <;>
    norm_num only [t0, t1, t2, t3, t4, t5, t6, t7, t8, t9, t10, t11, t12] at hd2 hx <;>
    rcases hq with h | h | h | h | h | h | h | h | h | h | h | h <;> rw [h] <;>
    norm_num only [t0, t1, t2, t3, t4, t5, t6, t7, t8, t9, t10, t11, t12] <;>
    split <;> simp only [Prod.mk.injEq, true_and, false_and] <;> omega

/-- The day of the year of a month and a day of the month is mapped back to them. -/
theorem yearDayToMonthDay_of (leap : Bool) (month day : Int) (hm1 : 1 ≤ month)
    (hm2 : month ≤ 12) (hd1 : 1 ≤ day)
    (hd2 : day ≤ daysBefore month - daysBefore (month - 1) +
      (if leap ∧ month = 2 then 1 else 0)) :
    yearDayToMonthDay leap
      (daysBefore (month - 1) + (if leap ∧ 3 ≤ month then 1 else 0) + (day - 1)) =
      (month, day) := by
  obtain ⟨t0, t1, t2, t3, t4, t5, t6, t7, t8, t9, t10, t11, t12⟩ := daysBefore_table
  unfold yearDayToMonthDay
  cases leap
  · simp only [Bool.false_eq_true, false_and, if_false, add_zero] at hd2 ⊢
    exact monthDayOfCommonYear_of month day hm1 hm2 hd1 hd2
  · simp only [true_and] at hd2 ⊢
    by_cases h3 : 3 ≤ month
    · have hdb : 59 ≤ daysBefore (month - 1) := by
        have hm : month = 3 ∨ month = 4 ∨ month = 5 ∨ month = 6 ∨
          month = 7 ∨ month = 8 ∨ month = 9 ∨ month = 10 ∨ month = 11 ∨ month = 12 := by omega
        rcases hm with h | h | h | h | h | h | h | h | h | h <;> subst h <;>
          norm_num only [t2, t3, t4, t5, t6, t7, t8, t9, t10, t11]
      rw [if_neg (by omega)] at hd2
      rw [if_pos h3, if_neg (by omega), if_pos (by omega)]
      have e : daysBefore (month - 1) + 1 + (day - 1) - 1 = daysBefore (month - 1) + (day - 1) := by
        omega
      rw [e]
      exact monthDayOfCommonYear_of month day hm1 hm2 hd1 (by omega)
    · rw [if_neg h3]
      have hm : month = 1 ∨ month = 2 := by omega
      rcases hm with h | h <;> subst h <;> norm_num only [t0, t1, t2] at hd2 ⊢ <;>
        simp only [if_false, if_true, add_zero] at hd2
      · rw [if_neg (by omega), if_neg (by omega)]
        have := monthDayOfCommonYear_of 1 day (by omega) (by omega) hd1
          (by norm_num only [t0, t1]; omega)
        norm_num only [t0] at this
        exact this
      · by_cases h29 : day = 29
        · subst h29
          norm_num
        · rw [if_neg (by omega), if_neg (by omega)]
          have := monthDayOfCommonYear_of 2 day (by omega) (by omega) hd1
            (by norm_num only [t1, t2]; omega)
          norm_num only [t1] at this
          exact this

/-- `absYearDay` inverts `daysSinceEpoch`: a day of the year `year` is mapped back to the
year and its index in the year. -/
theorem absYearDay_of_year (year yday secs : Int) (h0 : 0 ≤ yday)
    (h1 : yday < 365 + (if leapYear year then 1 else 0))
    (hs0 : 0 ≤ secs) (hs1 : secs < 86400) :
    absYearDay ((daysSinceEpoch year + yday) * 86400 + secs) = (year, yday) := by
  obtain ⟨a, b, c, e, hy, hb0, hb, hc0, hc, he0, he⟩ := year_cycles year
  subst hy
  have hl := leapYear_cycles a b c e hb0 hb hc0 hc he0 he
  rw [daysSinceEpoch_cycles a b c e hb0 hb hc0 hc he0 he]
  apply absYearDay_cycles a b c e yday secs hb0 hb hc0 hc he0 he h0 _ hs0 hs1
  by_cases hleap : leapYear (400 * a + 100 * b + 4 * c + e + absoluteZeroYear)
  · rw [if_pos hleap] at h1
    have := hl.mp hleap
    omega
  · rw [if_neg hleap] at h1
    left; omega

/-- Every day number splits into 400-, 100-, 4- and 1-year cycles and a day of the year. -/
theorem day_cycles (N : Int) :
    ∃ a b c e yday : Int, N = 146097 * a + 36524 * b + 1461 * c + 365 * e + yday ∧
      0 ≤ b ∧ b ≤ 3 ∧ 0 ≤ c ∧ c ≤ 24 ∧ 0 ≤ e ∧ e ≤ 3 ∧ 0 ≤ yday ∧
      (yday ≤ 364 ∨ (yday = 365 ∧ e = 3 ∧ (c ≠ 24 ∨ b = 3))) := by
  obtain ⟨a, r, hNa, hr0, hr1⟩ : ∃ a r : Int, N = 146097 * a + r ∧ 0 ≤ r ∧ r ≤ 146096 :=
    ⟨N / 146097, N % 146097, by omega⟩
  obtain ⟨b, r2, hb0, hb, hrb, hr20, hr21⟩ : ∃ b r2 : Int, 0 ≤ b ∧ b ≤ 3 ∧
      r = 36524 * b + r2 ∧ 0 ≤ r2 ∧ (r2 ≤ 36523 ∨ (b = 3 ∧ r2 = 36524)) := by
    by_cases h : r = 146096
    · exact ⟨3, 36524, by omega⟩
    · exact ⟨r / 36524, r % 36524, by omega⟩
  obtain ⟨c, r3, hc0, hc, hrc, hr30, hr31⟩ : ∃ c r3 : Int, 0 ≤ c ∧ c ≤ 24 ∧
      r2 = 1461 * c + r3 ∧ 0 ≤ r3 ∧ (r3 ≤ 1459 ∨ (r3 = 1460 ∧ (c ≠ 24 ∨ b = 3))) := by
    by_cases h : r2 = 36524
    · exact ⟨24, 1460, by omega⟩
    · exact ⟨r2 / 1461, r2 % 1461, by omega⟩
  obtain ⟨e, yday, he0, he, hre, hy0, hy1⟩ : ∃ e yday : Int, 0 ≤ e ∧ e ≤ 3 ∧
      r3 = 365 * e + yday ∧ 0 ≤ yday ∧ (yday ≤ 364 ∨ (yday = 365 ∧ e = 3 ∧ r3 = 1460)) := by
    by_cases h : r3 = 1460
    · exact ⟨3, 365, by omega⟩
    · exact ⟨r3 / 365, r3 % 365, by omega⟩
  exact ⟨a, b, c, e, yday, by omega⟩

/-- The year and day of the year computed from an absolute time: the day lies in the year,
and the absolute day number is recovered from them. -/
theorem absYearDay_spec (abs : Int) :
    daysSinceEpoch (absYearDay abs).1 + (absYearDay abs).2 = abs / 86400 ∧
    0 ≤ (absYearDay abs).2 ∧
    (absYearDay abs).2 < 365 + (if leapYear (absYearDay abs).1 then 1 else 0) := by
  obtain ⟨a, b, c, e, yday, hN, hb0, hb, hc0, hc, he0, he, hy0, hy1⟩ := day_cycles (abs / 86400)
  have habs : abs = (146097 * a + 36524 * b + 1461 * c + 365 * e + yday) * 86400 + abs % 86400 := by
    omega
  have h := absYearDay_cycles a b c e yday (abs % 86400) hb0 hb hc0 hc he0 he hy0 hy1
    (by omega) (by omega)
  rw [← habs] at h
  rw [h]
  simp only
  rw [daysSinceEpoch_cycles a b c e hb0 hb hc0 hc he0 he]
  refine ⟨by omega, hy0, ?_⟩
  have hl := leapYear_cycles a b c e hb0 hb hc0 hc he0 he
  by_cases hleap : leapYear (400 * a + 100 * b + 4 * c + e + absoluteZeroYear)
  · rw [if_pos hleap]; omega
  · rw [if_neg hleap]
    rw [hl] at hleap
    omega

/-- The day of the year of a calendar date lies in the year. -/
theorem yday_range (year month day : Int) (hm1 : 1 ≤ month) (hm2 : month ≤ 12) (hd1 : 1 ≤ day)
    (hd2 : day ≤ daysInMonth year month) :
    0 ≤ daysBefore (month - 1) + (if leapYear year ∧ 3 ≤ month then 1 else 0) + (day - 1) ∧
    daysBefore (month - 1) + (if leapYear year ∧ 3 ≤ month then 1 else 0) + (day - 1) <
      365 + (if leapYear year then 1 else 0) := by
  obtain ⟨t0, t1, t2, t3, t4, t5, t6, t7, t8, t9, t10, t11, t12⟩ := daysBefore_table
  rw [daysInMonth_eq year month hm1 hm2] at hd2
  have hm : month = 1 ∨ month = 2 ∨ month = 3 ∨ month = 4 ∨ month = 5 ∨ month = 6 ∨
      month = 7 ∨ month = 8 ∨ month = 9 ∨ month = 10 ∨ month = 11 ∨ month = 12 := by omega
  by_cases hl : leapYear year <;>
    simp only [hl, true_and, false_and, if_true, if_false] at hd2 ⊢ <;>
    rcases hm with h | h | h | h | h | h | h | h | h | h | h | h <;> subst h <;>
    norm_num only [t0, t1, t2, t3, t4, t5, t6, t7, t8, t9, t10, t11, t12] at hd2 ⊢ <;>
    (try simp only [if_true, if_false] at hd2 ⊢) <;> omega

/-- `absDate` maps the absolute time of a calendar date back to the date. -/
theorem absDate_of_civil (year month day secs : Int) (hm1 : 1 ≤ month) (hm2 : month ≤ 12)
    (hd1 : 1 ≤ day) (hd2 : day ≤ daysInMonth year month) (hs0 : 0 ≤ secs) (hs1 : secs < 86400) :
    absDate ((daysSinceEpoch year + (daysBefore (month - 1) +
      (if leapYear year ∧ 3 ≤ month then 1 else 0) + (day - 1))) * 86400 + secs) =
      (year, month, day) := by
  obtain ⟨hy0, hy1⟩ := yday_range year month day hm1 hm2 hd1 hd2
  have h1 := absYearDay_of_year year _ secs hy0 hy1 hs0 hs1
  have hd2' := hd2
  rw [daysInMonth_eq year month hm1 hm2] at hd2'
  simp only [absDate, h1]
  have h2 := yearDayToMonthDay_of (isLeap year) month day hm1 hm2 hd1
    (by simpa only [isLeap_iff] using hd2')
  simp only [isLeap_iff] at h2
  rw [h2]

/-- The date computed from an absolute time exists in the calendar, and the absolute day
number is recovered from it. -/
theorem absDate_spec (abs : Int) :
    1 ≤ (absDate abs).2.1 ∧ (absDate abs).2.1 ≤ 12 ∧ 1 ≤ (absDate abs).2.2 ∧
    (absDate abs).2.2 ≤ daysInMonth (absDate abs).1 (absDate abs).2.1 ∧
    daysSinceEpoch (absDate abs).1 + (daysBefore ((absDate abs).2.1 - 1) +
      (if leapYear (absDate abs).1 ∧ 3 ≤ (absDate abs).2.1 then 1 else 0) +
      ((absDate abs).2.2 - 1)) = abs / 86400 := by
  obtain ⟨a1, a2, a3⟩ := absYearDay_spec abs
  have hb := yearDayToMonthDay_spec (isLeap (absYearDay abs).1) (absYearDay abs).2 a2
    (by simpa only [isLeap_iff] using a3)
  simp only [isLeap_iff] at hb
  obtain ⟨b1, b2, b3, b4, b5⟩ := hb
  simp only [absDate]
  refine ⟨b1, b2, b3, ?_, ?_⟩
  · rw [daysInMonth_eq _ _ b1 b2]
    simpa only [isLeap_iff] using b4
  · omega

/-- `absClock` on a time of day added to whole days. -/
theorem absClock_of (days hour min sec : Int) (hh0 : 0 ≤ hour) (hh1 : hour ≤ 23)
    (hm0 : 0 ≤ min) (hm1 : min ≤ 59) (hs0 : 0 ≤ sec) (hs1 : sec ≤ 59) :
    absClock (days * 86400 + (hour * 3600 + min * 60 + sec)) = (hour, min, sec) := by
  have e1 : (days * 86400 + (hour * 3600 + min * 60 + sec)) % 86400 =
      hour * 3600 + min * 60 + sec := by omega
  have e2 : (hour * 3600 + min * 60 + sec) / 3600 = hour := by omega
  have e3 : (hour * 3600 + min * 60 + sec - hour * 3600) / 60 = min := by omega
  simp only [absClock, secondsPerDay, e1, e2, e3, Prod.mk.injEq, true_and]
  omega

/-- The time of day computed from an absolute time is in range and recovers the seconds of
the day. -/
theorem absClock_spec (abs : Int) :
    0 ≤ (absClock abs).1 ∧ (absClock abs).1 ≤ 23 ∧ 0 ≤ (absClock abs).2.1 ∧
    (absClock abs).2.1 ≤ 59 ∧ 0 ≤ (absClock abs).2.2 ∧ (absClock abs).2.2 ≤ 59 ∧
    (absClock abs).1 * 3600 + (absClock abs).2.1 * 60 + (absClock abs).2.2 = abs % 86400 := by
  simp only [absClock, secondsPerDay]
  omega

/-! ## Lemmas on decimal formatting -/

/-- The digit producer does not depend on its fuel once the fuel exceeds the value. -/
theorem natDigitsAux_eq (fuel : Nat) : ∀ (v : Nat) (acc : List Char), v < fuel →
    natDigitsAux fuel v acc = natDigits v ++ acc := by
  induction fuel using Nat.strong_induction_on with
  | _ fuel ih =>
    intro v acc hv
    cases fuel with
    | zero => omega
    | succ fuel =>
      by_cases h10 : v < 10
      · simp [natDigitsAux, natDigits, h10]
      · have e1 : natDigitsAux (fuel + 1) v acc =
            natDigitsAux fuel (v / 10) (digitChar (v % 10) :: acc) := by
          simp [natDigitsAux, h10]
        have e2 : natDigits v = natDigitsAux v (v / 10) [digitChar (v % 10)] := by
          simp [natDigits, natDigitsAux, h10]
        by_cases hf : v = fuel
        · subst hf
          rw [e1, e2, ih v (by omega) (v / 10) _ (by omega),
            ih v (by omega) (v / 10) _ (by omega)]
          simp
        · rw [e1, e2, ih fuel (by omega) (v / 10) _ (by omega),
            ih v (by omega) (v / 10) _ (by omega)]
          simp

theorem natDigits_lt (v : Nat) (h : v < 10) : natDigits v = [digitChar v] := by
  simp [natDigits, natDigitsAux, h]

theorem natDigits_ge (v : Nat) (h : 10 ≤ v) :
    natDigits v = natDigits (v / 10) ++ [digitChar (v % 10)] := by
  have h10 : ¬ v < 10 := by omega
  have e2 : natDigits v = natDigitsAux v (v / 10) [digitChar (v % 10)] := by
    simp [natDigits, natDigitsAux, h10]
  rw [e2, natDigitsAux_eq v (v / 10) _ (by omega)]

/-- A zero-padded number ends with its last digit. -/
theorem zeroPad_succ (w v : Nat) (hw : 1 ≤ w) :
    zeroPad (w + 1) v = zeroPad w (v / 10) ++ [digitChar (v % 10)] := by
  by_cases h : v < 10
  · have h0 : v / 10 = 0 := by omega
    have hm : v % 10 = v := by omega
    have hz : natDigits 0 = ['0'] := by decide
    simp only [zeroPad, natDigits_lt v h, h0, hm, hz, List.length_singleton]
    have : w + 1 - 1 = (w - 1) + 1 := by omega
    simp [this, List.replicate_succ']
  · rw [zeroPad, natDigits_ge v (by omega)]
    simp only [zeroPad, List.length_append, List.length_singleton, List.append_assoc]
    have : w + 1 - ((natDigits (v / 10)).length + 1) = w - (natDigits (v / 10)).length := by
      omega
    rw [this]

theorem zeroPad_one (v : Nat) (h : v < 10) : zeroPad 1 v = [digitChar v] := by
  simp [zeroPad, natDigits_lt v h]

/-- Two-digit fields. -/
theorem zeroPad_two (v : Nat) (h : v < 100) :
    zeroPad 2 v = [digitChar (v / 10), digitChar (v % 10)] := by
  rw [zeroPad_succ 1 v (by omega), zeroPad_one (v / 10) (by omega)]
  rfl

/-- Four-digit fields. -/
theorem zeroPad_four (v : Nat) (h : v < 10000) :
    zeroPad 4 v = [digitChar (v / 1000), digitChar (v / 100 % 10), digitChar (v / 10 % 10),
      digitChar (v % 10)] := by
  rw [zeroPad_succ 3 v (by omega), zeroPad_succ 2 (v / 10) (by omega),
    zeroPad_succ 1 (v / 10 / 10) (by omega), zeroPad_one (v / 10 / 10 / 10) (by omega)]
  have e1 : v / 10 / 10 / 10 = v / 1000 := by omega
  have e2 : v / 10 / 10 % 10 = v / 100 % 10 := by omega
  rw [e1, e2]
  rfl

/-- Six-digit fields. -/
theorem zeroPad_six (v : Nat) (h : v < 1000000) :
    zeroPad 6 v = [digitChar (v / 100000), digitChar (v / 10000 % 10),
      digitChar (v / 1000 % 10), digitChar (v / 100 % 10), digitChar (v / 10 % 10),
      digitChar (v % 10)] := by
  rw [zeroPad_succ 5 v (by omega), zeroPad_succ 4 (v / 10) (by omega),
    zeroPad_succ 3 (v / 10 / 10) (by omega), zeroPad_succ 2 (v / 10 / 10 / 10) (by omega),
    zeroPad_succ 1 (v / 10 / 10 / 10 / 10) (by omega),
    zeroPad_one (v / 10 / 10 / 10 / 10 / 10) (by omega)]
  have e1 : v / 10 / 10 / 10 / 10 / 10 = v / 100000 := by omega
  have e2 : v / 10 / 10 / 10 / 10 % 10 = v / 10000 % 10 := by omega
  have e3 : v / 10 / 10 / 10 % 10 = v / 1000 % 10 := by omega
  have e4 : v / 10 / 10 % 10 = v / 100 % 10 := by omega
  rw [e1, e2, e3, e4]
  rfl

/-- A zero-padded number has at least the requested number of digits. -/
theorem zeroPad_length_ge (w v : Nat) : w ≤ (zeroPad w v).length := by
  simp only [zeroPad, List.length_append, List.length_replicate]
  omega

/-- `Time.Format` on the layout `"2006-01-02 15:04:05"`. -/
theorem Format_baseLayout (t : Time) :
    t.Format baseLayout =
      String.mk (appendInt (absDate t.abs).1 4 ++ '-' :: appendInt (absDate t.abs).2.1 2 ++
        '-' :: appendInt (absDate t.abs).2.2 2 ++ ' ' :: appendInt (absClock t.abs).1 2 ++
        ':' :: appendInt (absClock t.abs).2.1 2 ++ ':' :: appendInt (absClock t.abs).2.2 2) := by
  simp [Time.Format, baseLayout, List.flatMap]

theorem appendInt_nat (n w : Nat) : appendInt (n : Int) w = zeroPad w n := by
  have : ¬ ((n : Int) < 0) := by omega
  simp [appendInt, this]

/-! ## `DecodeDatetime2` on calendar dates -/

theorem DecodeVarLen64BigEndian_five (b0 b1 b2 b3 b4 : Byte) :
    DecodeVarLen64BigEndian [b0, b1, b2, b3, b4] =
      b0.val * 4294967296 + b1.val * 16777216 + b2.val * 65536 + b3.val * 256 + b4.val := by
  have h0 := b0.isLt
  have h1 := b1.isLt
  have h2 := b2.isLt
  have h3 := b3.isLt
  have h4 := b4.isLt
  simp only [DecodeVarLen64BigEndian, List.foldl]
  omega

theorem slice_zero_five (b0 b1 b2 b3 b4 : Byte) (rest : List Byte) :
    slice (b0 :: b1 :: b2 :: b3 :: b4 :: rest) 0 5 = some [b0, b1, b2, b3, b4] := by
  simp [slice]

/-- The packed datetime `(((year*13 + month) << 5 | day) << 17) | hms` as a sum. -/
theorem packDatetime_eq (ym day hour minute second : Nat) (hd : day < 32) (hh : hour < 32)
    (hm : minute < 64) (hs : second < 64) :
    (ym <<< 5 ||| day) <<< 17 ||| (hour <<< 12 ||| minute <<< 6 ||| second) =
      (ym * 32 + day) * 131072 + (hour * 4096 + minute * 64 + second) := by
  rw [packHms_eq hour minute second hm hs]
  have e1 : ym <<< 5 ||| day = ym * 32 + day := by
    rw [Nat.shiftLeft_eq, Nat.mul_comm ym (2 ^ 5), ← Nat.mul_add_lt_is_or (by omega)]
  rw [e1, Nat.shiftLeft_eq, Nat.mul_comm (ym * 32 + day) (2 ^ 17),
    ← Nat.mul_add_lt_is_or (by omega)]

/-- The bit fields of a packed datetime with no fraction. -/
theorem datetime2Fields_pack (year month day hour minute second : Nat) (hy : year ≤ 9999)
    (hmo : month < 13) (hd : day < 32) (hh : hour < 32) (hm : minute < 64) (hs : second < 64) :
    datetime2Fields ((((year * 13 + month) * 32 + day) * 131072 +
      (hour * 4096 + minute * 64 + second) : Nat) : Int) 0 =
      ((year : Int), (month : Int), (day : Int), (hour : Int), (minute : Int), (second : Int)) := by
  generalize hp : ((year * 13 + month) * 32 + day) * 131072 +
      (hour * 4096 + minute * 64 + second) = p
  have hp1 : p < 2 ^ 39 := by omega
  have e0 : add64 (shl64 (p : Int) 24) 0 = (p : Int) * 2 ^ 24 := by
    unfold add64 shl64 wrap64; omega
  have e1 : shr64 ((p : Int) * 2 ^ 24) 24 = (p : Int) := by
    unfold shr64; omega
  have e2 : shr64 (p : Int) 17 = (((year * 13 + month) * 32 + day : Nat) : Int) := by
    unfold shr64; omega
  have e3 : shr64 (((year * 13 + month) * 32 + day : Nat) : Int) 5 =
      ((year * 13 + month : Nat) : Int) := by
    unfold shr64; omega
  have e4 : Int.tmod (p : Int) (2 ^ 17) = ((hour * 4096 + minute * 64 + second : Nat) : Int) := by
    rw [Int.tmod_eq_emod (by omega) (by norm_num)]; omega
  have e5 : Int.tmod (((year * 13 + month) * 32 + day : Nat) : Int) (2 ^ 5) = (day : Int) := by
    rw [Int.tmod_eq_emod (by omega) (by norm_num)]; omega
  have e6 : Int.tmod ((year * 13 + month : Nat) : Int) 13 = (month : Int) := by
    rw [Int.tmod_eq_emod (by omega) (by norm_num)]; omega
  have e7 : Int.tdiv ((year * 13 + month : Nat) : Int) 13 = (year : Int) := by
    rw [Int.tdiv_eq_ediv (by omega) (by norm_num)]; omega
  have e8 : Int.tmod ((hour * 4096 + minute * 64 + second : Nat) : Int) (2 ^ 6) =
      (second : Int) := by
    rw [Int.tmod_eq_emod (by omega) (by norm_num)]; omega
  have e9 : Int.tmod (shr64 ((hour * 4096 + minute * 64 + second : Nat) : Int) 6) (2 ^ 6) =
      (minute : Int) := by
    unfold shr64
    rw [Int.tmod_eq_emod (by omega) (by norm_num)]; omega
  have e10 : shr64 ((hour * 4096 + minute * 64 + second : Nat) : Int) 12 = (hour : Int) := by
    unfold shr64; omega
  have hneg : ¬ ((p : Int) * 2 ^ 24 < 0) := by omega
  simp only [datetime2Fields, e0, hneg, if_false, e1, e2, e3, e4, e5, e6, e7, e8, e9, e10]

/-- `time.Date` followed by `Format` on a date and time of day that exist. -/
theorem Date_Format_valid (year month day hour minute second : Nat)
    (hv : validCivil year month day hour minute second) :
    (Date year month day hour minute second 0).Format baseLayout =
      civilText year month day hour minute second := by
  obtain ⟨hm1, hm2, hd1, hd2, hh0, hh1, hmi0, hmi1, hs0, hs1⟩ := hv
  have n1 := norm_of_range (year : Int) ((month : Int) - 1) 12 (by omega) (by omega)
  have n2 := norm_of_range (second : Int) 0 1000000000 (by omega) (by omega)
  have n3 := norm_of_range (minute : Int) (second : Int) 60 (by omega) (by omega)
  have n4 := norm_of_range (hour : Int) (minute : Int) 60 (by omega) (by omega)
  have n5 := norm_of_range (day : Int) (hour : Int) 24 (by omega) (by omega)
  have habs : (Date year month day hour minute second 0).abs =
      (daysSinceEpoch year + (daysBefore ((month : Int) - 1) +
        (if leapYear year ∧ 3 ≤ (month : Int) then 1 else 0) + ((day : Int) - 1))) * 86400 +
        ((hour : Int) * 3600 + (minute : Int) * 60 + (second : Int)) := by
    unfold Date
    simp only [n1, n2, n3, n4, n5]
    simp only [Time.abs]
    simp only [UTC]
    simp only [secondsPerDay, isLeap_iff]
    have e : (month : Int) - 1 + 1 - 1 = (month : Int) - 1 := by omega
    rw [e]
    by_cases hl : leapYear (year : Int) ∧ (month : Int) - 1 + 1 ≥ 3
    · rw [if_pos hl, if_pos ⟨hl.1, by omega⟩]; omega
    · rw [if_neg hl, if_neg (fun h => hl ⟨h.1, by omega⟩)]; omega
  rw [Format_baseLayout, habs,
    absDate_of_civil year month day _ hm1 hm2 hd1 hd2 (by omega) (by omega),
    absClock_of _ hour minute second hh0 hh1 hmi0 hmi1 hs0 hs1]
  simp only [appendInt_nat, civilText]

/-- C2. `DecodeDatetime2` at precision 0 on a packed calendar value: when the first five
bytes are the big-endian encoding of
`0x8000000000 + ((((year*13 + month) << 5) | day) << 17 | (hour << 12 | minute << 6 | second))`
for a date and time that exist (year 1..9999), the result is the zero-padded text
`YYYY-MM-DD HH:MM:SS` of that tuple, and 5 bytes are consumed. -/
theorem DecodeDatetime2_calendar (year month day hour minute second : Nat)
    (b0 b1 b2 b3 b4 : Byte) (rest : List Byte) (_hy1 : 1 ≤ year) (hy2 : year ≤ 9999)
    (hv : validCivil year month day hour minute second)
    (hb : b0.val * 4294967296 + b1.val * 16777216 + b2.val * 65536 + b3.val * 256 + b4.val =
      0x8000000000 + (((year * 13 + month) <<< 5 ||| day) <<< 17 |||
        (hour <<< 12 ||| minute <<< 6 ||| second))) :
    DecodeDatetime2 (b0 :: b1 :: b2 :: b3 :: b4 :: rest) 0 =
      some (civilText year month day hour minute second, 5) := by
  have hv' := hv
  obtain ⟨hm1, hm2, hd1, hd2, hh0, hh1, hmi0, hmi1, hs0, hs1⟩ := hv'
  have hd3 : (day : Int) ≤ 31 := by
    have : daysInMonth (year : Int) (month : Int) ≤ 31 := by
      unfold daysInMonth; split <;> split <;> omega
    omega
  rw [packDatetime_eq _ day hour minute second (by omega) (by omega) (by omega) (by omega)] at hb
  have hint : sub64 ((DecodeVarLen64BigEndian [b0, b1, b2, b3, b4] : Nat) : Int) datetimeOffset =
      ((((year * 13 + month) * 32 + day) * 131072 +
        (hour * 4096 + minute * 64 + second) : Nat) : Int) := by
    rw [DecodeVarLen64BigEndian_five, hb]
    unfold sub64 wrap64 datetimeOffset
    omega
  have hf := datetime2Fields_pack year month day hour minute second hy2 (by omega) (by omega)
    (by omega) (by omega) (by omega)
  have hfmt := Date_Format_valid year month day hour minute second hv
  have hne : ¬ ((((year * 13 + month) * 32 + day) * 131072 +
      (hour * 4096 + minute * 64 + second) : Nat) : Int) = 0 := by omega
  have h1000 : mul64 0 1000 = 0 := by decide
  simp only [DecodeDatetime2, slice_zero_five, Option.bind_eq_bind, Option.some_bind, hint,
    datetime2Frac, hne, if_false, hf, h1000, FracTime.String]
  simp [fracTimeFormat, hfmt]

/-- Witness of C2 at 2024-01-15 03:04:05, encoded as `99 B2 5E 31 05`. -/
theorem DecodeDatetime2_calendar_witness :
    DecodeDatetime2 [0x99, 0xB2, 0x5E, 0x31, 0x05] 0 = some ("2024-01-15 03:04:05", 5) :=
  DecodeDatetime2_calendar 2024 1 15 3 4 5 0x99 0xB2 0x5E 0x31 0x05 [] (by decide) (by decide)
    (by decide) (by decide)

/-! ## Totality and the number of bytes consumed -/

theorem index_append (pre fb : List Byte) (f0 : Byte) :
    index (pre ++ f0 :: fb) pre.length = some f0 := by
  rw [index, List.getElem?_append_right (le_refl _)]
  simp

theorem slice_append (pre fb : List Byte) (k : Nat) (hk : k ≤ fb.length) :
    slice (pre ++ fb) pre.length (pre.length + k) = some (fb.take k) := by
  simp [slice, hk]

theorem sliceFrom_append (pre fb : List Byte) : sliceFrom (pre ++ fb) pre.length = some fb := by
  simp [sliceFrom]

/-- The scaled fraction on one fraction byte. -/
theorem scaled_one (f0 : Byte) : mul64 (f0.val : Int) 10000 = ((f0.val * 10000 : Nat) : Int) := by
  have h0 := f0.isLt
  unfold mul64 wrap64; push_cast; omega

/-- The scaled fraction on two fraction bytes. -/
theorem scaled_two (f0 f1 : Byte) :
    mul64 ((f0.val * 256 + f1.val : Nat) : Int) 100 =
      (((f0.val * 256 + f1.val) * 100 : Nat) : Int) := by
  have h0 := f0.isLt
  have h1 := f1.isLt
  unfold mul64 wrap64; push_cast; omega

/-- The scaled fraction on three fraction bytes. -/
theorem scaled_three (f0 f1 f2 : Byte) :
    wrap64 ((DecodeVarLen64BigEndian [f0, f1, f2] : Nat) : Int) =
      ((f0.val * 65536 + f1.val * 256 + f2.val : Nat) : Int) := by
  have h0 := f0.isLt
  have h1 := f1.isLt
  have h2 := f2.isLt
  rw [DecodeVarLen64BigEndian_three]
  unfold wrap64; push_cast; omega

/-- A list of at least one, two, three elements. -/
theorem exists_cons_three (fb : List Byte) :
    (1 ≤ fb.length → ∃ f0 t, fb = f0 :: t) ∧ (2 ≤ fb.length → ∃ f0 f1 t, fb = f0 :: f1 :: t) ∧
    (3 ≤ fb.length → ∃ f0 f1 f2 t, fb = f0 :: f1 :: f2 :: t) := by
  refine ⟨fun h => ?_, fun h => ?_, fun h => ?_⟩
  · match fb, h with
    | f0 :: t, _ => exact ⟨f0, t, rfl⟩
  · match fb, h with
    | f0 :: f1 :: t, _ => exact ⟨f0, f1, t, rfl⟩
  · match fb, h with
    | f0 :: f1 :: f2 :: t, _ => exact ⟨f0, f1, f2, t, rfl⟩

/-- The value of `usec` that `DecodeTimestamp2` reads from the bytes after the first four. -/
theorem timestamp2Usec_eq (pre fb : List Byte) (p : Nat) (hp : p ≤ 6)
    (hlen : extraBytes p ≤ fb.length) (hpre : pre.length = 4) :
    timestamp2Usec (pre ++ fb) p = some ((scaledFraction fb p : Nat) : Int) := by
  have hi := fun f0 t => index_append pre t f0
  have hs := fun k hk => slice_append pre fb k hk
  have hsf := sliceFrom_append pre fb
  rw [hpre] at hi hs hsf
  obtain ⟨c1, c2, c3⟩ := exists_cons_three fb
  have hp' : p = 0 ∨ p = 1 ∨ p = 2 ∨ p = 3 ∨ p = 4 ∨ p = 5 ∨ p = 6 := by omega
  rcases hp' with h | h | h | h | h | h | h <;> subst h <;>
    simp only [extraBytes] at hlen
  · rfl
  · obtain ⟨f0, t, rfl⟩ := c1 hlen
    simp only [timestamp2Usec, hi, scaledFraction, Option.map_some', List.getD_cons_zero,
      scaled_one]
  · obtain ⟨f0, t, rfl⟩ := c1 hlen
    simp only [timestamp2Usec, hi, scaledFraction, Option.map_some', List.getD_cons_zero,
      scaled_one]
  · obtain ⟨f0, f1, t, rfl⟩ := c2 hlen
    simp only [timestamp2Usec, hsf, scaledFraction, Option.map_some', List.getD_cons_zero,
      List.getD_cons_succ, Option.some_bind, BigEndianUint16, scaled_two]
  · obtain ⟨f0, f1, t, rfl⟩ := c2 hlen
    simp only [timestamp2Usec, hsf, scaledFraction, Option.map_some', List.getD_cons_zero,
      List.getD_cons_succ, Option.some_bind, BigEndianUint16, scaled_two]
  · obtain ⟨f0, f1, f2, t, rfl⟩ := c3 hlen
    simp only [timestamp2Usec, hs 3 hlen, scaledFraction, Option.map_some', List.getD_cons_zero,
      List.getD_cons_succ, List.take, scaled_three]
  · obtain ⟨f0, f1, f2, t, rfl⟩ := c3 hlen
    simp only [timestamp2Usec, hs 3 hlen, scaledFraction, Option.map_some', List.getD_cons_zero,
      List.getD_cons_succ, List.take, scaled_three]

/-- The value of `frac` that `DecodeDatetime2` reads from the bytes after the first five. -/
theorem datetime2Frac_eq (pre fb : List Byte) (p : Nat) (hp : p ≤ 6)
    (hlen : extraBytes p ≤ fb.length) (hpre : pre.length = 5) :
    datetime2Frac (pre ++ fb) p = some ((scaledFraction fb p : Nat) : Int) := by
  have hi := fun f0 t => index_append pre t f0
  have hs := fun k hk => slice_append pre fb k hk
  rw [hpre] at hi hs
  obtain ⟨c1, c2, c3⟩ := exists_cons_three fb
  have hp' : p = 0 ∨ p = 1 ∨ p = 2 ∨ p = 3 ∨ p = 4 ∨ p = 5 ∨ p = 6 := by omega
  rcases hp' with h | h | h | h | h | h | h <;> subst h <;>
    simp only [extraBytes] at hlen
  · rfl
  · obtain ⟨f0, t, rfl⟩ := c1 hlen
    simp only [datetime2Frac, hi, scaledFraction, Option.map_some', List.getD_cons_zero,
      scaled_one]
  · obtain ⟨f0, t, rfl⟩ := c1 hlen
    simp only [datetime2Frac, hi, scaledFraction, Option.map_some', List.getD_cons_zero,
      scaled_one]
  · obtain ⟨f0, f1, t, rfl⟩ := c2 hlen
    simp only [datetime2Frac, hs 2 hlen, scaledFraction, Option.map_some', List.getD_cons_zero,
      List.getD_cons_succ, Option.some_bind, BigEndianUint16, List.take, scaled_two]
  · obtain ⟨f0, f1, t, rfl⟩ := c2 hlen
    simp only [datetime2Frac, hs 2 hlen, scaledFraction, Option.map_some', List.getD_cons_zero,
      List.getD_cons_succ, Option.some_bind, BigEndianUint16, List.take, scaled_two]
  · obtain ⟨f0, f1, f2, t, rfl⟩ := c3 hlen
    simp only [datetime2Frac, hs 3 hlen, scaledFraction, Option.map_some', List.getD_cons_zero,
      List.getD_cons_succ, List.take, scaled_three]
  · obtain ⟨f0, f1, f2, t, rfl⟩ := c3 hlen
    simp only [datetime2Frac, hs 3 hlen, scaledFraction, Option.map_some', List.getD_cons_zero,
      List.getD_cons_succ, List.take, scaled_three]

theorem fmtD_length_ge (w : Nat) (v : Int) : w ≤ (fmtD w v).length := by
  unfold fmtD
  split
  · have := zeroPad_length_ge (w - 1) v.natAbs
    simp only [String.length, List.length_cons]
    omega
  · exact zeroPad_length_ge w v.natAbs

/-- `formatZeroTime` returns for every precision up to 6. -/
theorem formatZeroTime_isSome (frac : Int) (dec : Nat) (hd : dec ≤ 6) :
    ∃ s, formatZeroTime frac (dec : Int) = some s := by
  unfold formatZeroTime
  split
  · exact ⟨_, rfl⟩
  · have h := fmtD_length_ge 6 frac
    simp only [String.length_append]
    rw [if_pos (by constructor <;> omega)]
    exact ⟨_, rfl⟩

/-- The layout table has an entry for every precision up to 6. -/
theorem fracTimeFormat_get (dec : Nat) (hd : dec ≤ 6) :
    fracTimeFormat[dec]? =
      some (if dec = 0 then baseLayout else baseLayout ++ [Chunk.stdFracSecond0 dec]) := by
  have hp' : dec = 0 ∨ dec = 1 ∨ dec = 2 ∨ dec = 3 ∨ dec = 4 ∨ dec = 5 ∨ dec = 6 := by omega
  rcases hp' with h | h | h | h | h | h | h <;> subst h <;> rfl

/-- `FracTime.String` returns for every precision up to 6. -/
theorem FracTime_String_eq (t : Time) (dec : Nat) (hd : dec ≤ 6) :
    FracTime.String ⟨t, (dec : Int)⟩ =
      some (t.Format (if dec = 0 then baseLayout else baseLayout ++ [Chunk.stdFracSecond0 dec])) := by
  have h0 : (0 : Int) ≤ (dec : Int) := by omega
  simp only [FracTime.String, h0, if_true, Int.toNat_ofNat, fracTimeFormat_get dec hd,
    Option.map_some']

/-- The number of bytes a decoder reports at a precision up to 6. -/
theorem width_eq (base p : Nat) (hp : p ≤ 6) :
    base + (p + 1) % 65536 / 2 = base + extraBytes p := by
  have hp' : p = 0 ∨ p = 1 ∨ p = 2 ∨ p = 3 ∨ p = 4 ∨ p = 5 ∨ p = 6 := by omega
  rcases hp' with h | h | h | h | h | h | h <;> subst h <;> rfl

/-- A slice of at least `k` bytes starts with `k` bytes. -/
theorem exists_split_at (data : List Byte) (k : Nat) (h : k ≤ data.length) :
    ∃ pre fb : List Byte, data = pre ++ fb ∧ pre.length = k :=
  ⟨data.take k, data.drop k, (List.take_append_drop k data).symm, by simp [h]⟩

theorem slice_head (pre fb : List Byte) : slice (pre ++ fb) 0 pre.length = some pre := by
  simp [slice]

theorem BigEndianUint32_isSome (pre : List Byte) (h : pre.length = 4) :
    ∃ v, BigEndianUint32 pre = some v := by
  match pre, h with
  | [b0, b1, b2, b3], _ => exact ⟨_, rfl⟩

/-- `DecodeTimestamp2` returns on sufficiently long input, reporting `4 + extraBytes p`. -/
theorem DecodeTimestamp2_total (Local : Location) (data : List Byte) (p : Nat) (hp : p ≤ 6)
    (hlen : 4 + extraBytes p ≤ data.length) :
    ∃ s, DecodeTimestamp2 Local data p = some (s, 4 + extraBytes p) := by
  obtain ⟨pre, fb, rfl, hpre⟩ := exists_split_at data 4 (by omega)
  have hfb : extraBytes p ≤ fb.length := by
    simp only [List.length_append] at hlen; omega
  obtain ⟨v, hv⟩ := BigEndianUint32_isSome pre hpre
  have hs := slice_head pre fb
  have hf := timestamp2Usec_eq pre fb p hp hfb hpre
  rw [hpre] at hs
  simp only [DecodeTimestamp2, hs, hv, hf, Option.bind_eq_bind, Option.some_bind,
    width_eq 4 p hp]
  split
  · obtain ⟨s, hs⟩ := formatZeroTime_isSome ((scaledFraction fb p : Nat) : Int) p hp
    exact ⟨s, by rw [hs]; rfl⟩
  · rw [FracTime_String_eq _ p hp]
    exact ⟨_, rfl⟩

/-- `DecodeDatetime2` returns on sufficiently long input, reporting `5 + extraBytes p`. -/
theorem DecodeDatetime2_total (data : List Byte) (p : Nat) (hp : p ≤ 6)
    (hlen : 5 + extraBytes p ≤ data.length) :
    ∃ s, DecodeDatetime2 data p = some (s, 5 + extraBytes p) := by
  obtain ⟨pre, fb, rfl, hpre⟩ := exists_split_at data 5 (by omega)
  have hfb : extraBytes p ≤ fb.length := by
    simp only [List.length_append] at hlen; omega
  have hs := slice_head pre fb
  have hf := datetime2Frac_eq pre fb p hp hfb hpre
  rw [hpre] at hs
  simp only [DecodeDatetime2, hs, hf, Option.bind_eq_bind, Option.some_bind, width_eq 5 p hp]
  split
  · obtain ⟨s, hs⟩ := formatZeroTime_isSome ((scaledFraction fb p : Nat) : Int) p hp
    exact ⟨s, by rw [hs]; rfl⟩
  · rw [FracTime_String_eq _ p hp]
    exact ⟨_, rfl⟩

/-- The switch of `DecodeTime2` completes on sufficiently long input. -/
theorem time2Switch_isSome (data : List Byte) (p : Nat) (hp : p ≤ 6)
    (hlen : 3 + extraBytes p ≤ data.length) : ∃ r, time2Switch data p = some r := by
  have hp' : p = 0 ∨ p = 1 ∨ p = 2 ∨ p = 3 ∨ p = 4 ∨ p = 5 ∨ p = 6 := by omega
  rcases hp' with h | h | h | h | h | h | h <;> subst h <;>
    simp only [extraBytes] at hlen
  · obtain ⟨pre, fb, rfl, hpre⟩ := exists_split_at data 3 (by omega)
    have hs := slice_head pre fb
    rw [hpre] at hs
    simp only [time2Switch, hs, Option.bind_eq_bind, Option.some_bind]
    exact ⟨_, rfl⟩
  · exact ⟨_, rfl⟩
  · obtain ⟨pre, fb, rfl, hpre⟩ := exists_split_at data 3 (by omega)
    obtain ⟨f0, fb, rfl⟩ := List.exists_cons_of_length_pos (l := fb)
      (by simp only [List.length_append] at hlen; omega)
    have hs := slice_head pre (f0 :: fb)
    have hi := index_append pre fb f0
    rw [hpre] at hs hi
    simp only [time2Switch, hs, hi, Option.bind_eq_bind, Option.some_bind]
    exact ⟨_, rfl⟩
  · exact ⟨_, rfl⟩
  · obtain ⟨pre, fb, rfl, hpre⟩ := exists_split_at data 3 (by omega)
    have hfb : 2 ≤ fb.length := by simp only [List.length_append] at hlen; omega
    obtain ⟨f0, fb, rfl⟩ := List.exists_cons_of_length_pos (l := fb) (by omega)
    obtain ⟨f1, fb, rfl⟩ := List.exists_cons_of_length_pos (l := fb)
      (by simp only [List.length_cons] at hfb; omega)
    have hs := slice_head pre (f0 :: f1 :: fb)
    have hi := slice_append pre (f0 :: f1 :: fb) 2 hfb
    rw [hpre] at hs hi
    simp only [time2Switch, hs, hi, Option.bind_eq_bind, Option.some_bind, List.take,
      BigEndianUint16]
    exact ⟨_, rfl⟩
  · exact ⟨_, rfl⟩
  · obtain ⟨pre, fb, rfl, hpre⟩ := exists_split_at data 6 (by omega)
    have hs := slice_head pre fb
    rw [hpre] at hs
    simp only [time2Switch, hs, Option.bind_eq_bind, Option.some_bind]
    exact ⟨_, rfl⟩

/-- `DecodeTime2` returns on sufficiently long input, reporting `3 + extraBytes p`. -/
theorem DecodeTime2_total (data : List Byte) (p : Nat) (hp : p ≤ 6)
    (hlen : 3 + extraBytes p ≤ data.length) :
    ∃ s, DecodeTime2 data p = some (s, 3 + extraBytes p) := by
  obtain ⟨r, hr⟩ := time2Switch_isSome data p hp hlen
  simp only [DecodeTime2, hr, Option.bind_eq_bind, Option.some_bind, width_eq 3 p hp]
  split
  · exact ⟨_, rfl⟩
  · exact ⟨_, rfl⟩

/-- C6. Bytes consumed: for every precision `p` in 0..6 and every input at least
`4 + e(p)`, `5 + e(p)`, `3 + e(p)` bytes long, `DecodeTimestamp2`, `DecodeDatetime2` and
`DecodeTime2` return and report exactly that number of bytes, with `e = extraBytes`
(0, 1, 1, 2, 2, 3, 3), whatever the bytes are. -/
theorem bytesConsumed_formula (Local : Location) (data : List Byte) (p : Nat) (hp : p ≤ 6) :
    (4 + extraBytes p ≤ data.length →
      ∃ s, DecodeTimestamp2 Local data p = some (s, 4 + extraBytes p)) ∧
    (5 + extraBytes p ≤ data.length →
      ∃ s, DecodeDatetime2 data p = some (s, 5 + extraBytes p)) ∧
    (3 + extraBytes p ≤ data.length →
      ∃ s, DecodeTime2 data p = some (s, 3 + extraBytes p)) :=
  ⟨DecodeTimestamp2_total Local data p hp, DecodeDatetime2_total data p hp,
    DecodeTime2_total data p hp⟩

/-- Witness of C6 at precision 3 on eight zero bytes. -/
theorem bytesConsumed_formula_witness :
    (∃ s, DecodeTimestamp2 UTC [0, 0, 0, 0, 0, 0, 0, 0] 3 = some (s, 6)) ∧
    (∃ s, DecodeDatetime2 [0, 0, 0, 0, 0, 0, 0, 0] 3 = some (s, 7)) ∧
    (∃ s, DecodeTime2 [0, 0, 0, 0, 0, 0, 0, 0] 3 = some (s, 5)) :=
  ⟨(bytesConsumed_formula UTC [0, 0, 0, 0, 0, 0, 0, 0] 3 (by decide)).1 (by decide),
   (bytesConsumed_formula UTC [0, 0, 0, 0, 0, 0, 0, 0] 3 (by decide)).2.1 (by decide),
   (bytesConsumed_formula UTC [0, 0, 0, 0, 0, 0, 0, 0] 3 (by decide)).2.2 (by decide)⟩

/-! ## The zero sentinel -/

theorem fmtD_six (m : Nat) (hm : m ≤ 999999) : fmtD 6 (m : Int) = String.mk (sixDigits m) := by
  have h : ¬ ((m : Int) < 0) := by omega
  have e : m / 100000 % 10 = m / 100000 := by omega
  simp only [fmtD, h, if_false, Int.natAbs_ofNat, zeroPad_six m (by omega), sixDigits, e]

/-- `formatZeroTime` on a fraction below one million: the first `p` of its six digits. -/
theorem formatZeroTime_of_le (m p : Nat) (hm : m ≤ 999999) (hp1 : 1 ≤ p) (hp : p ≤ 6) :
    formatZeroTime (m : Int) (p : Int) =
      some ("0000-00-00 00:00:00." ++ String.mk ((sixDigits m).take p)) := by
  have h0 : ¬ ((p : Int) = 0) := by omega
  have hl : ("0000-00-00 00:00:00." ++ String.mk (sixDigits m)).length = 26 := by
    simp [String.length_append, sixDigits]
    rfl
  simp only [formatZeroTime, h0, if_false, fmtD_six m hm, hl]
  rw [if_pos (by constructor <;> omega)]
  have e : ((26 : Nat) : Int) - (6 - (p : Int)) = ((20 + p : Nat) : Int) := by omega
  rw [e, Int.toNat_ofNat]
  have hd : ("0000-00-00 00:00:00." ++ String.mk (sixDigits m)).data =
      "0000-00-00 00:00:00.".data ++ sixDigits m := by
    simp [String.data_append]
  have h20 : 20 + p = "0000-00-00 00:00:00.".data.length + p := by rfl
  rw [hd, h20, List.take_append]
  congr 1

theorem digitChar_isDigit (d : Nat) (h : d < 10) : (digitChar d).isDigit = true := by
  have hd : d = 0 ∨ d = 1 ∨ d = 2 ∨ d = 3 ∨ d = 4 ∨ d = 5 ∨ d = 6 ∨ d = 7 ∨ d = 8 ∨ d = 9 := by
    omega
  rcases hd with h | h | h | h | h | h | h | h | h | h <;> subst h <;> rfl

theorem sixDigits_isDigit (m : Nat) : ∀ c ∈ sixDigits m, c.isDigit = true := by
  intro c hc
  simp only [sixDigits, List.mem_cons, List.mem_singleton, List.not_mem_nil, or_false] at hc
  rcases hc with h | h | h | h | h | h <;> subst h <;>
    exact digitChar_isDigit _ (Nat.mod_lt _ (by norm_num))

/-- `DecodeTimestamp2` on an all-zero seconds field. -/
theorem DecodeTimestamp2_zero_branch (Local : Location) (p : Nat) (fb : List Byte) (hp : p ≤ 6)
    (hlen : extraBytes p ≤ fb.length) :
    DecodeTimestamp2 Local (0 :: 0 :: 0 :: 0 :: fb) p =
      (formatZeroTime ((scaledFraction fb p : Nat) : Int) (p : Int)).map
        fun s => (s, 4 + extraBytes p) := by
  have hf := timestamp2Usec_eq [0, 0, 0, 0] fb p hp hlen rfl
  have hs := slice_head [0, 0, 0, 0] fb
  simp only [List.length_cons, List.length_nil, List.cons_append, List.nil_append] at hf hs
  simp only [DecodeTimestamp2, hs, hf, Option.bind_eq_bind, Option.some_bind, BigEndianUint32,
    width_eq 4 p hp]
  rfl

/-- `DecodeDatetime2` on the integer part `80 00 00 00 00`. -/
theorem DecodeDatetime2_zero_branch (p : Nat) (fb : List Byte) (hp : p ≤ 6)
    (hlen : extraBytes p ≤ fb.length) :
    DecodeDatetime2 (0x80 :: 0 :: 0 :: 0 :: 0 :: fb) p =
      (formatZeroTime ((scaledFraction fb p : Nat) : Int) (p : Int)).map
        fun s => (s, 5 + extraBytes p) := by
  have hf := datetime2Frac_eq [0x80, 0, 0, 0, 0] fb p hp hlen rfl
  have hs := slice_head [0x80, 0, 0, 0, 0] fb
  simp only [List.length_cons, List.length_nil, List.cons_append, List.nil_append] at hf hs
  have hi : sub64 ((DecodeVarLen64BigEndian [0x80, 0, 0, 0, 0] : Nat) : Int) datetimeOffset = 0 := by
    decide
  simp only [DecodeDatetime2, hs, hf, Option.bind_eq_bind, Option.some_bind, hi,
    width_eq 5 p hp, if_true]

/-- C7. Zero timestamp and fractional truncation: when the first four bytes are zero and
the scaled fraction `M` of the fraction bytes is at most 999999, `DecodeTimestamp2` returns
`0000-00-00 00:00:00` at precision 0 and otherwise `0000-00-00 00:00:00.` followed by the first
`P` of the six digits of `M`, consuming `4 + extraBytes P` bytes. -/
theorem DecodeTimestamp2_zero (Local : Location) (p : Nat) (fb : List Byte) (hp : p ≤ 6)
    (hlen : extraBytes p ≤ fb.length) (hm : scaledFraction fb p ≤ 999999) :
    DecodeTimestamp2 Local (0 :: 0 :: 0 :: 0 :: fb) p =
      some (if p = 0 then "0000-00-00 00:00:00"
        else "0000-00-00 00:00:00." ++ String.mk ((sixDigits (scaledFraction fb p)).take p),
        4 + extraBytes p) := by
  rw [DecodeTimestamp2_zero_branch Local p fb hp hlen]
  by_cases h0 : p = 0
  · subst h0
    rfl
  · rw [formatZeroTime_of_le _ p hm (by omega) hp, if_neg h0]
    rfl

/-- Witness of C7: precision 3 with fraction bytes `24 18` (924000 microseconds). -/
theorem DecodeTimestamp2_zero_witness :
    DecodeTimestamp2 UTC [0, 0, 0, 0, 0x24, 0x18] 3 = some ("0000-00-00 00:00:00.924", 6) :=
  DecodeTimestamp2_zero UTC 3 [0x24, 0x18] (by decide) (by decide) (by decide)

/-- C8 fails as stated: a fraction byte of 100 at precision 1 scales to 1000000, which `%06d`
prints with seven digits, and the zero sentinel comes out with two fractional digits. -/
theorem zeroSentinel_digits_counterexample :
    DecodeTimestamp2 UTC [0, 0, 0, 0, 100] 1 = some ("0000-00-00 00:00:00.10", 5) ∧
    DecodeDatetime2 [0x80, 0, 0, 0, 0, 100] 1 = some ("0000-00-00 00:00:00.10", 6) ∧
    "0000-00-00 00:00:00.10".length ≠ 20 + 1 := by
  decide

/-- C8, amended. For every precision `P` in 1..6 and every input on the zero-sentinel
branch whose scaled fraction is at most 999999, both decoders return `0000-00-00 00:00:00.`
followed by exactly `P` decimal digits, a string of length `20 + P`. -/
theorem zeroSentinel_digits (Local : Location) (p : Nat) (fb : List Byte) (hp1 : 1 ≤ p)
    (hp : p ≤ 6) (hlen : extraBytes p ≤ fb.length) (hm : scaledFraction fb p ≤ 999999) :
    ∃ ds : List Char, ds.length = p ∧ (∀ c ∈ ds, c.isDigit = true) ∧
      ("0000-00-00 00:00:00." ++ String.mk ds).length = 20 + p ∧
      DecodeTimestamp2 Local (0 :: 0 :: 0 :: 0 :: fb) p =
        some ("0000-00-00 00:00:00." ++ String.mk ds, 4 + extraBytes p) ∧
      DecodeDatetime2 (0x80 :: 0 :: 0 :: 0 :: 0 :: fb) p =
        some ("0000-00-00 00:00:00." ++ String.mk ds, 5 + extraBytes p) := by
  refine ⟨(sixDigits (scaledFraction fb p)).take p, ?_, ?_, ?_, ?_, ?_⟩
  · simp [sixDigits]; omega
  · intro c hc
    exact sixDigits_isDigit _ c (List.mem_of_mem_take hc)
  · simp [String.length_append, sixDigits]
    have : "0000-00-00 00:00:00.".length = 20 := rfl
    omega
  · rw [DecodeTimestamp2_zero_branch Local p fb hp hlen, formatZeroTime_of_le _ p hm hp1 hp]
    rfl
  · rw [DecodeDatetime2_zero_branch p fb hp hlen, formatZeroTime_of_le _ p hm hp1 hp]
    rfl

/-- Witness of C8 (amended): precision 3 with fraction bytes `24 18`. -/
theorem zeroSentinel_digits_witness :
    ∃ ds : List Char, ds.length = 3 ∧ (∀ c ∈ ds, c.isDigit = true) ∧
      ("0000-00-00 00:00:00." ++ String.mk ds).length = 20 + 3 ∧
      DecodeTimestamp2 UTC [0, 0, 0, 0, 0x24, 0x18] 3 =
        some ("0000-00-00 00:00:00." ++ String.mk ds, 4 + extraBytes 3) ∧
      DecodeDatetime2 [0x80, 0, 0, 0, 0, 0x24, 0x18] 3 =
        some ("0000-00-00 00:00:00." ++ String.mk ds, 5 + extraBytes 3) :=
  zeroSentinel_digits UTC 3 [0x24, 0x18] (by decide) (by decide) (by decide) (by decide)

/-! ## Non-zero timestamps -/

/-- `time.Unix` with a nanosecond count already in range. -/
theorem Unix_of_range (loc : Location) (sec nsec : Int) (h0 : 0 ≤ nsec)
    (h1 : nsec < 1000000000) : Unix loc sec nsec = ⟨sec, nsec, loc⟩ := by
  unfold Unix
  rw [if_neg (by omega)]

/-- The calendar fields that `Format` prints are a date and time of day that exist, and they
denote the instant `unixSec + offset`. -/
theorem absDate_absClock_civil (u : Int) :
    validCivil (absDate (u + unixToAbsolute)).1 (absDate (u + unixToAbsolute)).2.1
      (absDate (u + unixToAbsolute)).2.2 (absClock (u + unixToAbsolute)).1
      (absClock (u + unixToAbsolute)).2.1 (absClock (u + unixToAbsolute)).2.2 ∧
    civilToUnix (absDate (u + unixToAbsolute)).1 (absDate (u + unixToAbsolute)).2.1
      (absDate (u + unixToAbsolute)).2.2 (absClock (u + unixToAbsolute)).1
      (absClock (u + unixToAbsolute)).2.1 (absClock (u + unixToAbsolute)).2.2 = u := by
  obtain ⟨a1, a2, a3, a4, a5⟩ := absDate_spec (u + unixToAbsolute)
  obtain ⟨c1, c2, c3, c4, c5, c6, c7⟩ := absClock_spec (u + unixToAbsolute)
  refine ⟨⟨a1, a2, a3, a4, c1, c2, c3, c4, c5, c6⟩, ?_⟩
  rw [daysSinceEpoch_eq] at a5
  unfold civilToUnix daysFromCivil
  generalize absDate (u + unixToAbsolute) = d at *
  generalize absClock (u + unixToAbsolute) = c at *
  unfold unixToAbsolute at a5 c7
  omega

/-- The year of an instant not before 1901 is not before 1901. -/
theorem absDate_year_ge (u : Int) (hu : -(2 ^ 31) ≤ u) :
    1901 ≤ (absDate (u + unixToAbsolute)).1 := by
  obtain ⟨a1, a2, a3, a4, a5⟩ := absDate_spec (u + unixToAbsolute)
  rw [daysSinceEpoch_eq] at a5
  generalize absDate (u + unixToAbsolute) = d at *
  have hb : daysBefore (d.2.1 - 1) ≤ 334 := by
    unfold daysBefore; omega
  have hd : daysInMonth d.1 d.2.1 ≤ 31 := by
    unfold daysInMonth; split <;> split <;> omega
  have hi : (if leapYear d.1 ∧ 3 ≤ d.2.1 then (1 : Int) else 0) ≤ 1 := by
    split <;> omega
  unfold unixToAbsolute at a5
  omega

set_option maxRecDepth 4000 in
/-- C9 fails as stated: the result depends on the zone that `time.Unix` attaches. With a
local zone one hour east of UTC the instant `S = 1` is printed as `01:00:01`. -/
theorem DecodeTimestamp2_local_counterexample :
    DecodeTimestamp2 ⟨fun _ => 3600⟩ [0, 0, 0, 1] 0 = some ("1970-01-01 01:00:01", 4) ∧
    DecodeTimestamp2 UTC [0, 0, 0, 1] 0 = some ("1970-01-01 00:00:01", 4) ∧
    "1970-01-01 01:00:01" ≠ "1970-01-01 00:00:01" := by
  decide

/-- C9, amended. When the first four bytes read as a non-zero big-endian integer `S`,
`DecodeTimestamp2` at precision 0 returns `YYYY-MM-DD HH:MM:SS` for the calendar date and time
of day, in the process-local zone, of the instant `S` seconds after 1970-01-01 00:00:00 UTC:
the fields form an existing date whose distance from the epoch is `S` plus the zone's offset
at `S` (so they are the UTC date and time exactly when that offset is 0), and 4 bytes are
consumed. -/
theorem DecodeTimestamp2_local (Local : Location) (b0 b1 b2 b3 : Byte) (rest : List Byte)
    (hS : b0.val * 16777216 + b1.val * 65536 + b2.val * 256 + b3.val ≠ 0)
    (ho1 : -(2 ^ 31) ≤ Local.offsetAt
      ((b0.val * 16777216 + b1.val * 65536 + b2.val * 256 + b3.val : Nat) : Int))
    (ho2 : Local.offsetAt
      ((b0.val * 16777216 + b1.val * 65536 + b2.val * 256 + b3.val : Nat) : Int) < 2 ^ 31) :
    ∃ year month day hour minute second : Nat,
      validCivil year month day hour minute second ∧
      civilToUnix year month day hour minute second =
        ((b0.val * 16777216 + b1.val * 65536 + b2.val * 256 + b3.val : Nat) : Int) +
          Local.offsetAt
            ((b0.val * 16777216 + b1.val * 65536 + b2.val * 256 + b3.val : Nat) : Int) ∧
      DecodeTimestamp2 Local (b0 :: b1 :: b2 :: b3 :: rest) 0 =
        some (civilText year month day hour minute second, 4) := by
  generalize hSv : b0.val * 16777216 + b1.val * 65536 + b2.val * 256 + b3.val = S at *
  generalize ho : Local.offsetAt (S : Int) = o at *
  obtain ⟨hv, hc⟩ := absDate_absClock_civil ((S : Int) + o)
  have hy := absDate_year_ge ((S : Int) + o) (by omega)
  have hv' := hv
  obtain ⟨hm1, hm2, hd1, hd2, hh0, hh1, hmi0, hmi1, hs0, hs1⟩ := hv'
  have hdec : DecodeTimestamp2 Local (b0 :: b1 :: b2 :: b3 :: rest) 0 =
      some ((⟨(S : Int), 0, Local⟩ : Time).Format baseLayout, 4) := by
    have hs := slice_head [b0, b1, b2, b3] rest
    simp only [List.length_cons, List.length_nil, List.cons_append, List.nil_append] at hs
    have h1000 : mul64 0 1000 = 0 := by decide
    have hstr := FracTime_String_eq ⟨(S : Int), 0, Local⟩ 0 (by omega)
    simp only [if_true, Nat.cast_zero] at hstr
    simp only [DecodeTimestamp2, hs, Option.bind_eq_bind, Option.some_bind, BigEndianUint32,
      hSv, timestamp2Usec, hS, if_false, h1000, Unix_of_range Local (S : Int) 0 (by omega) (by omega),
      Nat.cast_zero, hstr, Option.map_some']
  have habs : (⟨(S : Int), 0, Local⟩ : Time).abs = (S : Int) + o + unixToAbsolute := by
    simp only [Time.abs, ho]
  rw [hdec, Format_baseLayout, habs]
  generalize absDate ((S : Int) + o + unixToAbsolute) = d at *
  generalize absClock ((S : Int) + o + unixToAbsolute) = c at *
  refine ⟨d.1.toNat, d.2.1.toNat, d.2.2.toNat, c.1.toNat, c.2.1.toNat, c.2.2.toNat, ?_, ?_, ?_⟩
  · simp only [Int.toNat_of_nonneg (show (0 : Int) ≤ d.1 by omega),
      Int.toNat_of_nonneg (show (0 : Int) ≤ d.2.1 by omega),
      Int.toNat_of_nonneg (show (0 : Int) ≤ d.2.2 by omega),
      Int.toNat_of_nonneg hh0, Int.toNat_of_nonneg hmi0, Int.toNat_of_nonneg hs0]
    exact hv
  · simp only [Int.toNat_of_nonneg (show (0 : Int) ≤ d.1 by omega),
      Int.toNat_of_nonneg (show (0 : Int) ≤ d.2.1 by omega),
      Int.toNat_of_nonneg (show (0 : Int) ≤ d.2.2 by omega),
      Int.toNat_of_nonneg hh0, Int.toNat_of_nonneg hmi0, Int.toNat_of_nonneg hs0]
    exact hc
  · have e1 := appendInt_nat d.1.toNat 4
    have e2 := appendInt_nat d.2.1.toNat 2
    have e3 := appendInt_nat d.2.2.toNat 2
    have e4 := appendInt_nat c.1.toNat 2
    have e5 := appendInt_nat c.2.1.toNat 2
    have e6 := appendInt_nat c.2.2.toNat 2
    rw [Int.toNat_of_nonneg (show (0 : Int) ≤ d.1 by omega)] at e1
    rw [Int.toNat_of_nonneg (show (0 : Int) ≤ d.2.1 by omega)] at e2
    rw [Int.toNat_of_nonneg (show (0 : Int) ≤ d.2.2 by omega)] at e3
    rw [Int.toNat_of_nonneg hh0] at e4
    rw [Int.toNat_of_nonneg hmi0] at e5
    rw [Int.toNat_of_nonneg hs0] at e6
    rw [e1, e2, e3, e4, e5, e6]
    rfl

/-- Witness of C9 (amended): `S = 1` in a zone one hour east of UTC. -/
theorem DecodeTimestamp2_local_witness :
    ∃ year month day hour minute second : Nat,
      validCivil year month day hour minute second ∧
      civilToUnix year month day hour minute second = ((1 : Nat) : Int) + 3600 ∧
      DecodeTimestamp2 ⟨fun _ => 3600⟩ [0, 0, 0, 1] 0 =
        some (civilText year month day hour minute second, 4) :=
  DecodeTimestamp2_local ⟨fun _ => 3600⟩ 0 0 0 1 [] (by decide) (by decide) (by decide)

/-! ## The zero-sentinel branch of `DecodeDatetime2` -/

theorem natDigits_isDigit (v : Nat) : ∀ c ∈ natDigits v, c.isDigit = true := by
  induction v using Nat.strong_induction_on with
  | _ v ih =>
    intro c hc
    by_cases h : v < 10
    · rw [natDigits_lt v h, List.mem_singleton] at hc
      subst hc
      exact digitChar_isDigit v h
    · rw [natDigits_ge v (by omega), List.mem_append, List.mem_singleton] at hc
      rcases hc with hc | hc
      · exact ih (v / 10) (by omega) c hc
      · subst hc
        exact digitChar_isDigit _ (Nat.mod_lt _ (by norm_num))

theorem zeroPad_isDigit (w v : Nat) : ∀ c ∈ zeroPad w v, c.isDigit = true := by
  intro c hc
  rw [zeroPad, List.mem_append] at hc
  rcases hc with hc | hc
  · rw [List.eq_of_mem_replicate hc]
    rfl
  · exact natDigits_isDigit v c hc

theorem digitChar_eq_zero (d : Nat) (h : d < 10) (h0 : digitChar d = '0') : d = 0 := by
  have hd : d = 0 ∨ d = 1 ∨ d = 2 ∨ d = 3 ∨ d = 4 ∨ d = 5 ∨ d = 6 ∨ d = 7 ∨ d = 8 ∨ d = 9 := by
    omega
  rcases hd with h | h | h | h | h | h | h | h | h | h <;> subst h <;>
    first | rfl | exact absurd h0 (by decide)

/-- What `formatZeroTime` returns starts with `0000-00`. -/
theorem formatZeroTime_head (frac : Int) (dec : Nat) (s : String)
    (h : formatZeroTime frac (dec : Int) = some s) :
    s.data.take 7 = ['0', '0', '0', '0', '-', '0', '0'] := by
  unfold formatZeroTime at h
  split at h
  · simp only [Option.some.injEq] at h
    subst h
    rfl
  · have hl := fmtD_length_ge 6 frac
    simp only [String.length_append] at h
    split at h
    · rename_i hr
      simp only [Option.some.injEq] at h
      subst h
      have hlit : "0000-00-00 00:00:00.".length = 20 := rfl
      rw [hlit] at hr
      have hd : ("0000-00-00 00:00:00." ++ fmtD 6 frac).data =
          "0000-00-00 00:00:00.".data ++ (fmtD 6 frac).data := by
        simp [String.data_append]
      simp only [hd, List.take_take, hlit]
      have hmin : min 7 ((((20 + (fmtD 6 frac).length : Nat) : Int) - (6 - (dec : Int))).toNat) = 7 := by
        omega
      rw [hmin]
      rfl
    · exact absurd h (by simp)

/-- What `Format` prints for a month in 1..12 does not start with `0000-00`. -/
theorem format_head_ne (year month : Int) (rest : List Char) (hm1 : 1 ≤ month)
    (hm2 : month ≤ 12) :
    (appendInt year 4 ++ '-' :: appendInt month 2 ++ rest).take 7 ≠
      ['0', '0', '0', '0', '-', '0', '0'] := by
  intro h
  have hmon : appendInt month 2 =
      [digitChar (month.natAbs / 10), digitChar (month.natAbs % 10)] := by
    have : ¬ month < 0 := by omega
    simp only [appendInt, this, if_false]
    exact zeroPad_two _ (by omega)
  rw [hmon] at h
  by_cases hy : year < 0
  · simp only [appendInt, hy, if_true, List.cons_append, List.take_succ_cons,
      List.cons.injEq] at h
    exact absurd h.1 (by decide)
  · simp only [appendInt, hy, if_false] at h
    have hlen := zeroPad_length_ge 4 year.natAbs
    have hdig := zeroPad_isDigit 4 year.natAbs
    generalize zeroPad 4 year.natAbs = yd at h hlen hdig
    match yd, hlen, hdig with
    | [y0, y1, y2, y3], _, _ =>
      simp only [List.cons_append, List.nil_append, List.take_succ_cons, List.take_zero,
        List.cons.injEq, and_true] at h
      have e1 := digitChar_eq_zero _ (by omega) h.2.2.2.2.2.1
      have e2 := digitChar_eq_zero _ (Nat.mod_lt _ (by norm_num)) h.2.2.2.2.2.2
      omega
    | y0 :: y1 :: y2 :: y3 :: y4 :: ys, _, hdig =>
      simp only [List.cons_append, List.take_succ_cons, List.cons.injEq] at h
      have h4 := hdig y4 (by simp)
      rw [h.2.2.2.2.1] at h4
      exact absurd h4 (by decide)

/-- What `FracTime.String` prints starts with the year, a dash and the month. -/
theorem Format_fracLayout_data (t : Time) (dec : Nat) :
    ∃ rest : List Char,
      (t.Format (if dec = 0 then baseLayout else baseLayout ++ [Chunk.stdFracSecond0 dec])).data =
        appendInt (absDate t.abs).1 4 ++ '-' :: appendInt (absDate t.abs).2.1 2 ++ rest := by
  by_cases h : dec = 0
  · rw [if_pos h, Format_baseLayout]
    refine ⟨'-' :: appendInt (absDate t.abs).2.2 2 ++ ' ' :: appendInt (absClock t.abs).1 2 ++
      ':' :: appendInt (absClock t.abs).2.1 2 ++ ':' :: appendInt (absClock t.abs).2.2 2, ?_⟩
    simp only [List.append_assoc]
  · rw [if_neg h]
    refine ⟨'-' :: appendInt (absDate t.abs).2.2 2 ++ ' ' :: appendInt (absClock t.abs).1 2 ++
      ':' :: appendInt (absClock t.abs).2.1 2 ++ ':' :: appendInt (absClock t.abs).2.2 2 ++
      formatNano t.nsec dec, ?_⟩
    simp [Time.Format, baseLayout, List.flatMap]

/-- The integer part of `DecodeDatetime2` is zero exactly on the bytes `80 00 00 00 00`. -/
theorem datetime2_intPart_zero_iff (b0 b1 b2 b3 b4 : Byte) :
    sub64 ((DecodeVarLen64BigEndian [b0, b1, b2, b3, b4] : Nat) : Int) datetimeOffset = 0 ↔
      (b0 = 0x80 ∧ b1 = 0 ∧ b2 = 0 ∧ b3 = 0 ∧ b4 = 0) := by
  have h0 := b0.isLt
  have h1 := b1.isLt
  have h2 := b2.isLt
  have h3 := b3.isLt
  have h4 := b4.isLt
  rw [DecodeVarLen64BigEndian_five]
  unfold sub64 wrap64 datetimeOffset
  simp only [Fin.ext_iff]
  have e0 : ((0x80 : Byte) : Nat) = 128 := rfl
  have e1 : ((0 : Byte) : Nat) = 0 := rfl
  rw [e0, e1]
  omega

/-- C10. `DecodeDatetime2` takes the zero-sentinel branch exactly for the zero value: for
every precision up to 6 and every sufficiently long input, the result is the output of
`formatZeroTime` on the scaled fraction (with the byte count) if and only if the first five
bytes are `80 00 00 00 00`, whatever the fraction bytes are. -/
theorem DecodeDatetime2_zero_iff (b0 b1 b2 b3 b4 : Byte) (fb : List Byte) (p : Nat)
    (hp : p ≤ 6) (hlen : extraBytes p ≤ fb.length) :
    DecodeDatetime2 (b0 :: b1 :: b2 :: b3 :: b4 :: fb) p =
        (formatZeroTime ((scaledFraction fb p : Nat) : Int) (p : Int)).map
          (fun s => (s, 5 + extraBytes p)) ↔
      (b0 = 0x80 ∧ b1 = 0 ∧ b2 = 0 ∧ b3 = 0 ∧ b4 = 0) := by
  have hf := datetime2Frac_eq [b0, b1, b2, b3, b4] fb p hp hlen rfl
  have hs := slice_head [b0, b1, b2, b3, b4] fb
  simp only [List.length_cons, List.length_nil, List.cons_append, List.nil_append] at hf hs
  have hiff := datetime2_intPart_zero_iff b0 b1 b2 b3 b4
  by_cases hz : sub64 ((DecodeVarLen64BigEndian [b0, b1, b2, b3, b4] : Nat) : Int)
      datetimeOffset = 0
  · have hb := hiff.mp hz
    obtain ⟨r0, r1, r2, r3, r4⟩ := hb
    subst r0 r1 r2 r3 r4
    simp only [DecodeDatetime2_zero_branch p fb hp hlen, and_self]
  · have hne : ¬ (b0 = 0x80 ∧ b1 = 0 ∧ b2 = 0 ∧ b3 = 0 ∧ b4 = 0) := fun h => hz (hiff.mpr h)
    simp only [hne, iff_false]
    obtain ⟨z, hzs⟩ := formatZeroTime_isSome ((scaledFraction fb p : Nat) : Int) p hp
    have hpre := formatZeroTime_head _ p z hzs
    simp only [DecodeDatetime2, hs, hf, Option.bind_eq_bind, Option.some_bind, hz, if_false,
      width_eq 5 p hp, hzs, FracTime_String_eq _ p hp, Option.map_some', Option.some.injEq,
      Prod.mk.injEq, and_true]
    intro heq
    rw [← heq] at hpre
    obtain ⟨rest, hrest⟩ := Format_fracLayout_data
      (Date (datetime2Fields (sub64 ((DecodeVarLen64BigEndian [b0, b1, b2, b3, b4] : Nat) : Int)
          datetimeOffset) ((scaledFraction fb p : Nat) : Int)).1
        (datetime2Fields (sub64 ((DecodeVarLen64BigEndian [b0, b1, b2, b3, b4] : Nat) : Int)
          datetimeOffset) ((scaledFraction fb p : Nat) : Int)).2.1
        (datetime2Fields (sub64 ((DecodeVarLen64BigEndian [b0, b1, b2, b3, b4] : Nat) : Int)
          datetimeOffset) ((scaledFraction fb p : Nat) : Int)).2.2.1
        (datetime2Fields (sub64 ((DecodeVarLen64BigEndian [b0, b1, b2, b3, b4] : Nat) : Int)
          datetimeOffset) ((scaledFraction fb p : Nat) : Int)).2.2.2.1
        (datetime2Fields (sub64 ((DecodeVarLen64BigEndian [b0, b1, b2, b3, b4] : Nat) : Int)
          datetimeOffset) ((scaledFraction fb p : Nat) : Int)).2.2.2.2.1
        (datetime2Fields (sub64 ((DecodeVarLen64BigEndian [b0, b1, b2, b3, b4] : Nat) : Int)
          datetimeOffset) ((scaledFraction fb p : Nat) : Int)).2.2.2.2.2
        (mul64 ((scaledFraction fb p : Nat) : Int) 1000)) p
    rw [hrest] at hpre
    obtain ⟨a1, a2, -⟩ := absDate_spec (Date
        (datetime2Fields (sub64 ((DecodeVarLen64BigEndian [b0, b1, b2, b3, b4] : Nat) : Int)
          datetimeOffset) ((scaledFraction fb p : Nat) : Int)).1
        (datetime2Fields (sub64 ((DecodeVarLen64BigEndian [b0, b1, b2, b3, b4] : Nat) : Int)
          datetimeOffset) ((scaledFraction fb p : Nat) : Int)).2.1
        (datetime2Fields (sub64 ((DecodeVarLen64BigEndian [b0, b1, b2, b3, b4] : Nat) : Int)
          datetimeOffset) ((scaledFraction fb p : Nat) : Int)).2.2.1
        (datetime2Fields (sub64 ((DecodeVarLen64BigEndian [b0, b1, b2, b3, b4] : Nat) : Int)
          datetimeOffset) ((scaledFraction fb p : Nat) : Int)).2.2.2.1
        (datetime2Fields (sub64 ((DecodeVarLen64BigEndian [b0, b1, b2, b3, b4] : Nat) : Int)
          datetimeOffset) ((scaledFraction fb p : Nat) : Int)).2.2.2.2.1
        (datetime2Fields (sub64 ((DecodeVarLen64BigEndian [b0, b1, b2, b3, b4] : Nat) : Int)
          datetimeOffset) ((scaledFraction fb p : Nat) : Int)).2.2.2.2.2
        (mul64 ((scaledFraction fb p : Nat) : Int) 1000)).abs
    exact format_head_ne _ _ rest a1 a2 hpre

/-- Witness of C10 on the zero value with a fraction byte, precision 2. -/
theorem DecodeDatetime2_zero_iff_witness :
    DecodeDatetime2 [0x80, 0, 0, 0, 0, 50] 2 =
        (formatZeroTime ((scaledFraction [50] 2 : Nat) : Int) ((2 : Nat) : Int)).map
          (fun s => (s, 5 + extraBytes 2)) ↔
      ((0x80 : Byte) = 0x80 ∧ (0 : Byte) = 0 ∧ (0 : Byte) = 0 ∧ (0 : Byte) = 0 ∧ (0 : Byte) = 0) :=
  DecodeDatetime2_zero_iff 0x80 0 0 0 0 [50] 2 (by decide) (by decide)

/-! ## Totality, truncated input and out-of-range precision -/

/-- C11. Under the documented preconditions the decoders are total: for every precision `p`
in 0..6 and every byte slice at least as long as the width the decoder reports, each of
`DecodeTimestamp2`, `DecodeDatetime2` and `DecodeTime2` returns a result; the format-table
index of `FracTime.String` and the string slice of `formatZeroTime` are in range for every
such precision. -/
theorem decoders_total (Local : Location) (data : List Byte) (p : Nat) (hp : p ≤ 6) :
    (4 + extraBytes p ≤ data.length → (DecodeTimestamp2 Local data p).isSome = true) ∧
    (5 + extraBytes p ≤ data.length → (DecodeDatetime2 data p).isSome = true) ∧
    (3 + extraBytes p ≤ data.length → (DecodeTime2 data p).isSome = true) ∧
    (∀ t : Time, (FracTime.String ⟨t, (p : Int)⟩).isSome = true) ∧
    (∀ frac : Int, (formatZeroTime frac (p : Int)).isSome = true) := by
  refine ⟨fun h => ?_, fun h => ?_, fun h => ?_, fun t => ?_, fun frac => ?_⟩
  · obtain ⟨s, hs⟩ := DecodeTimestamp2_total Local data p hp h
    rw [hs]; rfl
  · obtain ⟨s, hs⟩ := DecodeDatetime2_total data p hp h
    rw [hs]; rfl
  · obtain ⟨s, hs⟩ := DecodeTime2_total data p hp h
    rw [hs]; rfl
  · rw [FracTime_String_eq t p hp]; rfl
  · obtain ⟨s, hs⟩ := formatZeroTime_isSome frac p hp
    rw [hs]; rfl

/-- Witness of C11 at precision 5 on eight bytes. -/
theorem decoders_total_witness :
    (4 + extraBytes 5 ≤ [1, 2, 3, 4, 5, 6, 7, 8].length →
      (DecodeTimestamp2 UTC [1, 2, 3, 4, 5, 6, 7, 8] 5).isSome = true) ∧
    (5 + extraBytes 5 ≤ [1, 2, 3, 4, 5, 6, 7, 8].length →
      (DecodeDatetime2 [1, 2, 3, 4, 5, 6, 7, 8] 5).isSome = true) ∧
    (3 + extraBytes 5 ≤ [1, 2, 3, 4, 5, 6, 7, 8].length →
      (DecodeTime2 [1, 2, 3, 4, 5, 6, 7, 8] 5).isSome = true) ∧
    (∀ t : Time, (FracTime.String ⟨t, ((5 : Nat) : Int)⟩).isSome = true) ∧
    (∀ frac : Int, (formatZeroTime frac ((5 : Nat) : Int)).isSome = true) :=
  decoders_total UTC [1, 2, 3, 4, 5, 6, 7, 8] 5 (by decide)

theorem BigEndianUint16_none (l : List Byte) (h : l.length < 2) : BigEndianUint16 l = none := by
  match l, h with
  | [], _ => rfl
  | [_], _ => rfl

theorem slice_none (data : List Byte) (lo hi : Nat) (h : data.length < hi) :
    slice data lo hi = none := by
  unfold slice; rw [if_neg (by omega)]

theorem index_none (data : List Byte) (i : Nat) (h : data.length ≤ i) : index data i = none := by
  unfold index; exact List.getElem?_eq_none h

/-- `DecodeTimestamp2` panics on input shorter than `4 + extraBytes p`. -/
theorem DecodeTimestamp2_truncated (Local : Location) (data : List Byte) (p : Nat) (hp : p ≤ 6)
    (hlen : data.length < 4 + extraBytes p) : DecodeTimestamp2 Local data p = none := by
  by_cases h4 : data.length < 4
  · simp only [DecodeTimestamp2, slice_none data 0 4 h4, Option.bind_eq_bind, Option.none_bind]
  · obtain ⟨pre, fb, rfl, hpre⟩ := exists_split_at data 4 (by omega)
    have hu : timestamp2Usec (pre ++ fb) p = none := by
      have hsf := sliceFrom_append pre fb
      rw [hpre] at hsf
      have hp' : p = 0 ∨ p = 1 ∨ p = 2 ∨ p = 3 ∨ p = 4 ∨ p = 5 ∨ p = 6 := by omega
      rcases hp' with h | h | h | h | h | h | h <;> subst h <;>
        simp only [extraBytes] at hlen
      · omega
      · simp only [timestamp2Usec, index_none (pre ++ fb) 4 (by omega), Option.map_none']
      · simp only [timestamp2Usec, index_none (pre ++ fb) 4 (by omega), Option.map_none']
      · simp only [timestamp2Usec, hsf, Option.some_bind,
          BigEndianUint16_none fb (by simp only [List.length_append] at hlen; omega),
          Option.map_none']
      · simp only [timestamp2Usec, hsf, Option.some_bind,
          BigEndianUint16_none fb (by simp only [List.length_append] at hlen; omega),
          Option.map_none']
      · simp only [timestamp2Usec, slice_none (pre ++ fb) 4 7 (by omega), Option.map_none']
      · simp only [timestamp2Usec, slice_none (pre ++ fb) 4 7 (by omega), Option.map_none']
    obtain ⟨v, hv⟩ := BigEndianUint32_isSome pre hpre
    have hs := slice_head pre fb
    rw [hpre] at hs
    simp only [DecodeTimestamp2, hs, hv, hu, Option.bind_eq_bind, Option.some_bind,
      Option.none_bind]

/-- `DecodeDatetime2` panics on input shorter than `5 + extraBytes p`. -/
theorem DecodeDatetime2_truncated (data : List Byte) (p : Nat) (hp : p ≤ 6)
    (hlen : data.length < 5 + extraBytes p) : DecodeDatetime2 data p = none := by
  by_cases h5 : data.length < 5
  · simp only [DecodeDatetime2, slice_none data 0 5 h5, Option.bind_eq_bind, Option.none_bind]
  · have hu : datetime2Frac data p = none := by
      have hp' : p = 0 ∨ p = 1 ∨ p = 2 ∨ p = 3 ∨ p = 4 ∨ p = 5 ∨ p = 6 := by omega
      rcases hp' with h | h | h | h | h | h | h <;> subst h <;>
        simp only [extraBytes] at hlen
      · omega
      · simp only [datetime2Frac, index_none data 5 (by omega), Option.map_none']
      · simp only [datetime2Frac, index_none data 5 (by omega), Option.map_none']
      · simp only [datetime2Frac, slice_none data 5 7 (by omega), Option.none_bind,
          Option.map_none']
      · simp only [datetime2Frac, slice_none data 5 7 (by omega), Option.none_bind,
          Option.map_none']
      · simp only [datetime2Frac, slice_none data 5 8 (by omega), Option.map_none']
      · simp only [datetime2Frac, slice_none data 5 8 (by omega), Option.map_none']
    obtain ⟨pre, fb, rfl, hpre⟩ := exists_split_at data 5 (by omega)
    have hs := slice_head pre fb
    rw [hpre] at hs
    simp only [DecodeDatetime2, hs, hu, Option.bind_eq_bind, Option.some_bind,
      Option.none_bind]

/-- `DecodeTime2` panics on input shorter than `3 + extraBytes p` at the precisions whose
`case` has a body: 0, 2, 4 and 6. -/
theorem DecodeTime2_truncated (data : List Byte) (p : Nat)
    (hp : p = 0 ∨ p = 2 ∨ p = 4 ∨ p = 6) (hlen : data.length < 3 + extraBytes p) :
    DecodeTime2 data p = none := by
  have hsw : time2Switch data p = none := by
    rcases hp with h | h | h | h <;> subst h <;> simp only [extraBytes] at hlen
    · simp only [time2Switch, slice_none data 0 3 (by omega), Option.bind_eq_bind,
        Option.none_bind]
    · by_cases h3 : data.length < 3
      · simp only [time2Switch, slice_none data 0 3 h3, Option.bind_eq_bind, Option.none_bind]
      · obtain ⟨pre, fb, rfl, hpre⟩ := exists_split_at data 3 (by omega)
        have hs := slice_head pre fb
        rw [hpre] at hs
        simp only [time2Switch, hs, index_none (pre ++ fb) 3 (by omega), Option.bind_eq_bind,
          Option.some_bind, Option.none_bind]
    · by_cases h3 : data.length < 3
      · simp only [time2Switch, slice_none data 0 3 h3, Option.bind_eq_bind, Option.none_bind]
      · obtain ⟨pre, fb, rfl, hpre⟩ := exists_split_at data 3 (by omega)
        have hs := slice_head pre fb
        rw [hpre] at hs
        simp only [time2Switch, hs, slice_none (pre ++ fb) 3 5 (by omega), Option.bind_eq_bind,
          Option.some_bind, Option.none_bind]
    · simp only [time2Switch, slice_none data 0 6 (by omega), Option.bind_eq_bind,
        Option.none_bind]
  simp only [DecodeTime2, hsw, Option.bind_eq_bind, Option.none_bind]

/-- C12. At the failing inputs: `DecodeTime2` on the empty slice returns `00:00:00` with 4,
5 and 6 bytes reported at precision 1, 3 and 5, whose `case` is empty, and on three bytes at
precision 1; at precision 2 the same inputs panic. -/
theorem DecodeTime2_truncated_returns :
    DecodeTime2 [] 1 = some ("00:00:00", 4) ∧
    DecodeTime2 [] 3 = some ("00:00:00", 5) ∧
    DecodeTime2 [] 5 = some ("00:00:00", 6) ∧
    DecodeTime2 [0x80, 0x10, 0x83] 1 = some ("00:00:00", 4) ∧
    DecodeTime2 [] 2 = none ∧
    DecodeTime2 [0x80, 0x10, 0x83] 2 = none := by
  decide

/-- The string slice of `formatZeroTime` is out of range for every precision above 6. -/
theorem formatZeroTime_none (frac : Int) (dec : Nat) (h : 6 < dec) :
    formatZeroTime frac (dec : Int) = none := by
  unfold formatZeroTime
  rw [if_neg (by omega)]
  simp only
  rw [if_neg (by omega)]

/-- The table index of `FracTime.String` is out of range for every precision above 6. -/
theorem FracTime_String_none (t : Time) (dec : Nat) (h : 6 < dec) :
    FracTime.String ⟨t, (dec : Int)⟩ = none := by
  have hl : fracTimeFormat.length = 7 := rfl
  have hn : fracTimeFormat[dec]? = none := List.getElem?_eq_none (by omega)
  simp only [FracTime.String, Int.toNat_ofNat, hn, Option.map_none', ite_self]

/-- Above precision 6 no `case` of the fraction switches matches. -/
theorem frac_default (data : List Byte) (dec : Nat) (h : 6 < dec) :
    timestamp2Usec data dec = some 0 ∧ datetime2Frac data dec = some 0 ∧
    time2Switch data dec = time2Switch data 0 := by
  obtain ⟨k, rfl⟩ : ∃ k, dec = k + 7 := ⟨dec - 7, by omega⟩
  exact ⟨rfl, rfl, rfl⟩

/-- C13 fails as stated: at precision 7 `DecodeTime2` takes the `default` branch and returns
the precision-0 decoding with 7 bytes reported. -/
theorem precision_above6_counterexample :
    DecodeTime2 [0x80, 0x10, 0x83] 7 = some ("01:02:03", 7) := by
  decide

/-- C13, amended. For every precision above 6, `DecodeTimestamp2` and `DecodeDatetime2` fail
on every input: no `case` matches, and the call is stopped by the run-time bounds check of the
table index `fracTimeFormat[Dec]` or of the string slice in `formatZeroTime`, both taken with
the unchecked precision. `DecodeTime2` does not fail: it takes the `default` branch and, on
three bytes or more, returns the precision-0 decoding with `3 + (dec+1)/2` bytes reported. -/
theorem precision_above6 (Local : Location) (data : List Byte) (dec : Nat) (h : 6 < dec) :
    DecodeTimestamp2 Local data dec = none ∧ DecodeDatetime2 data dec = none ∧
    (∀ t : Time, FracTime.String ⟨t, (dec : Int)⟩ = none) ∧
    (∀ frac : Int, formatZeroTime frac (dec : Int) = none) ∧
    (3 ≤ data.length →
      ∃ s, DecodeTime2 data 0 = some (s, 3) ∧
        DecodeTime2 data dec = some (s, 3 + (dec + 1) % 65536 / 2)) := by
  obtain ⟨h1, h2, h3⟩ := frac_default data dec h
  refine ⟨?_, ?_, fun t => FracTime_String_none t dec h, fun frac => formatZeroTime_none frac dec h,
    fun hlen => ?_⟩
  · simp only [DecodeTimestamp2, h1, Option.bind_eq_bind, Option.some_bind]
    cases (slice data 0 4).bind BigEndianUint32 with
    | none => rfl
    | some sec =>
      simp only [Option.some_bind, formatZeroTime_none _ dec h, FracTime_String_none _ dec h,
        Option.map_none', ite_self]
  · simp only [DecodeDatetime2, h2, Option.bind_eq_bind, Option.some_bind]
    cases slice data 0 5 with
    | none => rfl
    | some b =>
      simp only [Option.some_bind, formatZeroTime_none _ dec h, FracTime_String_none _ dec h,
        Option.map_none', ite_self]
  · obtain ⟨s, hs⟩ := DecodeTime2_total data 0 (by omega) (by simpa [extraBytes] using hlen)
    refine ⟨s, hs, ?_⟩
    simp only [DecodeTime2, h3, Option.bind_eq_bind] at hs ⊢
    cases hsw : time2Switch data 0 with
    | none => rw [hsw] at hs; exact absurd hs (by simp)
    | some r =>
      rw [hsw] at hs
      simp only [Option.some_bind] at hs ⊢
      split at hs <;> rename_i hz
      · rw [if_pos hz]
        simp only [Option.some.injEq, Prod.mk.injEq] at hs ⊢
        exact ⟨hs.1, trivial⟩
      · rw [if_neg hz]
        simp only [Option.some.injEq, Prod.mk.injEq] at hs ⊢
        exact ⟨hs.1, trivial⟩

/-- Witness of C13 (amended) at precision 7 on eight bytes. -/
theorem precision_above6_witness :
    DecodeTimestamp2 UTC [0x80, 0x10, 0x83, 0, 0, 0, 0, 0] 7 = none ∧
    DecodeDatetime2 [0x80, 0x10, 0x83, 0, 0, 0, 0, 0] 7 = none ∧
    (∀ t : Time, FracTime.String ⟨t, ((7 : Nat) : Int)⟩ = none) ∧
    (∀ frac : Int, formatZeroTime frac ((7 : Nat) : Int) = none) ∧
    (3 ≤ [(0x80 : Byte), 0x10, 0x83, 0, 0, 0, 0, 0].length →
      ∃ s, DecodeTime2 [0x80, 0x10, 0x83, 0, 0, 0, 0, 0] 0 = some (s, 3) ∧
        DecodeTime2 [0x80, 0x10, 0x83, 0, 0, 0, 0, 0] 7 = some (s, 3 + (7 + 1) % 65536 / 2)) :=
  precision_above6 UTC [0x80, 0x10, 0x83, 0, 0, 0, 0, 0] 7 (by decide)

/-! ## Ranges of the decoded fraction -/

theorem slice_length (data b : List Byte) (lo hi : Nat) (h : slice data lo hi = some b) :
    b.length = hi - lo := by
  unfold slice at h
  split at h
  · rename_i hc
    simp only [Option.some.injEq] at h
    subst h
    simp only [List.length_take, List.length_drop]
    omega
  · exact absurd h (by simp)

theorem length_three (b : List Byte) (h : b.length = 3) : ∃ x y z, b = [x, y, z] := by
  match b, h with
  | [x, y, z], _ => exact ⟨x, y, z, rfl⟩

theorem DecodeVarLen64BigEndian_six_lt (b : List Byte) (h : b.length = 6) :
    DecodeVarLen64BigEndian b < 2 ^ 48 := by
  match b, h with
  | [b0, b1, b2, b3, b4, b5], _ =>
    have h0 := b0.isLt
    have h1 := b1.isLt
    have h2 := b2.isLt
    have h3 := b3.isLt
    have h4 := b4.isLt
    have h5 := b5.isLt
    simp only [DecodeVarLen64BigEndian, List.foldl]
    omega

/-- The borrow correction changes the integer part by at most one and keeps the fraction
within `base` of zero. -/
theorem time2Borrow_bound (i f base : Int) (hi1 : -(2 ^ 23) ≤ i) (hi2 : i < 2 ^ 23)
    (hf1 : 0 ≤ f) (hf2 : f < base) (hb : base ≤ 2 ^ 16) :
    -(2 ^ 23) ≤ (time2Borrow i f base).1 ∧ (time2Borrow i f base).1 < 2 ^ 23 ∧
    -base < (time2Borrow i f base).2 ∧ (time2Borrow i f base).2 < base := by
  unfold time2Borrow
  split
  · simp only [add64, sub64, wrap64]
    omega
  · simp only
    omega

/-- The values left by the switch of `DecodeTime2` are far from the `int64` bounds. -/
theorem time2Switch_bound (data : List Byte) (dec : Nat) (tmp ip : Int)
    (h : time2Switch data dec = some (tmp, ip)) : -(2 ^ 48) < tmp ∧ tmp < 2 ^ 48 := by
  have hdef : ∀ tmp ip, time2Switch data 0 = some (tmp, ip) → -(2 ^ 48) < tmp ∧ tmp < 2 ^ 48 := by
    intro tmp ip h
    simp only [time2Switch, Option.bind_eq_bind, Option.bind_eq_some, Option.some.injEq,
      Prod.mk.injEq] at h
    obtain ⟨b, hb, ht, -⟩ := h
    obtain ⟨x, y, z, rfl⟩ := length_three b (slice_length _ _ _ _ hb)
    have hx := x.isLt
    have hy := y.isLt
    have hz := z.isLt
    rw [time2_intPart] at ht
    subst ht
    simp only [shl64, wrap64]
    omega
  by_cases h6 : 6 < dec
  · rw [(frac_default data dec h6).2.2] at h
    exact hdef tmp ip h
  · have hp' : dec = 0 ∨ dec = 1 ∨ dec = 2 ∨ dec = 3 ∨ dec = 4 ∨ dec = 5 ∨ dec = 6 := by omega
    rcases hp' with hd | hd | hd | hd | hd | hd | hd <;> subst hd
    · exact hdef tmp ip h
    · simp only [time2Switch, Option.some.injEq, Prod.mk.injEq] at h
      omega
    · simp only [time2Switch, Option.bind_eq_bind, Option.bind_eq_some, Option.some.injEq,
        Prod.mk.injEq] at h
      obtain ⟨b, hb, f, hf, ht, -⟩ := h
      obtain ⟨x, y, z, rfl⟩ := length_three b (slice_length _ _ _ _ hb)
      have hx := x.isLt
      have hy := y.isLt
      have hz := z.isLt
      have hfl := f.isLt
      rw [time2_intPart] at ht
      obtain ⟨b1, b2, b3, b4⟩ := time2Borrow_bound
        ((x.val * 65536 + y.val * 256 + z.val : Int) - 0x800000) (f.val : Int) 0x100
        (by omega) (by omega) (by omega) (by omega) (by norm_num)
      subst ht
      generalize (time2Borrow ((x.val * 65536 + y.val * 256 + z.val : Int) - 0x800000)
        (f.val : Int) 0x100).1 = e at b1 b2 ⊢
      generalize (time2Borrow ((x.val * 65536 + y.val * 256 + z.val : Int) - 0x800000)
        (f.val : Int) 0x100).2 = g at b3 b4 ⊢
      have s1 : shl64 e 24 = e * 2 ^ 24 := wrap64_of_range _ (by omega) (by omega)
      have s2 : mul64 g 10000 = g * 10000 := wrap64_of_range _ (by omega) (by omega)
      rw [s1, s2, add64, wrap64_of_range _ (by omega) (by omega)]
      omega
    · simp only [time2Switch, Option.some.injEq, Prod.mk.injEq] at h
      omega
    · simp only [time2Switch, Option.bind_eq_bind, Option.bind_eq_some, Option.some.injEq,
        Prod.mk.injEq] at h
      obtain ⟨b, hb, f, ⟨fb, hfb, hf⟩, ht, -⟩ := h
      obtain ⟨x, y, z, rfl⟩ := length_three b (slice_length _ _ _ _ hb)
      have hx := x.isLt
      have hy := y.isLt
      have hz := z.isLt
      have hfl : f < 65536 := by
        match fb, hf with
        | f0 :: f1 :: _, hf =>
          simp only [BigEndianUint16, Option.some.injEq] at hf
          have h0 := f0.isLt
          have h1 := f1.isLt
          omega
      rw [time2_intPart] at ht
      obtain ⟨b1, b2, b3, b4⟩ := time2Borrow_bound
        ((x.val * 65536 + y.val * 256 + z.val : Int) - 0x800000) (f : Int) 0x10000
        (by omega) (by omega) (by omega) (by omega) (by norm_num)
      subst ht
      generalize (time2Borrow ((x.val * 65536 + y.val * 256 + z.val : Int) - 0x800000)
        (f : Int) 0x10000).1 = e at b1 b2 ⊢
      generalize (time2Borrow ((x.val * 65536 + y.val * 256 + z.val : Int) - 0x800000)
        (f : Int) 0x10000).2 = g at b3 b4 ⊢
      have s1 : shl64 e 24 = e * 2 ^ 24 := wrap64_of_range _ (by omega) (by omega)
      have s2 : mul64 g 100 = g * 100 := wrap64_of_range _ (by omega) (by omega)
      rw [s1, s2, add64, wrap64_of_range _ (by omega) (by omega)]
      omega
    · simp only [time2Switch, Option.some.injEq, Prod.mk.injEq] at h
      omega
    · simp only [time2Switch, Option.bind_eq_bind, Option.bind_eq_some, Option.some.injEq,
        Prod.mk.injEq] at h
      obtain ⟨b, hb, ht, -⟩ := h
      have hv := DecodeVarLen64BigEndian_six_lt b (slice_length _ _ _ _ hb)
      subst ht
      simp only [sub64, wrap64, timeOffset]
      omega

/-- The scaled fraction is the raw field times its scale and stays below `2^24`. -/
theorem scaledFraction_lt (fb : List Byte) (p : Nat) : scaledFraction fb p < 2 ^ 24 := by
  have h0 := (fb.getD 0 0).isLt
  have h1 := (fb.getD 1 0).isLt
  have h2 := (fb.getD 2 0).isLt
  unfold scaledFraction
  split <;> omega

/-- A raw field within the limit of its precision scales to at most 999999. -/
theorem scaledFraction_le (fb : List Byte) (p : Nat) (h : rawFraction fb p < rawLimit p) :
    scaledFraction fb p ≤ 999999 := by
  unfold rawFraction rawLimit at h
  unfold scaledFraction
  split <;> simp only at h ⊢ <;> omega

/-- The value of `secPart` on a `tmp` inside the `int64` range. -/
theorem time2SecPart_range (tmp : Int) (h1 : -(2 ^ 63) < tmp) (h2 : tmp < 2 ^ 63) :
    0 ≤ time2SecPart tmp ∧ time2SecPart tmp < 2 ^ 24 := by
  unfold time2SecPart
  split
  · have hn : neg64 tmp = -tmp := wrap64_of_range _ (by omega) (by omega)
    rw [hn, Int.tmod_eq_emod (by omega) (by norm_num)]
    omega
  · rw [Int.tmod_eq_emod (by omega) (by norm_num)]
    omega

/-- C14 fails as stated: a fraction byte of 100 at precision 1 or 2 scales to 1000000 in all
three decoders. -/
theorem fraction_range_counterexample :
    timestamp2Usec [0, 0, 0, 1, 100] 1 = some 1000000 ∧
    datetime2Frac [0x80, 0, 0, 0, 1, 100] 1 = some 1000000 ∧
    time2Switch [0x80, 0x10, 0x83, 100] 2 = some (0x1083 * 2 ^ 24 + 1000000, 0x1083) ∧
    time2SecPart (0x1083 * 2 ^ 24 + 1000000) = 1000000 ∧
    DecodeTime2 [0x80, 0x10, 0x83, 100] 2 = some ("01:02:03.1000000", 4) ∧
    ¬ ((1000000 : Int) ≤ 999999) := by
  decide

/-- C14, amended. For every input and every precision in 0..6 the fractional value is a
non-negative integer below `2^24`: `usec` in `DecodeTimestamp2` and `frac` in `DecodeDatetime2`
are the scaled raw field, which is at most 999999 whenever the raw field is below 100, 10000,
1000000 at precisions 1-2, 3-4, 5-6; `secPart` in `DecodeTime2` lies in `0..2^24 - 1`. -/
theorem fraction_range (pre fb : List Byte) (p : Nat) (hp : p ≤ 6)
    (hlen : extraBytes p ≤ fb.length) :
    (pre.length = 4 → timestamp2Usec (pre ++ fb) p = some ((scaledFraction fb p : Nat) : Int)) ∧
    (pre.length = 5 → datetime2Frac (pre ++ fb) p = some ((scaledFraction fb p : Nat) : Int)) ∧
    scaledFraction fb p < 2 ^ 24 ∧
    (rawFraction fb p < rawLimit p → scaledFraction fb p ≤ 999999) ∧
    (∀ (data : List Byte) (tmp ip : Int), time2Switch data p = some (tmp, ip) →
      0 ≤ time2SecPart tmp ∧ time2SecPart tmp < 2 ^ 24) := by
  refine ⟨timestamp2Usec_eq pre fb p hp hlen, datetime2Frac_eq pre fb p hp hlen,
    scaledFraction_lt fb p, scaledFraction_le fb p, fun data tmp ip h => ?_⟩
  obtain ⟨b1, b2⟩ := time2Switch_bound data p tmp ip h
  exact time2SecPart_range tmp (by omega) (by omega)

/-- Witness of C14 (amended): precision 2 with the fraction byte 50. -/
theorem fraction_range_witness :
    ([(0 : Byte), 0, 0, 1].length = 4 →
      timestamp2Usec ([0, 0, 0, 1] ++ [50]) 2 = some ((scaledFraction [50] 2 : Nat) : Int)) ∧
    ([(0 : Byte), 0, 0, 1].length = 5 →
      datetime2Frac ([0, 0, 0, 1] ++ [50]) 2 = some ((scaledFraction [50] 2 : Nat) : Int)) ∧
    scaledFraction [50] 2 < 2 ^ 24 ∧
    (rawFraction [50] 2 < rawLimit 2 → scaledFraction [50] 2 ≤ 999999) ∧
    (∀ (data : List Byte) (tmp ip : Int), time2Switch data 2 = some (tmp, ip) →
      0 ≤ time2SecPart tmp ∧ time2SecPart tmp < 2 ^ 24) :=
  fraction_range [0, 0, 0, 1] [50] 2 (by decide) (by decide)

/-! ## The bit fields of `DecodeDatetime2` -/

/-- The fields extracted from a non-negative `tmp = ymdhms * 2^24 + s`. -/
theorem datetime2Fields_of_tmp (intPart frac ymdhms s : Int)
    (htmp : (if add64 (shl64 intPart 24) frac < 0 then neg64 (add64 (shl64 intPart 24) frac)
      else add64 (shl64 intPart 24) frac) = ymdhms * 2 ^ 24 + s)
    (hy : 0 ≤ ymdhms) (hs0 : 0 ≤ s) (hs1 : s < 2 ^ 24) :
    datetime2Fields intPart frac = fieldsOf ymdhms := by
  have e1 : shr64 (ymdhms * 2 ^ 24 + s) 24 = ymdhms := by
    unfold shr64; omega
  have e2 : shr64 ymdhms 17 = ymdhms / 2 ^ 17 := rfl
  have e3 : shr64 (ymdhms / 2 ^ 17) 5 = ymdhms / 2 ^ 17 / 2 ^ 5 := rfl
  have e4 : Int.tmod ymdhms (2 ^ 17) = ymdhms % 2 ^ 17 :=
    Int.tmod_eq_emod hy (by norm_num)
  have e5 : Int.tmod (ymdhms / 2 ^ 17) (2 ^ 5) = ymdhms / 2 ^ 17 % 2 ^ 5 :=
    Int.tmod_eq_emod (by omega) (by norm_num)
  have e6 : Int.tmod (ymdhms / 2 ^ 17 / 2 ^ 5) 13 = ymdhms / 2 ^ 17 / 2 ^ 5 % 13 :=
    Int.tmod_eq_emod (by omega) (by norm_num)
  have e7 : Int.tdiv (ymdhms / 2 ^ 17 / 2 ^ 5) 13 = ymdhms / 2 ^ 17 / 2 ^ 5 / 13 :=
    Int.tdiv_eq_ediv (by omega) (by norm_num)
  have e8 : Int.tmod (ymdhms % 2 ^ 17) (2 ^ 6) = ymdhms % 2 ^ 17 % 2 ^ 6 :=
    Int.tmod_eq_emod (by omega) (by norm_num)
  have e9 : shr64 (ymdhms % 2 ^ 17) 6 = ymdhms % 2 ^ 17 / 2 ^ 6 := rfl
  have e10 : Int.tmod (ymdhms % 2 ^ 17 / 2 ^ 6) (2 ^ 6) = ymdhms % 2 ^ 17 / 2 ^ 6 % 2 ^ 6 :=
    Int.tmod_eq_emod (by omega) (by norm_num)
  have e11 : shr64 (ymdhms % 2 ^ 17) 12 = ymdhms % 2 ^ 17 / 2 ^ 12 := rfl
  simp only [datetime2Fields, htmp, e1, e2, e3, e4, e5, e6, e7, e8, e9, e10, e11, fieldsOf]

/-- No overflow in `intPart<<24 + frac` for a 40-bit integer part and a 24-bit fraction. -/
theorem packed_no_overflow (intPart frac : Int) (h1 : -(2 ^ 39) ≤ intPart) (h2 : intPart < 2 ^ 39)
    (hf0 : 0 ≤ frac) (hf1 : frac < 2 ^ 24) :
    shl64 intPart 24 = intPart * 2 ^ 24 ∧
    add64 (shl64 intPart 24) frac = intPart * 2 ^ 24 + frac := by
  have s1 : shl64 intPart 24 = intPart * 2 ^ 24 := wrap64_of_range _ (by omega) (by omega)
  refine ⟨s1, ?_⟩
  rw [s1, add64, wrap64_of_range _ (by omega) (by omega)]

/-- The fields extracted from a positive integer part are its own bit fields, whatever the
fraction. -/
theorem datetime2Fields_pos (intPart frac : Int) (h1 : 0 < intPart) (h2 : intPart < 2 ^ 39)
    (hf0 : 0 ≤ frac) (hf1 : frac < 2 ^ 24) :
    datetime2Fields intPart frac = fieldsOf intPart := by
  apply datetime2Fields_of_tmp intPart frac intPart frac _ (by omega) hf0 hf1
  rw [(packed_no_overflow intPart frac (by omega) h2 hf0 hf1).2, if_neg (by omega)]

/-- The bit fields recompose to the value they were cut from. -/
theorem fieldsOf_sum (v : Int) (h : 0 ≤ v) :
    ((((fieldsOf v).1 * 13 + (fieldsOf v).2.1) * 32 + (fieldsOf v).2.2.1) * 2 ^ 17) +
      (fieldsOf v).2.2.2.1 * 4096 + (fieldsOf v).2.2.2.2.1 * 64 + (fieldsOf v).2.2.2.2.2 = v ∧
    0 ≤ (fieldsOf v).1 ∧ 0 ≤ (fieldsOf v).2.1 ∧ (fieldsOf v).2.1 ≤ 12 ∧
    0 ≤ (fieldsOf v).2.2.1 ∧ (fieldsOf v).2.2.1 ≤ 31 ∧
    0 ≤ (fieldsOf v).2.2.2.1 ∧
    0 ≤ (fieldsOf v).2.2.2.2.1 ∧ (fieldsOf v).2.2.2.2.1 ≤ 63 ∧
    0 ≤ (fieldsOf v).2.2.2.2.2 ∧ (fieldsOf v).2.2.2.2.2 ≤ 63 := by
  simp only [fieldsOf]
  omega

/-- `DecodeDatetime2` off the zero-sentinel branch. -/
theorem DecodeDatetime2_nonzero_branch (b0 b1 b2 b3 b4 : Byte) (fb : List Byte) (p : Nat)
    (hp : p ≤ 6) (hlen : extraBytes p ≤ fb.length)
    (hz : sub64 ((DecodeVarLen64BigEndian [b0, b1, b2, b3, b4] : Nat) : Int) datetimeOffset ≠ 0) :
    DecodeDatetime2 (b0 :: b1 :: b2 :: b3 :: b4 :: fb) p =
      (FracTime.String
        ⟨Date
          (datetime2Fields (sub64 ((DecodeVarLen64BigEndian [b0, b1, b2, b3, b4] : Nat) : Int)
            datetimeOffset) ((scaledFraction fb p : Nat) : Int)).1
          (datetime2Fields (sub64 ((DecodeVarLen64BigEndian [b0, b1, b2, b3, b4] : Nat) : Int)
            datetimeOffset) ((scaledFraction fb p : Nat) : Int)).2.1
          (datetime2Fields (sub64 ((DecodeVarLen64BigEndian [b0, b1, b2, b3, b4] : Nat) : Int)
            datetimeOffset) ((scaledFraction fb p : Nat) : Int)).2.2.1
          (datetime2Fields (sub64 ((DecodeVarLen64BigEndian [b0, b1, b2, b3, b4] : Nat) : Int)
            datetimeOffset) ((scaledFraction fb p : Nat) : Int)).2.2.2.1
          (datetime2Fields (sub64 ((DecodeVarLen64BigEndian [b0, b1, b2, b3, b4] : Nat) : Int)
            datetimeOffset) ((scaledFraction fb p : Nat) : Int)).2.2.2.2.1
          (datetime2Fields (sub64 ((DecodeVarLen64BigEndian [b0, b1, b2, b3, b4] : Nat) : Int)
            datetimeOffset) ((scaledFraction fb p : Nat) : Int)).2.2.2.2.2
          (mul64 ((scaledFraction fb p : Nat) : Int) 1000), (p : Int)⟩).map
        fun s => (s, 5 + extraBytes p) := by
  have hf := datetime2Frac_eq [b0, b1, b2, b3, b4] fb p hp hlen rfl
  have hs := slice_head [b0, b1, b2, b3, b4] fb
  simp only [List.length_cons, List.length_nil, List.cons_append, List.nil_append] at hf hs
  simp only [DecodeDatetime2, hs, hf, Option.bind_eq_bind, Option.some_bind, hz, if_false,
    width_eq 5 p hp]

/-- The integer part of `DecodeDatetime2`: the five-byte value minus the offset. -/
theorem datetime2_intPart (b0 b1 b2 b3 b4 : Byte) :
    sub64 ((DecodeVarLen64BigEndian [b0, b1, b2, b3, b4] : Nat) : Int) datetimeOffset =
      (b0.val * 4294967296 + b1.val * 16777216 + b2.val * 65536 + b3.val * 256 + b4.val : Int)
        - 0x8000000000 := by
  have h0 := b0.isLt
  have h1 := b1.isLt
  have h2 := b2.isLt
  have h3 := b3.isLt
  have h4 := b4.isLt
  rw [DecodeVarLen64BigEndian_five]
  unfold sub64 wrap64 datetimeOffset
  omega

/-- C15. The bit-field extraction of `DecodeDatetime2` is an exact decomposition of a
positive integer part: for every precision in 0..6, the fields handed to `time.Date` are
`fieldsOf intPart` (so they do not depend on the fraction bytes), they recompose to
`intPart`, and they lie in the ranges `year ≥ 0`, `month ≤ 12`, `day ≤ 31`, `hour ≤ 31`,
`minute ≤ 63`, `second ≤ 63`. -/
theorem datetime2Fields_decomposition (b0 b1 b2 b3 b4 : Byte) (fb : List Byte) (p : Nat)
    (intPart : Int) (hp : p ≤ 6) (hlen : extraBytes p ≤ fb.length)
    (hI : intPart =
      (b0.val * 4294967296 + b1.val * 16777216 + b2.val * 65536 + b3.val * 256 + b4.val : Int)
        - 0x8000000000)
    (hpos : 0 < intPart) :
    ∃ year month day hour minute second : Int,
      fieldsOf intPart = (year, month, day, hour, minute, second) ∧
      datetime2Fields intPart ((scaledFraction fb p : Nat) : Int) =
        (year, month, day, hour, minute, second) ∧
      DecodeDatetime2 (b0 :: b1 :: b2 :: b3 :: b4 :: fb) p =
        (FracTime.String ⟨Date year month day hour minute second
          (mul64 ((scaledFraction fb p : Nat) : Int) 1000), (p : Int)⟩).map
          (fun s => (s, 5 + extraBytes p)) ∧
      (((year * 13 + month) * 32 + day) * 2 ^ 17) + hour * 4096 + minute * 64 + second
        = intPart ∧
      0 ≤ year ∧ 0 ≤ month ∧ month ≤ 12 ∧ 0 ≤ day ∧ day ≤ 31 ∧ 0 ≤ hour ∧ hour ≤ 31 ∧
      0 ≤ minute ∧ minute ≤ 63 ∧ 0 ≤ second ∧ second ≤ 63 := by
  have h0 := b0.isLt
  have h1 := b1.isLt
  have h2 := b2.isLt
  have h3 := b3.isLt
  have h4 := b4.isLt
  have hlt := scaledFraction_lt fb p
  have hF := datetime2Fields_pos intPart ((scaledFraction fb p : Nat) : Int) hpos (by omega)
    (by omega) (by omega)
  have hbr := DecodeDatetime2_nonzero_branch b0 b1 b2 b3 b4 fb p hp hlen
    (by rw [datetime2_intPart, ← hI]; omega)
  rw [datetime2_intPart, ← hI, hF] at hbr
  obtain ⟨s1, s2, s3, s4, s5, s6, s7, s8, s9, s10, s11⟩ := fieldsOf_sum intPart (by omega)
  have hhour : (fieldsOf intPart).2.2.2.1 ≤ 31 := by
    simp only [fieldsOf]; omega
  exact ⟨_, _, _, _, _, _, rfl, hF, hbr, s1, s2, s3, s4, s5, s6, s7, hhour, s8, s9, s10, s11⟩

/-- Witness of C15 at 2024-01-15 03:04:05 with a fraction byte, precision 2. -/
theorem datetime2Fields_decomposition_witness :
    ∃ year month day hour minute second : Int,
      fieldsOf 110366699781 = (year, month, day, hour, minute, second) ∧
      datetime2Fields 110366699781 ((scaledFraction [50] 2 : Nat) : Int) =
        (year, month, day, hour, minute, second) ∧
      DecodeDatetime2 [0x99, 0xB2, 0x5E, 0x31, 0x05, 50] 2 =
        (FracTime.String ⟨Date year month day hour minute second
          (mul64 ((scaledFraction [50] 2 : Nat) : Int) 1000), ((2 : Nat) : Int)⟩).map
          (fun s => (s, 5 + extraBytes 2)) ∧
      (((year * 13 + month) * 32 + day) * 2 ^ 17) + hour * 4096 + minute * 64 + second
        = 110366699781 ∧
      0 ≤ year ∧ 0 ≤ month ∧ month ≤ 12 ∧ 0 ≤ day ∧ day ≤ 31 ∧ 0 ≤ hour ∧ hour ≤ 31 ∧
      0 ≤ minute ∧ minute ≤ 63 ∧ 0 ≤ second ∧ second ≤ 63 :=
  datetime2Fields_decomposition 0x99 0xB2 0x5E 0x31 0x05 [50] 2 110366699781 (by decide)
    (by decide) (by decide) (by decide)
/-! ## Addition against bitwise or in `DecodeDatetime2` -/

/-- Or-ing a 24-bit value into a value shifted left by 24 bits adds it. -/
theorem or64_shifted (i f : Int) (h1 : -(2 ^ 39) ≤ i) (h2 : i < 2 ^ 39) (hf0 : 0 ≤ f)
    (hf1 : f < 2 ^ 24) : or64 (i * 2 ^ 24) f = i * 2 ^ 24 + f := by
  have ea : ((i * 2 ^ 24) % 2 ^ 64).toNat = 2 ^ 24 * (i % 2 ^ 40).toNat := by omega
  have eb : (f % 2 ^ 64).toNat = f.toNat := by omega
  have hlt : f.toNat < 2 ^ 24 := by omega
  rw [or64, ea, eb, ← Nat.mul_add_lt_is_or hlt]
  unfold wrap64
  push_cast
  omega

/-- The fields computed from the sum are those computed from the bitwise or as soon as the
two combinations agree. -/
theorem datetime2Fields_of_or (intPart frac : Int)
    (h : add64 (shl64 intPart 24) frac = packedOr intPart frac) :
    datetime2Fields intPart frac = datetime2FieldsOr intPart frac := by
  unfold datetime2Fields datetime2FieldsOr
  rw [h]

/-- C16. In `DecodeDatetime2` the sum the code forms equals the bitwise or of the spec: for
every input and every precision in 0..6 the fraction satisfies `0 ≤ frac < 2^24` and the
integer part `-2^39 ≤ intPart < 2^39`, so neither `intPart << 24` nor the sum overflows, and
`(intPart << 24) + frac = (intPart << 24) | frac` on `int64`. Hence the fields that
`datetime2Fields` extracts from the sum are the fields `datetime2FieldsOr` extracts from the
bitwise or, and `DecodeDatetime2` returns, with the same result, what the decoder worded
with the bitwise or returns. -/
theorem packed_add_eq_or (b0 b1 b2 b3 b4 : Byte) (fb : List Byte) (p : Nat) (intPart : Int)
    (hp : p ≤ 6) (hlen : extraBytes p ≤ fb.length)
    (hI : intPart =
      sub64 ((DecodeVarLen64BigEndian [b0, b1, b2, b3, b4] : Nat) : Int) datetimeOffset) :
    datetime2Frac (b0 :: b1 :: b2 :: b3 :: b4 :: fb) p =
      some ((scaledFraction fb p : Nat) : Int) ∧
    scaledFraction fb p < 2 ^ 24 ∧
    -(2 ^ 39) ≤ intPart ∧ intPart < 2 ^ 39 ∧
    shl64 intPart 24 = intPart * 2 ^ 24 ∧
    add64 (shl64 intPart 24) ((scaledFraction fb p : Nat) : Int) =
      intPart * 2 ^ 24 + ((scaledFraction fb p : Nat) : Int) ∧
    add64 (shl64 intPart 24) ((scaledFraction fb p : Nat) : Int) =
      packedOr intPart ((scaledFraction fb p : Nat) : Int) ∧
    datetime2Fields intPart ((scaledFraction fb p : Nat) : Int) =
      datetime2FieldsOr intPart ((scaledFraction fb p : Nat) : Int) ∧
    (DecodeDatetime2 (b0 :: b1 :: b2 :: b3 :: b4 :: fb) p).isSome = true ∧
    DecodeDatetime2 (b0 :: b1 :: b2 :: b3 :: b4 :: fb) p =
      DecodeDatetime2Or (b0 :: b1 :: b2 :: b3 :: b4 :: fb) p := by
  have h0 := b0.isLt
  have h1 := b1.isLt
  have h2 := b2.isLt
  have h3 := b3.isLt
  have h4 := b4.isLt
  have hlt := scaledFraction_lt fb p
  have hI2 := hI
  rw [datetime2_intPart] at hI2
  have hf := datetime2Frac_eq [b0, b1, b2, b3, b4] fb p hp hlen rfl
  have hs := slice_head [b0, b1, b2, b3, b4] fb
  simp only [List.length_cons, List.length_nil, List.cons_append, List.nil_append] at hf hs
  obtain ⟨s1, s2⟩ := packed_no_overflow intPart ((scaledFraction fb p : Nat) : Int) (by omega)
    (by omega) (by omega) (by omega)
  have hor : add64 (shl64 intPart 24) ((scaledFraction fb p : Nat) : Int) =
      packedOr intPart ((scaledFraction fb p : Nat) : Int) := by
    rw [s2, packedOr, s1, or64_shifted intPart _ (by omega) (by omega) (by omega) (by omega)]
  have hfields := datetime2Fields_of_or intPart _ hor
  obtain ⟨s, hsome⟩ := DecodeDatetime2_total (b0 :: b1 :: b2 :: b3 :: b4 :: fb) p hp
    (by simp only [List.length_cons]; omega)
  refine ⟨hf, hlt, by omega, by omega, s1, s2, hor, hfields, by rw [hsome]; rfl, ?_⟩
  rw [hI] at hfields
  unfold DecodeDatetime2 DecodeDatetime2Or
  rw [hs, hf]
  simp -iota only [Option.bind_eq_bind, Option.some_bind]
  rw [hfields]

/-- Witness of C16 on a negative integer part with a fraction byte, precision 2. -/
theorem packed_add_eq_or_witness :
    datetime2Frac [0x66, 0x4D, 0xA1, 0xCE, 0xFB, 50] 2 =
      some ((scaledFraction [50] 2 : Nat) : Int) ∧
    scaledFraction [50] 2 < 2 ^ 24 ∧
    -(2 ^ 39) ≤ (-110366699781 : Int) ∧ (-110366699781 : Int) < 2 ^ 39 ∧
    shl64 (-110366699781) 24 = (-110366699781) * 2 ^ 24 ∧
    add64 (shl64 (-110366699781) 24) ((scaledFraction [50] 2 : Nat) : Int) =
      (-110366699781) * 2 ^ 24 + ((scaledFraction [50] 2 : Nat) : Int) ∧
    add64 (shl64 (-110366699781) 24) ((scaledFraction [50] 2 : Nat) : Int) =
      packedOr (-110366699781) ((scaledFraction [50] 2 : Nat) : Int) ∧
    datetime2Fields (-110366699781) ((scaledFraction [50] 2 : Nat) : Int) =
      datetime2FieldsOr (-110366699781) ((scaledFraction [50] 2 : Nat) : Int) ∧
    (DecodeDatetime2 [0x66, 0x4D, 0xA1, 0xCE, 0xFB, 50] 2).isSome = true ∧
    DecodeDatetime2 [0x66, 0x4D, 0xA1, 0xCE, 0xFB, 50] 2 =
      DecodeDatetime2Or [0x66, 0x4D, 0xA1, 0xCE, 0xFB, 50] 2 :=
  packed_add_eq_or 0x66 0x4D 0xA1 0xCE 0xFB [50] 2 (-110366699781) (by decide) (by decide)
    (by decide)

/-- The fields of the witness of C16 are not degenerate. -/
theorem datetime2FieldsOr_value :
    datetime2FieldsOr (-110366699781) 500000 = (2024, 1, 15, 3, 4, 4) ∧
    datetime2Fields (-110366699781) 500000 = (2024, 1, 15, 3, 4, 4) := by
  decide

/-! ## Negative packed datetimes -/

/-- The fields extracted from a negative integer part, when negating `tmp` does not
overflow: they are the bit fields of `-intPart` for a zero fraction and of `-intPart - 1`
otherwise. -/
theorem datetime2Fields_neg (intPart frac : Int) (h1 : -(2 ^ 39) ≤ intPart) (h2 : intPart < 0)
    (hf0 : 0 ≤ frac) (hf1 : frac < 2 ^ 24) (hne : ¬(intPart = -(2 ^ 39) ∧ frac = 0)) :
    add64 (shl64 intPart 24) frac < 0 ∧
    datetime2Fields intPart frac = fieldsOf (if frac = 0 then -intPart else -intPart - 1) := by
  obtain ⟨-, s2⟩ := packed_no_overflow intPart frac h1 (by omega) hf0 hf1
  have hlt : add64 (shl64 intPart 24) frac < 0 := by rw [s2]; omega
  have hn : neg64 (intPart * 2 ^ 24 + frac) = -(intPart * 2 ^ 24 + frac) :=
    wrap64_of_range _ (by omega) (by omega)
  refine ⟨hlt, ?_⟩
  by_cases hz : frac = 0
  · rw [if_pos hz]
    apply datetime2Fields_of_tmp intPart frac (-intPart) 0 _ (by omega) (by omega) (by norm_num)
    rw [if_pos hlt, s2, hn]
    omega
  · rw [if_neg hz]
    apply datetime2Fields_of_tmp intPart frac (-intPart - 1) (2 ^ 24 - frac) _ (by omega)
      (by omega) (by omega)
    rw [if_pos hlt, s2, hn]
    omega

set_option maxRecDepth 4000 in
/-- C17. At the failing input, five zero bytes at precision 0: `intPart = -2^39` and
`frac = 0` give `tmp = -2^63`, whose negation wraps to `-2^63` again, so the fields are cut
from the negative `ymdhms = -2^39` (year -10082, month -6) and not from `-intPart = 2^39`
(year 10082, month 6); the call prints `-10083-05-31 00:00:00`. -/
theorem DecodeDatetime2_min_overflow :
    sub64 ((DecodeVarLen64BigEndian [0, 0, 0, 0, 0] : Nat) : Int) datetimeOffset = -(2 ^ 39) ∧
    add64 (shl64 (-(2 ^ 39)) 24) 0 = -(2 ^ 63) ∧
    neg64 (-(2 ^ 63)) = -(2 ^ 63) ∧
    shr64 (neg64 (-(2 ^ 63))) 24 = -(2 ^ 39) ∧
    datetime2Fields (-(2 ^ 39)) 0 = (-10082, -6, 0, 0, 0, 0) ∧
    fieldsOf (2 ^ 39) = (10082, 6, 0, 0, 0, 0) ∧
    DecodeDatetime2 [0, 0, 0, 0, 0] 0 = some ("-10083-05-31 00:00:00", 5) := by
  decide

/-! ## The fractional suffix of `DecodeTime2` -/

/-- The formatting tail of `DecodeTime2` in closed form: sign, `HH:MM:SS` of `|tmp| >> 24`,
and the fraction `|tmp| mod 2^24` when it is not zero. -/
theorem time2Format_general (tmp : Int) (h1 : -(2 ^ 63) < tmp) (h2 : tmp < 2 ^ 63) :
    time2SecPart tmp = ((tmp.natAbs % 2 ^ 24 : Nat) : Int) ∧
    time2Format tmp =
      (if tmp < 0 then "-" else "") ++ hmsText (tmp.natAbs / 2 ^ 24) ++
        (if time2SecPart tmp = 0 then "" else "." ++ fmtD 6 (time2SecPart tmp)) := by
  have hsec : time2SecPart tmp = ((tmp.natAbs % 2 ^ 24 : Nat) : Int) := by
    unfold time2SecPart
    split
    · have hn : neg64 tmp = -tmp := wrap64_of_range _ (by omega) (by omega)
      rw [hn, Int.tmod_eq_emod (by omega) (by norm_num)]
      omega
    · rw [Int.tmod_eq_emod (by omega) (by norm_num)]
      omega
  refine ⟨hsec, ?_⟩
  rw [hsec]
  have hdec : tmp.natAbs = tmp.natAbs / 2 ^ 24 * 2 ^ 24 + tmp.natAbs % 2 ^ 24 := by omega
  by_cases hneg : tmp < 0
  · have ht : tmp = -((tmp.natAbs / 2 ^ 24 * 2 ^ 24 + tmp.natAbs % 2 ^ 24 : Nat) : Int) := by
      omega
    have hf := time2Format_neg (tmp.natAbs / 2 ^ 24) (tmp.natAbs % 2 ^ 24) (by omega) (by omega)
      (by omega)
    rw [← ht] at hf
    rw [hf, if_pos hneg]
    by_cases hz : tmp.natAbs % 2 ^ 24 = 0
    · have hz' : ((tmp.natAbs % 2 ^ 24 : Nat) : Int) = 0 := by omega
      rw [if_neg (by omega), if_pos hz']
      simp
    · have hz' : ¬ ((tmp.natAbs % 2 ^ 24 : Nat) : Int) = 0 := by omega
      rw [if_pos hz, if_neg hz']
      simp [String.append_assoc]
  · have ht : tmp = ((tmp.natAbs / 2 ^ 24 * 2 ^ 24 + tmp.natAbs % 2 ^ 24 : Nat) : Int) := by
      omega
    have hf := time2Format_nonneg (tmp.natAbs / 2 ^ 24) (tmp.natAbs % 2 ^ 24) (by omega)
    rw [← ht] at hf
    rw [hf, if_neg hneg]
    by_cases hz : tmp.natAbs % 2 ^ 24 = 0
    · have hz' : ((tmp.natAbs % 2 ^ 24 : Nat) : Int) = 0 := by omega
      rw [if_neg (by omega), if_pos hz']
      simp
    · have hz' : ¬ ((tmp.natAbs % 2 ^ 24 : Nat) : Int) = 0 := by omega
      rw [if_pos hz, if_neg hz']
      simp [String.append_assoc]

/-- C18. The fractional suffix of `DecodeTime2` depends on the value, not on the precision:
for every precision and every input on which the switch leaves `intPart ≠ 0`, the result is
`[-]HH:MM:SS` of `|tmp| >> 24`, with `-` exactly when `tmp < 0`, followed by `.` and
`secPart = |tmp| mod 2^24` printed with `%06d` exactly when `secPart ≠ 0`. -/
theorem DecodeTime2_suffix (data : List Byte) (dec : Nat) (tmp intPart : Int)
    (hsw : time2Switch data dec = some (tmp, intPart)) (hnz : intPart ≠ 0) :
    time2SecPart tmp = ((tmp.natAbs % 2 ^ 24 : Nat) : Int) ∧
    DecodeTime2 data dec =
      some ((if tmp < 0 then "-" else "") ++ hmsText (tmp.natAbs / 2 ^ 24) ++
        (if time2SecPart tmp = 0 then "" else "." ++ fmtD 6 (time2SecPart tmp)),
        3 + (dec + 1) % 65536 / 2) := by
  obtain ⟨b1, b2⟩ := time2Switch_bound data dec tmp intPart hsw
  obtain ⟨g1, g2⟩ := time2Format_general tmp (by omega) (by omega)
  refine ⟨g1, ?_⟩
  simp only [DecodeTime2, hsw, Option.bind_eq_bind, Option.some_bind, hnz, if_false, g2]

/-- Witness of C18: 1 hour 2 minutes 3 seconds with half a second at precision 2. -/
theorem DecodeTime2_suffix_witness :
    time2SecPart (0x1083 * 2 ^ 24 + 500000) =
      (((0x1083 * 2 ^ 24 + 500000 : Int).natAbs % 2 ^ 24 : Nat) : Int) ∧
    DecodeTime2 [0x80, 0x10, 0x83, 0x32] 2 = some ("01:02:03.500000", 3 + (2 + 1) % 65536 / 2) :=
  DecodeTime2_suffix [0x80, 0x10, 0x83, 0x32] 2 (0x1083 * 2 ^ 24 + 500000) 0x1083 (by decide)
    (by decide)

/-! ## Sub-second durations -/

/-- The borrow correction when it does not apply. -/
theorem time2Borrow_skipped (i f base : Int) (h : ¬(i < 0 ∧ f > 0)) :
    time2Borrow i f base = (i, f) := by
  unfold time2Borrow
  rw [if_neg h]

/-- C19. Sub-second durations lose their fraction: at precision 2 and 4, on the integer
part `80 00 00` with any raw fraction, and on the integer part `7F FF FF` with a positive raw
fraction (the borrow correction raises `intPart` from -1 to 0), the switch of `DecodeTime2`
leaves `intPart = 0` with `tmp` equal to the scaled fraction, which is not zero for a non-zero
raw fraction, and the result is `00:00:00`. -/
theorem DecodeTime2_subsecond (f1 f2 : Byte) (rest : List Byte) :
    (time2Switch (0x80 :: 0 :: 0 :: f1 :: rest) 2 = some ((f1.val : Int) * 10000, 0) ∧
      DecodeTime2 (0x80 :: 0 :: 0 :: f1 :: rest) 2 = some ("00:00:00", 4)) ∧
    (time2Switch (0x80 :: 0 :: 0 :: f1 :: f2 :: rest) 4 =
        some (((f1.val * 256 + f2.val : Nat) : Int) * 100, 0) ∧
      DecodeTime2 (0x80 :: 0 :: 0 :: f1 :: f2 :: rest) 4 = some ("00:00:00", 5)) ∧
    (0 < f1.val →
      time2Switch (0x7F :: 0xFF :: 0xFF :: f1 :: rest) 2 =
        some (((f1.val : Int) - 256) * 10000, 0) ∧
      ((f1.val : Int) - 256) * 10000 ≠ 0 ∧
      DecodeTime2 (0x7F :: 0xFF :: 0xFF :: f1 :: rest) 2 = some ("00:00:00", 4)) ∧
    (0 < f1.val * 256 + f2.val →
      time2Switch (0x7F :: 0xFF :: 0xFF :: f1 :: f2 :: rest) 4 =
        some ((((f1.val * 256 + f2.val : Nat) : Int) - 65536) * 100, 0) ∧
      (((f1.val * 256 + f2.val : Nat) : Int) - 65536) * 100 ≠ 0 ∧
      DecodeTime2 (0x7F :: 0xFF :: 0xFF :: f1 :: f2 :: rest) 4 = some ("00:00:00", 5)) := by
  have h1 := f1.isLt
  have h2 := f2.isLt
  have i0 : sub64 ((DecodeVarLen64BigEndian [0x80, 0, 0] : Nat) : Int) intOffset = 0 := by decide
  have i1 : sub64 ((DecodeVarLen64BigEndian [0x7F, 0xFF, 0xFF] : Nat) : Int) intOffset = -1 := by
    decide
  have k1 := time2Borrow_skipped 0 (f1.val : Int) 0x100 (by omega)
  have k2 := time2Borrow_skipped 0 ((f1.val * 256 + f2.val : Nat) : Int) 0x10000 (by omega)
  have sw1 : time2Switch (0x80 :: 0 :: 0 :: f1 :: rest) 2 = some ((f1.val : Int) * 10000, 0) := by
    simp only [time2Switch, slice_zero_three, index, i0, Option.bind_eq_bind,
      Option.some_bind, List.getElem?_cons_succ, List.getElem?_cons_zero,
      k1, add64, shl64, mul64, wrap64, Option.some.injEq,
      Prod.mk.injEq, and_true]
    omega
  have sw2 : time2Switch (0x80 :: 0 :: 0 :: f1 :: f2 :: rest) 4 =
      some (((f1.val * 256 + f2.val : Nat) : Int) * 100, 0) := by
    simp only [time2Switch, slice_zero_three, uint16_three_five, i0, Option.bind_eq_bind,
      Option.some_bind, k2, add64, shl64, mul64, wrap64,
      Option.some.injEq, Prod.mk.injEq, and_true]
    omega
  refine ⟨⟨sw1, ?_⟩, ⟨sw2, ?_⟩, fun hf => ?_, fun hf => ?_⟩
  · simp only [DecodeTime2, sw1, Option.bind_eq_bind, Option.some_bind, if_true]
  · simp only [DecodeTime2, sw2, Option.bind_eq_bind, Option.some_bind, if_true]
  · have hb := time2Borrow_taken (-1) (f1.val : Int) 0x100 (by omega) (by omega) (by omega)
      (by omega) (by omega) (by omega)
    have sw3 : time2Switch (0x7F :: 0xFF :: 0xFF :: f1 :: rest) 2 =
        some (((f1.val : Int) - 256) * 10000, 0) := by
      simp only [time2Switch, slice_zero_three, index, i1, Option.bind_eq_bind,
        Option.some_bind, List.getElem?_cons_succ, List.getElem?_cons_zero, hb, add64, shl64,
        mul64, wrap64, Option.some.injEq, Prod.mk.injEq]
      constructor <;> omega
    refine ⟨sw3, by omega, ?_⟩
    simp only [DecodeTime2, sw3, Option.bind_eq_bind, Option.some_bind, if_true]
  · have hb := time2Borrow_taken (-1) ((f1.val * 256 + f2.val : Nat) : Int) 0x10000 (by omega)
      (by omega) (by omega) (by omega) (by omega) (by omega)
    have sw4 : time2Switch (0x7F :: 0xFF :: 0xFF :: f1 :: f2 :: rest) 4 =
        some ((((f1.val * 256 + f2.val : Nat) : Int) - 65536) * 100, 0) := by
      simp only [time2Switch, slice_zero_three, uint16_three_five, i1, Option.bind_eq_bind,
        Option.some_bind, hb, add64, shl64, mul64, wrap64, Option.some.injEq, Prod.mk.injEq]
      constructor <;> omega
    refine ⟨sw4, by omega, ?_⟩
    simp only [DecodeTime2, sw4, Option.bind_eq_bind, Option.some_bind, if_true]

/-- Witness of C19: half a second, and minus a tenth of a second (`7F FF FF F6`). -/
theorem DecodeTime2_subsecond_witness :
    DecodeTime2 [0x80, 0, 0, 0x32] 2 = some ("00:00:00", 4) ∧
    DecodeTime2 [0x7F, 0xFF, 0xFF, 0xF6] 2 = some ("00:00:00", 4) ∧
    DecodeTime2 [0x7F, 0xFF, 0xFF, 0xFF, 0x9C] 4 = some ("00:00:00", 5) :=
  ⟨(DecodeTime2_subsecond 0x32 0 []).1.2,
   ((DecodeTime2_subsecond 0xF6 0 []).2.2.1 (by decide)).2.2,
   ((DecodeTime2_subsecond 0xFF 0x9C []).2.2.2 (by decide)).2.2⟩

/-! ## The decoders read only the bytes they report -/

theorem slice_take (data : List Byte) (lo hi n : Nat) (h : hi ≤ n) :
    slice (data.take n) lo hi = slice data lo hi := by
  unfold slice
  have hv : ((data.take n).drop lo).take (hi - lo) = (data.drop lo).take (hi - lo) := by
    rw [List.drop_take, List.take_take]
    congr 1
    omega
  by_cases hc : lo ≤ hi ∧ hi ≤ data.length
  · rw [if_pos hc, if_pos (by simp only [List.length_take]; omega), hv]
  · rw [if_neg hc, if_neg (by simp only [List.length_take]; omega)]

theorem index_take (data : List Byte) (i n : Nat) (h : i < n) :
    index (data.take n) i = index data i := by
  unfold index
  exact List.getElem?_take_of_lt h

theorem BigEndianUint16_take (l : List Byte) (k : Nat) (h : 2 ≤ k) :
    BigEndianUint16 (l.take k) = BigEndianUint16 l := by
  obtain ⟨j, rfl⟩ : ∃ j, k = j + 2 := ⟨k - 2, by omega⟩
  match l with
  | [] => rfl
  | [_] => rfl
  | _ :: _ :: _ => rfl

theorem sliceFrom_take_uint16 (data : List Byte) (lo n : Nat) (h : lo + 2 ≤ n)
    (hn : n ≤ data.length) :
    (sliceFrom (data.take n) lo).bind BigEndianUint16 =
      (sliceFrom data lo).bind BigEndianUint16 := by
  unfold sliceFrom
  rw [if_pos (by simp only [List.length_take]; omega), if_pos (by omega)]
  simp only [Option.some_bind, List.drop_take]
  exact BigEndianUint16_take _ _ (by omega)

/-- The switch of `DecodeTimestamp2` reads inside the first `4 + extraBytes p` bytes. -/
theorem timestamp2Usec_take (data : List Byte) (p : Nat) (hp : p ≤ 6)
    (hn : 4 + extraBytes p ≤ data.length) :
    timestamp2Usec (data.take (4 + extraBytes p)) p = timestamp2Usec data p := by
  have hp' : p = 0 ∨ p = 1 ∨ p = 2 ∨ p = 3 ∨ p = 4 ∨ p = 5 ∨ p = 6 := by omega
  rcases hp' with h | h | h | h | h | h | h <;> subst h <;>
    simp only [extraBytes] at hn ⊢
  · rfl
  · simp only [timestamp2Usec, index_take data 4 (4 + 1) (by omega)]
  · simp only [timestamp2Usec, index_take data 4 (4 + 1) (by omega)]
  · simp only [timestamp2Usec, sliceFrom_take_uint16 data 4 (4 + 2) (by omega) hn]
  · simp only [timestamp2Usec, sliceFrom_take_uint16 data 4 (4 + 2) (by omega) hn]
  · simp only [timestamp2Usec, slice_take data 4 7 (4 + 3) (by omega)]
  · simp only [timestamp2Usec, slice_take data 4 7 (4 + 3) (by omega)]

/-- The switch of `DecodeDatetime2` reads inside the first `5 + extraBytes p` bytes. -/
theorem datetime2Frac_take (data : List Byte) (p : Nat) (hp : p ≤ 6) :
    datetime2Frac (data.take (5 + extraBytes p)) p = datetime2Frac data p := by
  have hp' : p = 0 ∨ p = 1 ∨ p = 2 ∨ p = 3 ∨ p = 4 ∨ p = 5 ∨ p = 6 := by omega
  rcases hp' with h | h | h | h | h | h | h <;> subst h <;>
    simp only [extraBytes]
  · rfl
  · simp only [datetime2Frac, index_take data 5 (5 + 1) (by omega)]
  · simp only [datetime2Frac, index_take data 5 (5 + 1) (by omega)]
  · simp only [datetime2Frac, slice_take data 5 7 (5 + 2) (by omega)]
  · simp only [datetime2Frac, slice_take data 5 7 (5 + 2) (by omega)]
  · simp only [datetime2Frac, slice_take data 5 8 (5 + 3) (by omega)]
  · simp only [datetime2Frac, slice_take data 5 8 (5 + 3) (by omega)]

/-- The switch of `DecodeTime2` reads inside the first `3 + extraBytes p` bytes. -/
theorem time2Switch_take (data : List Byte) (p : Nat) (hp : p ≤ 6) :
    time2Switch (data.take (3 + extraBytes p)) p = time2Switch data p := by
  have hp' : p = 0 ∨ p = 1 ∨ p = 2 ∨ p = 3 ∨ p = 4 ∨ p = 5 ∨ p = 6 := by omega
  rcases hp' with h | h | h | h | h | h | h <;> subst h <;>
    simp only [extraBytes]
  · simp only [time2Switch, slice_take data 0 3 (3 + 0) (by omega)]
  · rfl
  · simp only [time2Switch, slice_take data 0 3 (3 + 1) (by omega),
      index_take data 3 (3 + 1) (by omega)]
  · rfl
  · simp only [time2Switch, slice_take data 0 3 (3 + 2) (by omega),
      slice_take data 3 5 (3 + 2) (by omega)]
  · rfl
  · simp only [time2Switch, slice_take data 0 6 (3 + 3) (by omega)]

/-- Each decoder gives on its input what it gives on the bytes it reports as consumed. -/
theorem decode_take (Local : Location) (data : List Byte) (p : Nat) (hp : p ≤ 6) :
    (4 + extraBytes p ≤ data.length →
      DecodeTimestamp2 Local (data.take (4 + extraBytes p)) p = DecodeTimestamp2 Local data p) ∧
    DecodeDatetime2 (data.take (5 + extraBytes p)) p = DecodeDatetime2 data p ∧
    DecodeTime2 (data.take (3 + extraBytes p)) p = DecodeTime2 data p := by
  refine ⟨fun hn => ?_, ?_, ?_⟩
  · simp only [DecodeTimestamp2, slice_take data 0 4 (4 + extraBytes p) (by omega),
      timestamp2Usec_take data p hp hn]
  · simp only [DecodeDatetime2, slice_take data 0 5 (5 + extraBytes p) (by omega),
      datetime2Frac_take data p hp]
  · simp only [DecodeTime2, time2Switch_take data p hp]

/-- C20. A decoder never looks past the bytes it reports as consumed: for every precision
`p` in 0..6 and every two byte slices at least `n` long that agree on their first `n` bytes,
`n` being `4 + e(p)`, `5 + e(p)`, `3 + e(p)` for `DecodeTimestamp2`, `DecodeDatetime2`,
`DecodeTime2`, both calls return the same string and the same `n`. -/
theorem decode_consumed_only (Local : Location) (data data2 : List Byte) (p : Nat) (hp : p ≤ 6) :
    (4 + extraBytes p ≤ data.length → 4 + extraBytes p ≤ data2.length →
      data.take (4 + extraBytes p) = data2.take (4 + extraBytes p) →
      ∃ s, DecodeTimestamp2 Local data p = some (s, 4 + extraBytes p) ∧
        DecodeTimestamp2 Local data2 p = some (s, 4 + extraBytes p)) ∧
    (5 + extraBytes p ≤ data.length → 5 + extraBytes p ≤ data2.length →
      data.take (5 + extraBytes p) = data2.take (5 + extraBytes p) →
      ∃ s, DecodeDatetime2 data p = some (s, 5 + extraBytes p) ∧
        DecodeDatetime2 data2 p = some (s, 5 + extraBytes p)) ∧
    (3 + extraBytes p ≤ data.length → 3 + extraBytes p ≤ data2.length →
      data.take (3 + extraBytes p) = data2.take (3 + extraBytes p) →
      ∃ s, DecodeTime2 data p = some (s, 3 + extraBytes p) ∧
        DecodeTime2 data2 p = some (s, 3 + extraBytes p)) := by
  obtain ⟨a1, a2, a3⟩ := decode_take Local data p hp
  obtain ⟨c1, c2, c3⟩ := decode_take Local data2 p hp
  refine ⟨fun h1 h2 he => ?_, fun h1 _ he => ?_, fun h1 _ he => ?_⟩
  · obtain ⟨s, hs⟩ := DecodeTimestamp2_total Local data p hp h1
    exact ⟨s, hs, by rw [← c1 h2, ← he, a1 h1, hs]⟩
  · obtain ⟨s, hs⟩ := DecodeDatetime2_total data p hp h1
    exact ⟨s, hs, by rw [← c2, ← he, a2, hs]⟩
  · obtain ⟨s, hs⟩ := DecodeTime2_total data p hp h1
    exact ⟨s, hs, by rw [← c3, ← he, a3, hs]⟩

/-- Witness of C20: two slices that agree on four bytes, precision 2 of `DecodeTime2`. -/
theorem decode_consumed_only_witness :
    ∃ s, DecodeTime2 [0x80, 0x10, 0x83, 0x32, 1, 2] 2 = some (s, 3 + extraBytes 2) ∧
      DecodeTime2 [0x80, 0x10, 0x83, 0x32, 9] 2 = some (s, 3 + extraBytes 2) :=
  (decode_consumed_only UTC [0x80, 0x10, 0x83, 0x32, 1, 2] [0x80, 0x10, 0x83, 0x32, 9] 2
    (by decide)).2.2 (by decide) (by decide) (by decide)

end Blt
